import Mathlib

/-!
# Habit completion and streak subsystem

A shallow embedding of `src/controllers/habitController.js` together with the two
Mongoose schemas it works on (`models/Habit.js`, `models/HabitCompletion.js`).

* The two MongoDB collections are lists of documents in natural (insertion) order.
* Every handler is a function from the store and the request to a response and
  the store after the call; the clock reading `now` is an argument.
* JavaScript `Date` time values are integers (milliseconds since the epoch);
  `none` stands for an Invalid Date.
* The server's local time zone is a parameter (`TimeZone`).
* Counters are integers: they are JavaScript numbers that the handlers only ever
  change by one.
* Timestamps (`createdAt`, `updatedAt`), `__v` and response message texts are not
  modelled.
-/

namespace Habits

/-! ## Dates -/

/-- Milliseconds in a day (`24 * 60 * 60 * 1000`). -/
def msPerDay : Int := 24 * 60 * 60 * 1000

/-- Largest magnitude of a valid ECMAScript time value. -/
def maxTimeValue : Int := 8640000000000000

/-- ECMAScript `TimeClip`: a time value out of range is an Invalid Date. -/
def timeClip (t : Int) : Option Int :=
  if -maxTimeValue ≤ t ∧ t ≤ maxTimeValue then some t else none

/-- The server's local time zone, as the two readings of ECMAScript's `LocalTZA`:
the offset in force at a UTC instant, and the offset used to interpret a local
time value. -/
structure TimeZone where
  offsetAtUTC : Int → Int
  offsetAtLocal : Int → Int

/-- A zone whose offset from UTC never changes. -/
def fixedZone (offset : Int) : TimeZone :=
  { offsetAtUTC := fun _ => offset, offsetAtLocal := fun _ => offset }

/-- ECMAScript `LocalTime(t)`. -/
def localTime (tz : TimeZone) (t : Int) : Int := t + tz.offsetAtUTC t

/-- ECMAScript `UTC(t)`. -/
def toUTC (tz : TimeZone) (t : Int) : Int := t - tz.offsetAtLocal t

/-- The local calendar day of an instant, as a day number (`Day(LocalTime(t))`). -/
def localDay (tz : TimeZone) (t : Int) : Int := localTime tz t / msPerDay

/-- Model of `d.setHours(0, 0, 0, 0)` on a valid date with time value `t`: the
start of the local calendar day of `t`. -/
def setHoursZero (tz : TimeZone) (t : Int) : Option Int :=
  timeClip (toUTC tz (localDay tz t * msPerDay))

/-- Model of `d.setDate(d.getDate() + 1)` on a valid date with time value `t`. -/
def setDateNext (tz : TimeZone) (t : Int) : Option Int :=
  timeClip (toUTC tz (localTime tz t + msPerDay))

/-- The `date` property of a request body, seen through `date ? new Date(date) : new Date()`:
absent or falsy, a truthy value that `new Date` cannot read, or a truthy value that
`new Date` reads as time value `t`. -/
inductive DateArg where
  | absent
  | invalid
  | instant (t : Int)
  deriving DecidableEq, Repr

/-- Model of `date ? new Date(date) : new Date()`. -/
def requestedDate (now : Int) : DateArg → Option Int
  | DateArg.absent => timeClip now
  | DateArg.invalid => none
  | DateArg.instant t => timeClip t

/-- The `completionDate` of `completeHabit` and `uncompleteHabit`: the requested
date normalised to the start of its day. -/
def completionDate (tz : TimeZone) (now : Int) (date : DateArg) : Option Int :=
  (requestedDate now date).bind (setHoursZero tz)

/-- The `today` of the read handlers: `new Date()` with `setHours(0, 0, 0, 0)`. -/
def todayStart (tz : TimeZone) (now : Int) : Option Int :=
  (timeClip now).bind (setHoursZero tz)

/-- The `tomorrow` of the read handlers: a copy of `today` moved on by one date. -/
def tomorrowStart (tz : TimeZone) (now : Int) : Option Int :=
  (todayStart tz now).bind (setDateNext tz)

/-! ## Strings -/

/-- ECMAScript white space and line terminators, the characters `trim` removes. -/
def jsIsSpace (c : Char) : Bool :=
  let n := c.toNat
  n == 0x9 || n == 0xA || n == 0xB || n == 0xC || n == 0xD || n == 0x20 || n == 0xA0 ||
  n == 0x1680 || (0x2000 ≤ n && n ≤ 0x200A) || n == 0x2028 || n == 0x2029 ||
  n == 0x202F || n == 0x205F || n == 0x3000 || n == 0xFEFF

/-- Model of `String.prototype.trim`, which the `trim: true` schema option applies. -/
def jsTrim (s : String) : String :=
  String.mk ((s.data.dropWhile jsIsSpace).reverse.dropWhile jsIsSpace).reverse

/-- The `length` of a JavaScript string: its number of UTF-16 code units. -/
def jsLength (s : String) : Nat :=
  (s.data.map (fun c => if c.toNat < 0x10000 then 1 else 2)).sum

/-- Validators of the `name` path: `required` and `maxlength: 100`. -/
def validName (name : String) : Bool :=
  decide (0 < jsLength name) && decide (jsLength name ≤ 100)

/-! ## Documents and the store -/

/-- A document of the `Habit` collection. -/
structure Habit where
  _id : Nat
  userId : Nat
  name : String
  icon : String
  tags : List String
  completionCount : Int
  streak : Int
  color : String
  deriving DecidableEq, Repr

/-- A document of the `HabitCompletion` collection. -/
structure HabitCompletion where
  habitId : Nat
  userId : Nat
  date : Int
  deriving DecidableEq, Repr

/-- The two collections. -/
structure Store where
  habits : List Habit
  completions : List HabitCompletion
  deriving DecidableEq, Repr

/-- The store with no document. -/
def emptyStore : Store := { habits := [], completions := [] }

/-- A route parameter `:habitId`: either a string that Mongoose cannot cast to an
ObjectId, or an ObjectId. -/
inductive IdParam where
  | malformed
  | oid (id : Nat)
  deriving DecidableEq, Repr

/-- Model of `Habit.findOne({ _id: habitId, userId })` for a well-formed id. -/
def findHabit (s : Store) (habitId userId : Nat) : Option Habit :=
  s.habits.find? (fun h => h._id == habitId && h.userId == userId)

/-- Model of `habit.save()` for a loaded document: validation, then the stored
document with this `_id` is brought to the document's state. `none` is a
validation failure. -/
def saveHabit (s : Store) (h : Habit) : Option Store :=
  if validName h.name then
    some { s with habits := s.habits.map (fun x => if x._id == h._id then h else x) }
  else none

/-- Model of `habit.deleteOne()`. -/
def deleteOneHabit (s : Store) (h : Habit) : Store :=
  { s with habits := s.habits.filter (fun x => !(x._id == h._id)) }

/-- Model of `HabitCompletion.deleteMany({ habitId })`. -/
def deleteManyCompletions (s : Store) (habitId : Nat) : Store :=
  { s with completions := s.completions.filter (fun c => !(c.habitId == habitId)) }

/-- Whether the unique index `{ habitId, date, userId }` already holds this key. -/
def hasCompletion (s : Store) (habitId userId : Nat) (date : Int) : Bool :=
  s.completions.any (fun c => c.habitId == habitId && c.userId == userId && c.date == date)

/-- The filter `{ habitId, userId, date: { $gte: lo, $lt: hi } }`. -/
def inRange (habitId userId : Nat) (lo hi : Int) (c : HabitCompletion) : Bool :=
  c.habitId == habitId && c.userId == userId && decide (lo ≤ c.date) && decide (c.date < hi)

/-- Outcome of `HabitCompletion.create`. -/
inductive CreateResult where
  | created (s : Store)
  | duplicateKey
  | validationError

/-- Model of `HabitCompletion.create({ habitId, userId, date })`: the date is
validated, then the insert is checked against the unique index (error code 11000). -/
def createCompletion (s : Store) (habitId userId : Nat) (date : Option Int) : CreateResult :=
  match date with
  | none => CreateResult.validationError
  | some d =>
    if hasCompletion s habitId userId d then CreateResult.duplicateKey
    else CreateResult.created
      { s with completions := s.completions ++ [{ habitId := habitId, userId := userId, date := d }] }

/-- Model of `HabitCompletion.findOne` with a date range: is there a match. -/
def existsInRange (s : Store) (habitId userId : Nat) (lo hi : Int) : Bool :=
  s.completions.any (inRange habitId userId lo hi)

/-- Model of `HabitCompletion.findOneAndDelete` with a date range: the first match in
natural order is removed and returned. -/
def findOneAndDelete (s : Store) (habitId userId : Nat) (lo hi : Int) :
    Option HabitCompletion × Store :=
  (s.completions.find? (inRange habitId userId lo hi),
   { s with completions := s.completions.eraseP (inRange habitId userId lo hi) })

/-! ## Responses -/

/-- A habit as `toObject()` returns it, with the `completedToday` property set by
the handler. -/
structure HabitView where
  habit : Habit
  completedToday : Bool
  deriving DecidableEq, Repr

/-- The `data` of a success response. -/
inductive Payload where
  | counters (completionCount : Int) (completedToday : Bool) (streak : Int)
  | habit (h : Habit)
  | view (v : HabitView)
  | views (vs : List HabitView)
  | tags (ts : List (String × Nat))
  deriving DecidableEq, Repr

/-- What a handler sends: `successResponse`, `errorResponse`, or a bare status. -/
inductive Response where
  | success (status : Nat) (data : Payload)
  | error (status : Nat)
  | empty (status : Nat)
  deriving DecidableEq, Repr

/-- HTTP status of a response. -/
def Response.status : Response → Nat
  | Response.success st _ => st
  | Response.error st => st
  | Response.empty st => st

/-- Model of `successResponse(res, data)` with the default status. -/
def successResponse (data : Payload) : Response := Response.success 200 data

/-- Model of JavaScript `x || fallback` on a number. -/
def orElse (x fallback : Int) : Int := if x = 0 then fallback else x

/-- Model of `if (!x) { x = 1 } else { x += 1 }` on a counter. -/
def increment (x : Int) : Int := if x = 0 then 1 else x + 1

/-- Model of `if (x && x > 0) { x -= 1 }` on a counter. -/
def decrement (x : Int) : Int := if x ≠ 0 ∧ x > 0 then x - 1 else x

/-! ## Request bodies -/

/-- An integer that a JSON number holds exactly. A JSON number is parsed to a double,
which represents every integer of magnitude at most 2^53, and `String(n)` prints such
an integer in plain decimal digits. -/
abbrev SafeInt := { n : Int // n.natAbs ≤ 9007199254740992 }

/-- A JSON value of a request body. Modelled: the integers that a double holds
exactly, strings and arrays of strings. Fractions, larger numbers, booleans, `null` and
nested objects are outside the model. -/
inductive JVal where
  | num (n : SafeInt)
  | str (s : String)
  | strs (xs : List String)
  deriving DecidableEq, Repr

/-- A parsed JSON object: its keys, in order, with their values. -/
abbrev Body := List (String × JVal)

/-- The value `body[key]`, or `none` when it is `undefined`. -/
def Body.get (b : Body) (key : String) : Option JVal :=
  (b.find? (fun kv => kv.1 == key)).map (fun kv => kv.2)

/-- JavaScript truthiness of a body property: `undefined`, `0` and the empty string
are falsy. -/
def truthy : Option JVal → Bool
  | none => false
  | some (JVal.num n) => n.val != 0
  | some (JVal.str s) => s != ""
  | some (JVal.strs _) => true

/-- Mongoose cast to `String`; `none` is a cast error. -/
def castString : JVal → Option String
  | JVal.num n => some (toString n.val)
  | JVal.str s => some s
  | JVal.strs _ => none

/-- Mongoose cast to `[String]` with `trim`; a single value becomes a one-element array. -/
def castTags : JVal → Option (List String)
  | JVal.num n => some [toString n.val]
  | JVal.str s => some [jsTrim s]
  | JVal.strs xs => some (xs.map jsTrim)

/-- Mongoose cast to `Number`, for numeric values. -/
def castNumber : JVal → Option Int
  | JVal.num n => some n.val
  | _ => none

/-- Mongoose cast to `ObjectId`, for values naming an id. -/
def castId : JVal → Option Nat
  | JVal.num n => if 0 ≤ n.val then some n.val.toNat else none
  | _ => none

/-- Model of the assignment `habit[key] = value` as far as the fields of the schema
go: the value is cast to the type of the field; `none` is a cast error, which makes the
next `save` fail. Another key changes no field of the schema; what it does to the
document is told by `assignKey`. -/
def assignPath (h : Habit) (key : String) (v : JVal) : Option Habit :=
  if key = "name" then (castString v).map (fun x => { h with name := jsTrim x })
  else if key = "icon" then (castString v).map (fun x => { h with icon := x })
  else if key = "color" then (castString v).map (fun x => { h with color := x })
  else if key = "tags" then (castTags v).map (fun x => { h with tags := x })
  else if key = "completionCount" then (castNumber v).map (fun x => { h with completionCount := x })
  else if key = "streak" then (castNumber v).map (fun x => { h with streak := x })
  else if key = "userId" then (castId v).map (fun x => { h with userId := x })
  else some h

/-- What the assignment `habit[key] = value` does to a loaded document when `key` is
no field of the schema and none of `_id`, `isNew` and `save`: `inert` for a key that
names nothing `save()` or `toObject()` reads (a plain property), `setsId` and `newFlag`
for other names of `_id` and `isNew`, `breaksSave` when `save()` then fails before it
writes (a method it needs is overwritten, or the value cannot be cast to the type of a
path outside the fields of the model), `breaksView` when `save()` writes and
`toObject()` then throws. -/
inductive Member where
  | inert
  | setsId
  | newFlag
  | breaksSave
  | breaksView
  deriving DecidableEq, Repr

/-- What the model takes from Mongoose as given. The class of a document belongs to
Mongoose, not to this repository, so `updateHabit` is modelled for every cast of a JSON
value to an ObjectId (`none` is a cast error) and every table of the effects of the
further keys, given the assigned value. -/
structure DocumentClass where
  castObjectId : JVal → Option Nat
  member : String → JVal → Member

/-- A loaded `Habit` document while `updateHabit` works on it: the fields of the schema
(`none` once a value could not be cast), the `_id` (`none` once a value could not be
cast to an ObjectId), the `isNew` flag, and whether `save()` and `toObject()` throw. -/
structure Doc where
  fields : Option Habit
  id : Option Nat
  isNew : Bool
  saveThrows : Bool
  viewThrows : Bool
  deriving DecidableEq, Repr

/-- Model of the assignment `habit[key] = value` on a loaded document. A field of the
schema is cast and set (`assignPath`). `_id` is cast to an ObjectId and set. `isNew` is
a plain flag that `save()` tests for truth. `save` becomes an own property that hides
the method, so `habit.save()` throws a TypeError. Every other key does what the
document class says. -/
def assignKey (m : DocumentClass) (doc : Doc) (key : String) (v : JVal) : Doc :=
  if key = "name" ∨ key = "icon" ∨ key = "color" ∨ key = "tags" ∨
      key = "completionCount" ∨ key = "streak" ∨ key = "userId" then
    { doc with fields := doc.fields.bind (fun h => assignPath h key v) }
  else if key = "_id" then { doc with id := m.castObjectId v }
  else if key = "isNew" then { doc with isNew := truthy (some v) }
  else if key = "save" then { doc with saveThrows := true }
  else
    match m.member key v with
    | Member.inert => doc
    | Member.setsId => { doc with id := m.castObjectId v }
    | Member.newFlag => { doc with isNew := truthy (some v) }
    | Member.breaksSave => { doc with saveThrows := true }
    | Member.breaksView => { doc with viewThrows := true }

/-- The loop of `updateHabit` over `Object.keys(updates)`: every key other than the
three protected ones is assigned. -/
def applyUpdates (m : DocumentClass) (habit : Habit) (updates : Body) : Doc :=
  updates.foldl
    (fun doc kv =>
      if kv.1 ≠ "userId" ∧ kv.1 ≠ "completionCount" ∧ kv.1 ≠ "streak" then
        assignKey m doc kv.1 kv.2
      else doc)
    { fields := some habit, id := some habit._id, isNew := false, saveThrows := false,
      viewThrows := false }

/-- The document as `save()` and `toObject()` read it, when every assigned value could
be cast. -/
def Doc.habit (doc : Doc) : Option Habit :=
  match doc.fields, doc.id with
  | some f, some k => some { f with _id := k }
  | _, _ => none

/-- The update `{ $set: ... }` that `save()` sends for a document that is not new: the
fields of `d` that differ from the loaded document are the modified paths, and they are
written to the stored document `x`. -/
def setModified (loaded d x : Habit) : Habit :=
  { x with
    name := if d.name = loaded.name then x.name else d.name
    icon := if d.icon = loaded.icon then x.icon else d.icon
    color := if d.color = loaded.color then x.color else d.color
    tags := if d.tags = loaded.tags then x.tags else d.tags }

/-- Model of `habit.save()` in `updateHabit`; `none` is a rejection, with nothing
written. The call throws when `save` is hidden; validation fails on a pending cast
error or an invalid name. A document marked new is inserted as a whole, which the
unique index on `_id` refuses when the id is taken. Otherwise the modified paths are
set on the stored document that has the `_id` of the document, and Mongoose rejects
with a DocumentNotFoundError when there is none. -/
def saveDoc (s : Store) (loaded : Habit) (doc : Doc) : Option Store :=
  if doc.saveThrows then none
  else
    match doc.habit with
    | none => none
    | some d =>
      if validName d.name then
        if doc.isNew then
          if s.habits.any (fun x => x._id == d._id) then none
          else some { s with habits := s.habits ++ [d] }
        else if s.habits.any (fun x => x._id == d._id) then
          some { s with habits := s.habits.map (fun x =>
            if x._id == d._id then setModified loaded d x else x) }
        else none
      else none

/-- Model of `Habit.create({ userId, name, ..., tags, color })` up to the insert: the
document with the schema defaults, or `none` on a cast or validation error. The
fields `description`, `frequency`, `reminder` and `reminderTime` are no paths of the
schema and are dropped. -/
def newHabit (newId userId : Nat) (body : Body) : Option Habit :=
  let base : Habit :=
    { _id := newId, userId := userId, name := "", icon := "default-habit-icon", tags := [],
      completionCount := 0, streak := 0, color := "#4a69bd" }
  let assign (key : String) (acc : Option Habit) : Option Habit :=
    match body.get key with
    | none => acc
    | some v => acc.bind (fun h => assignPath h key v)
  match assign "color" (assign "tags" (assign "name" (some base))) with
  | some h => if validName h.name then some h else none
  | none => none

/-! ## Handlers -/

/-- Model of the `completedToday` lookup shared by the read handlers: `none` when
one of the two bounds is an Invalid Date (the query throws). -/
def completedToday (tz : TimeZone) (now : Int) (s : Store) (habitId userId : Nat) : Option Bool :=
  match todayStart tz now, tomorrowStart tz now with
  | some lo, some hi => some (existsInRange s habitId userId lo hi)
  | _, _ => none

/-- Model of `getHabits` for an absent `tag` parameter or one that is a string. An
empty string is falsy and adds no filter. Mongoose casts the value of the filter with
the schema of the path, so the `trim` of a tag is applied to it. -/
def getHabits (tz : TimeZone) (now : Int) (s : Store) (userId : Nat) (tag : Option String) :
    Response × Store :=
  let wanted (h : Habit) : Bool :=
    h.userId == userId &&
      (match tag with
       | none => true
       | some t => if t = "" then true else h.tags.contains (jsTrim t))
  let habits := s.habits.filter wanted
  let views := habits.map (fun h =>
    (completedToday tz now s h._id userId).map (fun c => ({ habit := h, completedToday := c } : HabitView)))
  if views.all Option.isSome then
    (successResponse (Payload.views (views.filterMap id)), s)
  else (Response.error 500, s)

/-- Model of `createHabit`; `newId` is the ObjectId generated for the document. -/
def createHabit (s : Store) (userId newId : Nat) (body : Body) : Response × Store :=
  match newHabit newId userId body with
  | none => (Response.error 500, s)
  | some h =>
    if s.habits.any (fun x => x._id == newId) then (Response.error 500, s)
    else (Response.success 201 (Payload.habit h), { s with habits := s.habits ++ [h] })

/-- Model of `getHabit`. -/
def getHabit (tz : TimeZone) (now : Int) (s : Store) (userId : Nat) (habitId : IdParam) :
    Response × Store :=
  match habitId with
  | IdParam.malformed => (Response.error 500, s)
  | IdParam.oid hid =>
    match findHabit s hid userId with
    | none => (Response.error 404, s)
    | some habit =>
      match completedToday tz now s hid userId with
      | none => (Response.error 500, s)
      | some c => (successResponse (Payload.view { habit := habit, completedToday := c }), s)

/-- Model of `updateHabit`. -/
def updateHabit (m : DocumentClass) (tz : TimeZone) (now : Int) (s : Store) (userId : Nat)
    (habitId : IdParam) (updates : Body) : Response × Store :=
  match habitId with
  | IdParam.malformed => (Response.error 500, s)
  | IdParam.oid hid =>
    match findHabit s hid userId with
    | none => (Response.error 404, s)
    | some habit =>
      let doc := applyUpdates m habit updates
      match saveDoc s habit doc, doc.habit with
      | some s1, some d =>
        match completedToday tz now s1 hid userId with
        | none => (Response.error 500, s1)
        | some c =>
          if doc.viewThrows then (Response.error 500, s1)
          else (successResponse (Payload.view { habit := d, completedToday := c }), s1)
      | _, _ => (Response.error 500, s)

/-- Model of `deleteHabit`. -/
def deleteHabit (s : Store) (userId : Nat) (habitId : IdParam) : Response × Store :=
  match habitId with
  | IdParam.malformed => (Response.error 500, s)
  | IdParam.oid hid =>
    match findHabit s hid userId with
    | none => (Response.error 404, s)
    | some habit => (Response.empty 204, deleteManyCompletions (deleteOneHabit s habit) hid)

/-- Model of `completeHabit`. -/
def completeHabit (tz : TimeZone) (now : Int) (s : Store) (userId : Nat) (habitId : IdParam)
    (date : DateArg) : Response × Store :=
  match habitId with
  | IdParam.malformed => (Response.error 500, s)
  | IdParam.oid hid =>
    match findHabit s hid userId with
    | none => (Response.error 404, s)
    | some habit =>
      match createCompletion s hid userId (completionDate tz now date) with
      | CreateResult.created s1 =>
        let habit1 : Habit :=
          { habit with
            completionCount := increment habit.completionCount
            streak := increment habit.streak }
        match saveHabit s1 habit1 with
        | none => (Response.error 500, s1)
        | some s2 =>
          (successResponse (Payload.counters habit1.completionCount true habit1.streak), s2)
      | CreateResult.duplicateKey =>
        (successResponse
          (Payload.counters (orElse habit.completionCount 1) true (orElse habit.streak 1)), s)
      | CreateResult.validationError => (Response.error 500, s)

/-- Model of `uncompleteHabit`. -/
def uncompleteHabit (tz : TimeZone) (now : Int) (s : Store) (userId : Nat) (habitId : IdParam)
    (date : DateArg) : Response × Store :=
  match habitId with
  | IdParam.malformed => (Response.error 500, s)
  | IdParam.oid hid =>
    match findHabit s hid userId with
    | none => (Response.error 404, s)
    | some habit =>
      match completionDate tz now date with
      | none => (Response.error 500, s)
      | some lo =>
        match timeClip (lo + 24 * 60 * 60 * 1000) with
        | none => (Response.error 500, s)
        | some hi =>
          match findOneAndDelete s hid userId lo hi with
          | (some _, s1) =>
            let habit1 : Habit :=
              { habit with
                completionCount := decrement habit.completionCount
                streak := decrement habit.streak }
            match saveHabit s1 habit1 with
            | none => (Response.error 500, s1)
            | some s2 =>
              (successResponse
                (Payload.counters (orElse habit1.completionCount 0) false (orElse habit1.streak 0)), s2)
          | (none, s1) =>
            (successResponse
              (Payload.counters (orElse habit.completionCount 0) false (orElse habit.streak 0)), s1)

/-- Model of `getTags`: a fixed list. -/
def getTags (s : Store) (_userId : Nat) : Response × Store :=
  (successResponse (Payload.tags [("health", 3), ("work", 2), ("personal", 1)]), s)

/-! ## Sequences of calls -/

/-- A call of one of the five handlers that write, with its clock reading; an update
comes with the document class it runs against. -/
inductive Call where
  | create (userId newId : Nat) (body : Body)
  | update (m : DocumentClass) (now : Int) (userId : Nat) (habitId : IdParam) (updates : Body)
  | delete (userId : Nat) (habitId : IdParam)
  | complete (now : Int) (userId : Nat) (habitId : IdParam) (date : DateArg)
  | uncomplete (now : Int) (userId : Nat) (habitId : IdParam) (date : DateArg)

/-- Whether the call is a `completeHabit` or an `uncompleteHabit`. -/
def Call.isCompletion : Call → Bool
  | Call.complete _ _ _ _ => true
  | Call.uncomplete _ _ _ _ => true
  | _ => false

/-- Run one call. -/
def step (tz : TimeZone) (s : Store) : Call → Response × Store
  | Call.create u i b => createHabit s u i b
  | Call.update m now u h b => updateHabit m tz now s u h b
  | Call.delete u h => deleteHabit s u h
  | Call.complete now u h d => completeHabit tz now s u h d
  | Call.uncomplete now u h d => uncompleteHabit tz now s u h d

/-- Run the calls one after the other: the responses, in order, and the final store. -/
def run (tz : TimeZone) (s : Store) : List Call → List Response × Store
  | [] => ([], s)
  | c :: cs =>
    let r := step tz s c
    let rest := run tz r.2 cs
    (r.1 :: rest.1, rest.2)

/-! ## Notions used in the statements -/

/-- What the loop of `updateHabit` does to the fields of the schema: `none` when a
value could not be cast. -/
def applyFields (habit : Habit) (updates : Body) : Option Habit :=
  updates.foldl
    (fun acc kv =>
      if kv.1 ≠ "userId" ∧ kv.1 ≠ "completionCount" ∧ kv.1 ≠ "streak" then
        acc.bind (fun h => assignPath h kv.1 kv.2)
      else acc)
    (some habit)

/-- The value of a hexadecimal digit. -/
def hexValue (c : Char) : Option Nat :=
  if 48 ≤ c.toNat ∧ c.toNat ≤ 57 then some (c.toNat - 48)
  else if 97 ≤ c.toNat ∧ c.toNat ≤ 102 then some (c.toNat - 87)
  else if 65 ≤ c.toNat ∧ c.toNat ≤ 70 then some (c.toNat - 55)
  else none

/-- The ObjectId that a string of 24 hexadecimal digits names, read as a number. -/
def parseObjectId (s : String) : Option Nat :=
  if s.data.length = 24 then
    s.data.foldl (fun acc c => acc.bind (fun n => (hexValue c).map (fun d => 16 * n + d)))
      (some 0)
  else none

/-- A document class that casts a string of 24 hexadecimal digits to the ObjectId it
names, and in which every further key is a plain property. -/
def plainDocument : DocumentClass :=
  { castObjectId := fun v =>
      match v with
      | JVal.str s => parseObjectId s
      | _ => none,
    member := fun _ _ => Member.inert }

/-- The body has no key that assigns `_id`. -/
def keepsId (m : DocumentClass) (updates : Body) : Bool :=
  updates.all (fun kv => kv.1 != "_id" && m.member kv.1 kv.2 != Member.setsId)

/-- The body has no key that assigns `isNew`. -/
def keepsOld (m : DocumentClass) (updates : Body) : Bool :=
  updates.all (fun kv => kv.1 != "isNew" && m.member kv.1 kv.2 != Member.newFlag)

/-- The call is no `updateHabit` whose body has a key that assigns `isNew`. -/
def Call.updatesOld : Call → Bool
  | Call.update m _ _ _ b => keepsOld m b
  | _ => true

/-- The body has no key that makes `save()` or `toObject()` throw. -/
def keepsMethods (m : DocumentClass) (updates : Body) : Bool :=
  updates.all (fun kv => kv.1 != "save" && m.member kv.1 kv.2 != Member.breaksSave &&
    m.member kv.1 kv.2 != Member.breaksView)

/-- Number of ledger records with the key `(habitId, userId, date)`. -/
def keyCount (s : Store) (habitId userId : Nat) (date : Int) : Nat :=
  (s.completions.filter
    (fun c => c.habitId == habitId && c.userId == userId && c.date == date)).length

/-- A habit of user 7, as `createHabit` stores it. -/
def sampleHabit : Habit :=
  { _id := 1, userId := 7, name := "run", icon := "default-habit-icon", tags := [],
    completionCount := 0, streak := 0, color := "#4a69bd" }

/-- A store holding `sampleHabit` and no completion. -/
def sampleStore : Store := { habits := [sampleHabit], completions := [] }

/-- Both counters of the habit are at least 0. -/
def Habit.countersNonneg (h : Habit) : Bool :=
  decide (0 ≤ h.completionCount) && decide (0 ≤ h.streak)

/-- Every stored habit has both counters at least 0. -/
def Store.countersNonneg (s : Store) : Bool := s.habits.all Habit.countersNonneg

/-- The counters a response carries, if it carries any, are at least 0. -/
def Response.countersNonneg : Response → Bool
  | Response.success _ (Payload.counters c _ k) => decide (0 ≤ c) && decide (0 ≤ k)
  | _ => true

/-- A habit whose counters are still 0. -/
def staleHabit : Habit :=
  { _id := 1, userId := 7, name := "run", icon := "default-habit-icon", tags := [],
    completionCount := 0, streak := 0, color := "#4a69bd" }

/-- A store in which the ledger already holds the completion of `staleHabit` for
2024-01-01 (UTC) while the counters have not been raised: the state between the
insert and the save of a first `completeHabit`. -/
def staleStore : Store :=
  { habits := [staleHabit],
    completions := [{ habitId := 1, userId := 7, date := 1704067200000 }] }

/-- What a call leaves alone: the habits with another id and the completions of
another habit are the same in both stores. -/
def sameOthers (H : Nat) (s t : Store) : Prop :=
  t.habits.filter (fun x => !(x._id == H)) = s.habits.filter (fun x => !(x._id == H)) ∧
  t.completions.filter (fun c => !(c.habitId == H)) =
    s.completions.filter (fun c => !(c.habitId == H))

instance (H : Nat) (s t : Store) : Decidable (sameOthers H s t) := by
  unfold sameOthers
  exact inferInstance

/-- The tag usage of the specification: one entry for each tag carried by a habit of the
user, in order of first occurrence, with the number of the user's habits that carry
it. -/
def tagUsage (s : Store) (userId : Nat) : List (String × Nat) :=
  let mine := s.habits.filter (fun h => h.userId == userId)
  let names := (mine.map (fun h => h.tags)).flatten.eraseDups
  names.map (fun t => (t, (mine.filter (fun h => h.tags.contains t)).length))

/-- Model of `deleteHabit` when storage calls may fail: `cleanupFails` says that
`HabitCompletion.deleteMany` throws. The whole handler body is in one `try`, whose
`catch` logs the error and sends 500. -/
def deleteHabitWith (cleanupFails : Bool) (s : Store) (userId : Nat) (habitId : IdParam) :
    Response × Store :=
  match habitId with
  | IdParam.malformed => (Response.error 500, s)
  | IdParam.oid hid =>
    match findHabit s hid userId with
    | none => (Response.error 404, s)
    | some habit =>
      let s1 := deleteOneHabit s habit
      if cleanupFails then (Response.error 500, s1)
      else (Response.empty 204, deleteManyCompletions s1 hid)

/-- A zone that is on UTC until 2024-03-31T01:00Z and one hour ahead from then on, as
Europe/London around the start of summer time in 2024. Local times of the skipped hour
are read with the offset before the change. -/
def springZone : TimeZone :=
  { offsetAtUTC := fun t => if t < 1711846800000 then 0 else 3600000,
    offsetAtLocal := fun x => if x < 1711850400000 then 0 else 3600000 }

/-- The store after a habit of user 7 was created and completed for 2024-04-01
(`date` 2024-04-01T10:00Z) on a server in `springZone`. -/
def springStore : Store :=
  (run springZone emptyStore
    [Call.create 7 1 [("name", JVal.str "run")],
     Call.complete 0 7 (IdParam.oid 1) (DateArg.instant 1711965600000)]).2

/-- Three habits, two of user 7 and one of user 8, and one completion of the first for
2024-01-01 (UTC). -/
def listStore : Store :=
  { habits :=
      [{ sampleHabit with tags := ["health"], completionCount := 1, streak := 1 },
       { sampleHabit with _id := 2, userId := 8, tags := ["health"] },
       { sampleHabit with _id := 3, tags := ["work"] }],
    completions := [{ habitId := 1, userId := 7, date := 1704067200000 }] }

/-- Every ledger date is the start of a local day: normalising it again gives the
same date. -/
def Store.ledgerNormalised (tz : TimeZone) (s : Store) : Bool :=
  s.completions.all (fun c => setHoursZero tz c.date == some c.date)

/-- Model of `getErrorCode` of `utils/apiResponse.js`. -/
def getErrorCode (statusCode : Nat) : String :=
  if statusCode = 400 then "VALIDATION_ERROR"
  else if statusCode = 401 then "UNAUTHORIZED"
  else if statusCode = 403 then "FORBIDDEN"
  else if statusCode = 404 then "NOT_FOUND"
  else if statusCode = 409 then "CONFLICT"
  else if statusCode = 422 then "UNPROCESSABLE_ENTITY"
  else "SERVER_ERROR"

/-- The `success` property of the body a response carries; `none` when the response
has no body. -/
def Response.successField : Response → Option Bool
  | Response.success _ _ => some true
  | Response.error _ => some false
  | Response.empty _ => none

/-- The `error.code` property of the body of an `errorResponse`. -/
def Response.errorCode : Response → Option String
  | Response.error st => some (getErrorCode st)
  | _ => none

/-! ## Tasks by quadrant (`controllers/taskController.js`) -/

/-- A document of the `Task` collection; the two quadrant flags are the truthiness of
`isImportant` and `isUrgent`. -/
structure Task where
  _id : Nat
  name : String
  completed : Bool
  groupId : Nat
  isImportant : Bool
  isUrgent : Bool
  deriving DecidableEq, Repr

/-- The `quadrants` object of `getTasksByQuadrant`. -/
structure Quadrants where
  q1 : List Task
  q2 : List Task
  q3 : List Task
  q4 : List Task
  deriving DecidableEq, Repr

/-- Model of `getTasksByQuadrant` on the result of `Task.find()`: the status and the
`data` of the success response. -/
def getTasksByQuadrant (tasks : List Task) : Nat × Quadrants :=
  (200,
   { q1 := tasks.filter (fun task => task.isImportant && task.isUrgent),
     q2 := tasks.filter (fun task => task.isImportant && !task.isUrgent),
     q3 := tasks.filter (fun task => !task.isImportant && task.isUrgent),
     q4 := tasks.filter (fun task => !task.isImportant && !task.isUrgent) })

/-! ## Feedback (`controllers/feedbackController.js`) -/

/-- What `feedbackService.generateFeedback` returns. -/
structure ServiceResult where
  encourage : Option String
  criticize : Option String
  rawResponse : Option String
  deriving DecidableEq, Repr

/-- The feedback service, which asks a language model over the network: a function of
its three arguments, `none` when it throws. -/
abbrev FeedbackService := JVal → JVal → JVal → Option ServiceResult

/-- A document of the `FeedbackMessage` collection. -/
structure FeedbackMessage where
  _id : Nat
  userInput : String
  encourageStyle : String
  criticizeStyle : String
  encourageMessage : String
  criticizeMessage : String
  rawResponse : Option String
  processingTime : Int
  deriving DecidableEq, Repr

/-- What `generateFeedback` sends. -/
inductive FeedbackResponse where
  | invalid
  | created (id : Nat) (encourage criticize : Option String) (processingTime : Int)
  | failed
  deriving DecidableEq, Repr

/-- HTTP status of a feedback response. -/
def FeedbackResponse.status : FeedbackResponse → Nat
  | FeedbackResponse.invalid => 400
  | FeedbackResponse.created _ _ _ _ => 201
  | FeedbackResponse.failed => 500

/-- The `success` property of a feedback response. -/
def FeedbackResponse.success : FeedbackResponse → Bool
  | FeedbackResponse.created _ _ _ _ => true
  | _ => false

/-- The effects of one `generateFeedback` call: the response, the collection after the
call, and the calls made to the feedback service. -/
structure FeedbackOutcome where
  response : FeedbackResponse
  stored : List FeedbackMessage
  serviceCalls : List (JVal × JVal × JVal)
  deriving DecidableEq, Repr

/-- Model of `new FeedbackMessage({...})` with `save()`: every string is cast and
trimmed, and the five required strings must not be empty. -/
def newFeedbackMessage (newId : Nat) (userInput encourageStyle criticizeStyle : JVal)
    (r : ServiceResult) (processingTime : Int) : Option FeedbackMessage :=
  match castString userInput, castString encourageStyle, castString criticizeStyle,
      r.encourage, r.criticize with
  | some a, some b, some c, some e, some k =>
    let doc : FeedbackMessage :=
      { _id := newId, userInput := jsTrim a, encourageStyle := jsTrim b,
        criticizeStyle := jsTrim c, encourageMessage := jsTrim e, criticizeMessage := jsTrim k,
        rawResponse := r.rawResponse.map jsTrim, processingTime := processingTime }
    if doc.userInput ≠ "" ∧ doc.encourageStyle ≠ "" ∧ doc.criticizeStyle ≠ "" ∧
        doc.encourageMessage ≠ "" ∧ doc.criticizeMessage ≠ "" then some doc
    else none
  | _, _, _, _, _ => none

/-- Model of the controller `generateFeedback`; `newId` is the ObjectId of the new
document, `startTime` and `endTime` are the two readings of `Date.now()`. -/
def generateFeedback (service : FeedbackService) (newId : Nat) (startTime endTime : Int)
    (stored : List FeedbackMessage) (body : Body) : FeedbackOutcome :=
  let userInput := body.get "userInput"
  let encourageStyle := body.get "encourageStyle"
  let criticizeStyle := body.get "criticizeStyle"
  if !truthy userInput || !truthy encourageStyle || !truthy criticizeStyle then
    { response := FeedbackResponse.invalid, stored := stored, serviceCalls := [] }
  else
    match userInput, encourageStyle, criticizeStyle with
    | some a, some b, some c =>
      match service a b c with
      | none =>
        { response := FeedbackResponse.failed, stored := stored, serviceCalls := [(a, b, c)] }
      | some r =>
        match newFeedbackMessage newId a b c r (endTime - startTime) with
        | none =>
          { response := FeedbackResponse.failed, stored := stored, serviceCalls := [(a, b, c)] }
        | some doc =>
          { response :=
              FeedbackResponse.created doc._id r.encourage r.criticize (endTime - startTime),
            stored := stored ++ [doc], serviceCalls := [(a, b, c)] }
    | _, _, _ => { response := FeedbackResponse.failed, stored := stored, serviceCalls := [] }

/-- A feedback service that answers every call. -/
def sampleService : FeedbackService :=
  fun _ _ _ => some { encourage := some "go on", criticize := some "too slow", rawResponse := none }

/-! ## Authentication (`middleware/auth.js`) -/

/-- Model of `s.split(' ')` on the characters of a string. -/
def splitOnSpace : List Char → List (List Char)
  | [] => [[]]
  | c :: cs =>
    match splitOnSpace cs with
    | [] => [[c]]
    | part :: parts => if c = ' ' then [] :: part :: parts else (c :: part) :: parts

/-- The payload of a verified token: its `id` claim, if it has one. -/
structure TokenPayload where
  id : Option String
  deriving DecidableEq, Repr

/-- The function `jwt.verify(token, secret)` of the `jsonwebtoken` package with the
server's secret: the payload of the token, or `none` when it throws. The token is
`none` when the expression handed to it is `undefined`. -/
abbrev TokenVerifier := Option String → Option TokenPayload

/-- The effects of the `protect` middleware on a request: the response it sends, if
any, the `req.user` it sets, if any, and whether it calls `next`. -/
structure AuthOutcome where
  response : Option Response
  user : Option TokenPayload
  nextCalled : Bool
  deriving DecidableEq, Repr

/-- Model of `protect`; `authHeader` is `req.headers.authorization`. -/
def protect (verify : TokenVerifier) (authHeader : Option String) : AuthOutcome :=
  match authHeader with
  | none => { response := some (Response.error 401), user := none, nextCalled := false }
  | some header =>
    if header = "" ∨ !("Bearer ".data.isPrefixOf header.data) then
      { response := some (Response.error 401), user := none, nextCalled := false }
    else
      let token := ((splitOnSpace header.data).get? 1).map String.mk
      match verify token with
      | none => { response := some (Response.error 401), user := none, nextCalled := false }
      | some decodedToken =>
        { response := none, user := some { id := decodedToken.id }, nextCalled := true }

/-- A verifier that accepts the token `good` as the token of user `u7`. -/
def sampleVerifier : TokenVerifier :=
  fun token => if token = some "good" then some { id := some "u7" } else none

/-! ## Cleaning a model answer (`services/feedbackService.js`) -/

/-- Model of `cleanJsonResponse`. The markers consist of characters of one UTF-16 unit,
so `substring(7)`, `substring(3)` and `substring(0, length - 3)` drop that many
characters. -/
def cleanJsonResponse (response : String) : String :=
  let cleaned := jsTrim response
  let opened :=
    if "```json".data.isPrefixOf cleaned.data then String.mk (cleaned.data.drop 7)
    else if "```".data.isPrefixOf cleaned.data then String.mk (cleaned.data.drop 3)
    else cleaned
  let closed :=
    if "```".data.isSuffixOf opened.data then
      String.mk (opened.data.take (opened.data.length - 3))
    else opened
  jsTrim closed

/-- What `jsTrim` does, on the characters of the string. -/
def trimChars (l : List Char) : List Char :=
  ((l.dropWhile jsIsSpace).reverse.dropWhile jsIsSpace).reverse

/-- What `cleanJsonResponse` does, on the characters of the string. -/
def cleanChars (response : List Char) : List Char :=
  let cleaned := trimChars response
  let opened :=
    if "```json".data.isPrefixOf cleaned then cleaned.drop 7
    else if "```".data.isPrefixOf cleaned then cleaned.drop 3
    else cleaned
  let closed :=
    if "```".data.isSuffixOf opened then opened.take (opened.length - 3) else opened
  trimChars closed

/-- Number of ledger records whose `habitId` is `H`. -/
def recordCount (s : Store) (H : Nat) : Nat :=
  (s.completions.filter (fun c => c.habitId == H)).length

/-- The invariant of the sequential runs: every stored habit is schema-valid and both
its counters equal the number of its ledger records, and every ledger record belongs
to a stored habit. -/
def Agrees (s : Store) : Prop :=
  (∀ h ∈ s.habits, validName h.name = true ∧ h.completionCount = h.streak ∧
    h.completionCount = (recordCount s h._id : Int)) ∧
  (∀ c ∈ s.completions, ∃ h ∈ s.habits, h._id = c.habitId)

instance (s : Store) : Decidable (Agrees s) := by
  unfold Agrees
  exact inferInstance

/-! ## Two `completeHabit` calls at the same time

Node runs one handler at a time and switches between handlers at an `await`. A
`completeHabit` call therefore takes three turns: `Habit.findOne`, then
`HabitCompletion.create`, then `habit.save()`; each database operation is atomic. -/

/-- Where a `completeHabit` call stands between two turns. -/
inductive CallState where
  | start
  | loaded (habit : Habit)
  | inserted (habit : Habit)
  | done (r : Response)
  deriving DecidableEq, Repr

/-- The request of a `completeHabit` call and the clock reading it sees. -/
structure CompleteReq where
  now : Int
  userId : Nat
  habitId : IdParam
  date : DateArg
  deriving DecidableEq, Repr

/-- One turn of a `completeHabit` call on the shared store. The last turn is
`habit.save()`, which writes the paths this call changed, the two counters: no turn
of a `completeHabit` call changes another path, so the stored document ends in the
state of the saved one, as `saveHabit` has it. -/
def stepComplete (tz : TimeZone) (req : CompleteReq) (s : Store) : CallState → CallState × Store
  | CallState.start =>
    match req.habitId with
    | IdParam.malformed => (CallState.done (Response.error 500), s)
    | IdParam.oid hid =>
      match findHabit s hid req.userId with
      | none => (CallState.done (Response.error 404), s)
      | some habit => (CallState.loaded habit, s)
  | CallState.loaded habit =>
    match req.habitId with
    | IdParam.malformed => (CallState.done (Response.error 500), s)
    | IdParam.oid hid =>
      match createCompletion s hid req.userId (completionDate tz req.now req.date) with
      | CreateResult.created s1 => (CallState.inserted habit, s1)
      | CreateResult.duplicateKey =>
        (CallState.done (successResponse
          (Payload.counters (orElse habit.completionCount 1) true (orElse habit.streak 1))), s)
      | CreateResult.validationError => (CallState.done (Response.error 500), s)
  | CallState.inserted habit =>
    let habit1 : Habit :=
      { habit with
        completionCount := increment habit.completionCount
        streak := increment habit.streak }
    match saveHabit s habit1 with
    | none => (CallState.done (Response.error 500), s)
    | some s2 =>
      (CallState.done
        (successResponse (Payload.counters habit1.completionCount true habit1.streak)), s2)
  | CallState.done r => (CallState.done r, s)

/-- Two calls in flight and the store they share. -/
structure Duo where
  store : Store
  a : CallState
  b : CallState
  deriving DecidableEq, Repr

/-- One turn: of the first call when `first` is true, of the second otherwise. -/
def stepDuo (tz : TimeZone) (reqA reqB : CompleteReq) (c : Duo) (first : Bool) : Duo :=
  if first then
    { c with a := (stepComplete tz reqA c.store c.a).1, store := (stepComplete tz reqA c.store c.a).2 }
  else
    { c with b := (stepComplete tz reqB c.store c.b).1, store := (stepComplete tz reqB c.store c.b).2 }

/-- Run a schedule of turns from both calls at their start. -/
def runDuo (tz : TimeZone) (reqA reqB : CompleteReq) (s : Store) (schedule : List Bool) : Duo :=
  schedule.foldl (stepDuo tz reqA reqB) { store := s, a := CallState.start, b := CallState.start }

/-- Turns already taken by a call: 3 when it has answered. -/
def CallState.rank : CallState → Nat
  | CallState.start => 0
  | CallState.loaded _ => 1
  | CallState.inserted _ => 2
  | CallState.done _ => 3

/-- The store once the record of `(H, u, d)` is inserted. -/
def withRecord (s : Store) (H u : Nat) (d : Int) : Store :=
  { s with completions := s.completions ++ [{ habitId := H, userId := u, date := d }] }

/-- The loaded habit with both counters incremented. -/
def bumped (h : Habit) : Habit :=
  { h with completionCount := increment h.completionCount, streak := increment h.streak }

/-- The store once the record is inserted and the incremented habit is saved. -/
def withSave (s : Store) (H u : Nat) (d : Int) (h : Habit) : Store :=
  { habits := s.habits.map (fun x => if x._id == (bumped h)._id then bumped h else x),
    completions := s.completions ++ [{ habitId := H, userId := u, date := d }] }

/-- The answer of the call whose insert succeeded. -/
def freshAnswer (h : Habit) : Response :=
  successResponse (Payload.counters (bumped h).completionCount true (bumped h).streak)

/-- The answer of a call whose insert met the unique index, having loaded `h`. -/
def repeatAnswer (h : Habit) : Response :=
  successResponse (Payload.counters (orElse h.completionCount 1) true (orElse h.streak 1))

/-- States of the call that loses the insert, while the winner has not saved. -/
def Behind (h : Habit) (p : CallState) : Prop :=
  p = CallState.start ∨ p = CallState.loaded h ∨ p = CallState.done (repeatAnswer h)

/-- States of the call that loses the insert, once the winner has saved. -/
def Late (h : Habit) (p : CallState) : Prop :=
  p = CallState.start ∨ p = CallState.loaded h ∨ p = CallState.loaded (bumped h) ∨
    p = CallState.done (repeatAnswer h) ∨ p = CallState.done (repeatAnswer (bumped h))

/-- The call in state `w` has won the insert, the call in state `l` has not. -/
def Won (s : Store) (H u : Nat) (d : Int) (h : Habit) (store : Store) (w l : CallState) : Prop :=
  (store = withRecord s H u d ∧ w = CallState.inserted h ∧ Behind h l) ∨
  (store = withSave s H u d h ∧ w = CallState.done (freshAnswer h) ∧ Late h l)

/-- The configurations two calls for `(H, u, d)` can reach from store `s`. -/
def Reach (s : Store) (H u : Nat) (d : Int) (h : Habit) (c : Duo) : Prop :=
  (c.store = s ∧ (c.a = CallState.start ∨ c.a = CallState.loaded h) ∧
    (c.b = CallState.start ∨ c.b = CallState.loaded h)) ∨
  Won s H u d h c.store c.a c.b ∨ Won s H u d h c.store c.b c.a

/-- The call has inserted its ledger record. -/
def CallState.hasInserted : CallState → Bool
  | CallState.inserted _ => true
  | CallState.done _ => true
  | _ => false

/-- States of a call that has not saved, having loaded `x` if it has loaded. -/
def Before (x : Habit) (p : CallState) : Prop :=
  p = CallState.start ∨ p = CallState.loaded x ∨ p = CallState.inserted x

/-- The records that two calls for the days `dA` and `dB` have added to the ledger. -/
def RecordsOf (H u : Nat) (dA dB : Int) (a b : CallState) (recs : List HabitCompletion) : Prop :=
  (a.hasInserted = false ∧ b.hasInserted = false ∧ recs = []) ∨
  (a.hasInserted = true ∧ b.hasInserted = false ∧
    recs = [{ habitId := H, userId := u, date := dA }]) ∨
  (a.hasInserted = false ∧ b.hasInserted = true ∧
    recs = [{ habitId := H, userId := u, date := dB }]) ∨
  (a.hasInserted = true ∧ b.hasInserted = true ∧
    (recs = [{ habitId := H, userId := u, date := dA }, { habitId := H, userId := u, date := dB }] ∨
     recs = [{ habitId := H, userId := u, date := dB }, { habitId := H, userId := u, date := dA }]))

/-- The stored habit `cur` and the two calls: no call has saved; or one has saved what
it loaded plus one and the other has loaded before or after that save; or both have
saved, the second of them what it loaded plus one. -/
def CountersOf (h : Habit) (cur : Option Habit) (a b : CallState) : Prop :=
  (cur = some h ∧ Before h a ∧ Before h b) ∨
  (cur = some (bumped h) ∧ a = CallState.done (freshAnswer h) ∧
    (Before h b ∨ Before (bumped h) b)) ∨
  (cur = some (bumped h) ∧ b = CallState.done (freshAnswer h) ∧
    (Before h a ∨ Before (bumped h) a)) ∨
  (cur = some (bumped h) ∧ a = CallState.done (freshAnswer h) ∧
    b = CallState.done (freshAnswer h)) ∨
  (cur = some (bumped (bumped h)) ∧ a = CallState.done (freshAnswer h) ∧
    b = CallState.done (freshAnswer (bumped h))) ∨
  (cur = some (bumped (bumped h)) ∧ a = CallState.done (freshAnswer (bumped h)) ∧
    b = CallState.done (freshAnswer h))

/-! # Theorems -/

/-! ## Auxiliary facts about the store operations -/

theorem findHabit_some {s : Store} {hid u : Nat} {h : Habit} (hf : findHabit s hid u = some h) :
    h ∈ s.habits ∧ h._id = hid ∧ h.userId = u := by
  unfold findHabit at hf
  have h1 := List.find?_some hf
  have h2 := List.mem_of_find?_eq_some hf
  simp only [Bool.and_eq_true, beq_iff_eq] at h1
  exact ⟨h2, h1.1, h1.2⟩

theorem find_map_replace (l : List Habit) (h1 : Habit) (hx : ∃ x ∈ l, x._id = h1._id) :
    (l.map (fun x => if x._id == h1._id then h1 else x)).find?
      (fun h => h._id == h1._id && h.userId == h1.userId) = some h1 := by
  induction l with
  | nil => simp at hx
  | cons a t ih =>
    by_cases ha : a._id = h1._id
    · simp [List.find?, ha]
    · have ht : ∃ x ∈ t, x._id = h1._id := by
        obtain ⟨x, hxm, hxe⟩ := hx
        rcases List.mem_cons.mp hxm with rfl | hm
        · exact absurd hxe ha
        · exact ⟨x, hm, hxe⟩
      have ih1 := ih ht
      simp only [List.map_cons, List.find?_cons]
      have hb : (a._id == h1._id) = false := by simpa using ha
      simp only [hb, Bool.false_and, Bool.false_eq_true, if_false]
      exact ih1

theorem findHabit_after_save {s : Store} {hid u : Nat} {h : Habit} (h1 : Habit)
    (hf : findHabit s hid u = some h) (hid1 : h1._id = hid) (hu1 : h1.userId = u) (c : List HabitCompletion) :
    findHabit { habits := s.habits.map (fun x => if x._id == h1._id then h1 else x), completions := c }
      hid u = some h1 := by
  obtain ⟨hm, hi, _⟩ := findHabit_some hf
  have := find_map_replace s.habits h1 ⟨h, hm, by rw [hi, hid1]⟩
  unfold findHabit
  rw [← hid1, ← hu1]
  exact this

/-! ## Completing a habit (C1) -/

theorem increment_eq (x : Int) : increment x = x + 1 := by
  unfold increment
  split
  · next h0 => rw [h0]; rfl
  · rfl

theorem decrement_pos {x : Int} (hx : 0 < x) : decrement x = x - 1 := by
  unfold decrement
  exact if_pos ⟨by omega, hx⟩

theorem orElse_zero (x : Int) : orElse x 0 = x := by
  unfold orElse
  split
  · next h0 => exact h0.symm
  · rfl

theorem completeHabit_first {tz : TimeZone} {now : Int} {s : Store} {u H : Nat} {h : Habit}
    {date : DateArg} {d : Int}
    (hf : findHabit s H u = some h) (hv : validName h.name = true)
    (hno : hasCompletion s H u d = false) (hd : completionDate tz now date = some d) :
    completeHabit tz now s u (IdParam.oid H) date =
      (Response.success 200 (Payload.counters (h.completionCount + 1) true (h.streak + 1)),
       { habits := s.habits.map (fun x =>
           if x._id == h._id then
             { h with completionCount := h.completionCount + 1, streak := h.streak + 1 }
           else x),
         completions := s.completions ++ [{ habitId := H, userId := u, date := d }] }) := by
  simp only [completeHabit, hf, hd, createCompletion, hno, Bool.false_eq_true, if_false,
    increment_eq, saveHabit, hv, if_true, successResponse]

theorem completeHabit_repeat {tz : TimeZone} {now : Int} {s : Store} {u H : Nat} {h : Habit}
    {date : DateArg} {d : Int}
    (hf : findHabit s H u = some h)
    (hyes : hasCompletion s H u d = true) (hd : completionDate tz now date = some d) :
    completeHabit tz now s u (IdParam.oid H) date =
      (Response.success 200
        (Payload.counters (orElse h.completionCount 1) true (orElse h.streak 1)), s) := by
  simp only [completeHabit, hf, hd, createCompletion, hyes, if_true, successResponse]

theorem keyCount_zero_of_not_has {s : Store} {H u : Nat} {d : Int}
    (hno : hasCompletion s H u d = false) : keyCount s H u d = 0 := by
  unfold keyCount
  unfold hasCompletion at hno
  rw [List.length_eq_zero, List.filter_eq_nil_iff]
  intro c hc
  have := (List.any_eq_false.mp hno) c hc
  simpa using this

theorem run_length (tz : TimeZone) (s : Store) (cs : List Call) :
    (run tz s cs).1.length = cs.length := by
  induction cs generalizing s with
  | nil => rfl
  | cons c cs ih => simp [run, ih]

theorem run_repeats (tz : TimeZone) (s : Store) (u H : Nat) (h : Habit) (d : Int)
    (hf : findHabit s H u = some h) (hyes : hasCompletion s H u d = true)
    (calls : List (Int × DateArg)) (hday : ∀ c ∈ calls, completionDate tz c.1 c.2 = some d) :
    (run tz s (calls.map (fun c => Call.complete c.1 u (IdParam.oid H) c.2))).2 = s ∧
    ∀ r ∈ (run tz s (calls.map (fun c => Call.complete c.1 u (IdParam.oid H) c.2))).1,
      ∃ n k, r = Response.success 200 (Payload.counters n true k) := by
  induction calls with
  | nil => simp [run]
  | cons c cs ih =>
    have hc := hday c (List.mem_cons_self _ _)
    have ih1 := ih (fun x hx => hday x (List.mem_cons_of_mem _ hx))
    simp only [List.map_cons, run, step, completeHabit_repeat hf hyes hc]
    refine ⟨ih1.1, ?_⟩
    intro r hr
    rcases List.mem_cons.mp hr with rfl | hr
    · exact ⟨_, _, rfl⟩
    · exact ih1.2 r hr

/-- C1 (idempotent completion). If habit `H` is owned by `u`, passes the schema's
validation and has no ledger record for day `d`, then `N ≥ 1` calls of `completeHabit`
whose dates all normalise to `d` leave exactly one ledger record for `(H, u, d)`,
leave `completionCount` and `streak` exactly one higher than before the first call,
and each call answers 200 with `completedToday = true`. -/
theorem completeHabit_idempotent (tz : TimeZone) (s : Store) (u H : Nat) (h : Habit) (d : Int)
    (calls : List (Int × DateArg))
    (hf : findHabit s H u = some h) (hv : validName h.name = true)
    (hno : hasCompletion s H u d = false)
    (hday : ∀ c ∈ calls, completionDate tz c.1 c.2 = some d)
    (hN : 1 ≤ calls.length) :
    keyCount (run tz s (calls.map (fun c => Call.complete c.1 u (IdParam.oid H) c.2))).2 H u d = 1 ∧
    (∃ h1, findHabit (run tz s (calls.map (fun c => Call.complete c.1 u (IdParam.oid H) c.2))).2 H u
        = some h1 ∧
      h1.completionCount = h.completionCount + 1 ∧ h1.streak = h.streak + 1) ∧
    (run tz s (calls.map (fun c => Call.complete c.1 u (IdParam.oid H) c.2))).1.length
      = calls.length ∧
    ∀ r ∈ (run tz s (calls.map (fun c => Call.complete c.1 u (IdParam.oid H) c.2))).1,
      ∃ n k, r = Response.success 200 (Payload.counters n true k) := by
  cases calls with
  | nil => simp at hN
  | cons c cs =>
    have hc := hday c (List.mem_cons_self _ _)
    obtain ⟨_, hid, hu⟩ := findHabit_some hf
    have hf1 := findHabit_after_save
      { h with completionCount := h.completionCount + 1, streak := h.streak + 1 } hf hid hu
      (s.completions ++ [{ habitId := H, userId := u, date := d }])
    have hyes : hasCompletion
        { habits := s.habits.map (fun x =>
            if x._id == h._id then
              { h with completionCount := h.completionCount + 1, streak := h.streak + 1 }
            else x),
          completions := s.completions ++ [{ habitId := H, userId := u, date := d }] } H u d
        = true := by
      simp [hasCompletion]
    have hcount : keyCount
        { habits := s.habits.map (fun x =>
            if x._id == h._id then
              { h with completionCount := h.completionCount + 1, streak := h.streak + 1 }
            else x),
          completions := s.completions ++ [{ habitId := H, userId := u, date := d }] } H u d
        = 1 := by
      have h0 := keyCount_zero_of_not_has hno
      unfold keyCount at h0 ⊢
      simp only [List.filter_append, List.length_append, h0]
      simp
    have hrest := run_repeats tz _ u H _ d hf1 hyes cs
      (fun x hx => hday x (List.mem_cons_of_mem _ hx))
    simp only [List.map_cons, run, step, completeHabit_first hf hv hno hc]
    refine ⟨?_, ?_, ?_, ?_⟩
    · rw [hrest.1]; exact hcount
    · rw [hrest.1]; exact ⟨_, hf1, rfl, rfl⟩
    · simp only [List.length_cons, run_length, List.length_map]
    · intro r hr
      rcases List.mem_cons.mp hr with rfl | hr
      · exact ⟨_, _, rfl⟩
      · exact hrest.2 r hr

/-- Two completions on 2024-01-01 (UTC) of `sampleHabit` leave one record for that day. -/
theorem completeHabit_idempotent_witness :
    keyCount (run (fixedZone 0) sampleStore
      [Call.complete 0 7 (IdParam.oid 1) (DateArg.instant 1704096000000),
       Call.complete 0 7 (IdParam.oid 1) (DateArg.instant 1704139200000)]).2 1 7 1704067200000 = 1 :=
  (completeHabit_idempotent (fixedZone 0) sampleStore 7 1 sampleHabit 1704067200000
    [(0, DateArg.instant 1704096000000), (0, DateArg.instant 1704139200000)]
    (by decide) (by decide) (by decide) (by decide) (by decide)).1

/-! ## Undoing a completion (C2) -/

theorem uncompleteHabit_miss {tz : TimeZone} {now : Int} {s : Store} {u H : Nat} {h : Habit}
    {date : DateArg} {d : Int}
    (hf : findHabit s H u = some h) (hd : completionDate tz now date = some d)
    (hhi : d + msPerDay ≤ maxTimeValue) (hlo : -maxTimeValue ≤ d + msPerDay)
    (hno : existsInRange s H u d (d + msPerDay) = false) :
    uncompleteHabit tz now s u (IdParam.oid H) date =
      (Response.success 200 (Payload.counters h.completionCount false h.streak), s) := by
  have hclip : timeClip (d + 24 * 60 * 60 * 1000) = some (d + msPerDay) := by
    have : d + 24 * 60 * 60 * 1000 = d + msPerDay := rfl
    rw [this, timeClip, if_pos ⟨hlo, hhi⟩]
  have hall : ∀ c ∈ s.completions, ¬ inRange H u d (d + msPerDay) c = true := by
    unfold existsInRange at hno
    exact List.any_eq_false.mp hno
  have hfind : s.completions.find? (inRange H u d (d + msPerDay)) = none :=
    List.find?_eq_none.mpr hall
  have herase : s.completions.eraseP (inRange H u d (d + msPerDay)) = s.completions :=
    List.eraseP_of_forall_not hall
  simp only [uncompleteHabit, hf, hd, hclip, findOneAndDelete, hfind, herase, successResponse,
    orElse_zero]

theorem uncompleteHabit_hit {tz : TimeZone} {now : Int} {s : Store} {u H : Nat} {h : Habit}
    {date : DateArg} {d : Int} (pre : List HabitCompletion)
    (hf : findHabit s H u = some h) (hv : validName h.name = true)
    (hc : 0 < h.completionCount) (hk : 0 < h.streak)
    (hd : completionDate tz now date = some d)
    (hhi : d + msPerDay ≤ maxTimeValue) (hlo : -maxTimeValue ≤ d + msPerDay)
    (hcs : s.completions = pre ++ [{ habitId := H, userId := u, date := d }])
    (hno : pre.any (inRange H u d (d + msPerDay)) = false) :
    uncompleteHabit tz now s u (IdParam.oid H) date =
      (Response.success 200 (Payload.counters (h.completionCount - 1) false (h.streak - 1)),
       { habits := s.habits.map (fun x =>
           if x._id == h._id then
             { h with completionCount := h.completionCount - 1, streak := h.streak - 1 }
           else x),
         completions := pre }) := by
  have hclip : timeClip (d + 24 * 60 * 60 * 1000) = some (d + msPerDay) := by
    have : d + 24 * 60 * 60 * 1000 = d + msPerDay := rfl
    rw [this, timeClip, if_pos ⟨hlo, hhi⟩]
  have hall : ∀ c ∈ pre, ¬ inRange H u d (d + msPerDay) c = true := List.any_eq_false.mp hno
  have hin : inRange H u d (d + msPerDay) { habitId := H, userId := u, date := d } = true := by
    have : d < d + msPerDay := by unfold msPerDay; omega
    simp [inRange, this]
  have hfind : s.completions.find? (inRange H u d (d + msPerDay))
      = some { habitId := H, userId := u, date := d } := by
    rw [hcs, List.find?_append, List.find?_eq_none.mpr hall]
    simp [List.find?, hin]
  have herase : s.completions.eraseP (inRange H u d (d + msPerDay)) = pre := by
    rw [hcs, List.eraseP_append_right _ hall]
    simp [List.eraseP_cons_of_pos, hin]
  simp only [uncompleteHabit, hf, hd, hclip, findOneAndDelete, hfind, herase, successResponse,
    orElse_zero, decrement_pos hc, decrement_pos hk, if_true, saveHabit, hv]

theorem timeClip_some {t d : Int} (h : timeClip t = some d) :
    t = d ∧ -maxTimeValue ≤ d ∧ d ≤ maxTimeValue := by
  unfold timeClip at h
  split at h
  · next hrange => cases h; exact ⟨rfl, hrange⟩
  · cases h

theorem completionDate_range {tz : TimeZone} {now : Int} {date : DateArg} {d : Int}
    (hd : completionDate tz now date = some d) : -maxTimeValue ≤ d ∧ d ≤ maxTimeValue := by
  unfold completionDate at hd
  cases hr : requestedDate now date with
  | none => rw [hr] at hd; simp at hd
  | some t =>
    rw [hr] at hd
    exact (timeClip_some hd).2

theorem hasCompletion_false_of_range {s : Store} {H u : Nat} {d : Int}
    (hno : existsInRange s H u d (d + msPerDay) = false) : hasCompletion s H u d = false := by
  unfold existsInRange at hno
  unfold hasCompletion
  rw [List.any_eq_false] at hno ⊢
  intro c hc hkey
  apply hno c hc
  have hlt : d < d + msPerDay := by unfold msPerDay; omega
  simp only [Bool.and_eq_true, beq_iff_eq] at hkey
  simp [inRange, hkey.1.1, hkey.1.2, hkey.2, hlt]

theorem run_unrepeats (tz : TimeZone) (s : Store) (u H : Nat) (h : Habit) (d : Int)
    (hf : findHabit s H u = some h) (hend : d + msPerDay ≤ maxTimeValue)
    (hno : existsInRange s H u d (d + msPerDay) = false)
    (calls : List (Int × DateArg)) (hday : ∀ c ∈ calls, completionDate tz c.1 c.2 = some d) :
    (run tz s (calls.map (fun c => Call.uncomplete c.1 u (IdParam.oid H) c.2))).2 = s ∧
    ∀ r ∈ (run tz s (calls.map (fun c => Call.uncomplete c.1 u (IdParam.oid H) c.2))).1,
      ∃ n k, r = Response.success 200 (Payload.counters n false k) := by
  induction calls with
  | nil => simp [run]
  | cons c cs ih =>
    have hc := hday c (List.mem_cons_self _ _)
    have hlo : -maxTimeValue ≤ d + msPerDay := by
      have := (completionDate_range hc).1
      unfold msPerDay; omega
    have ih1 := ih (fun x hx => hday x (List.mem_cons_of_mem _ hx))
    simp only [List.map_cons, run, step, uncompleteHabit_miss hf hc hend hlo hno]
    refine ⟨ih1.1, ?_⟩
    intro r hr
    rcases List.mem_cons.mp hr with rfl | hr
    · exact ⟨_, _, rfl⟩
    · exact ih1.2 r hr

/-- C2 (idempotent uncompletion). Let habit `H` be owned by `u`, schema-valid, with
non-negative counters and no ledger record of `(H, u)` within the day starting at `d`,
and let one `completeHabit` for day `d` run. Then `N ≥ 1` calls of `uncompleteHabit`
for day `d` leave no ledger record for `(H, u, d)`, leave `completionCount` and
`streak` exactly one lower than after the completion and not below 0, and each call
answers 200 with `completedToday = false`. -/
theorem undo_idempotent (tz : TimeZone) (s : Store) (u H : Nat) (h : Habit) (d : Int)
    (now0 : Int) (date0 : DateArg) (calls : List (Int × DateArg))
    (hf : findHabit s H u = some h) (hv : validName h.name = true)
    (hc0 : 0 ≤ h.completionCount) (hk0 : 0 ≤ h.streak)
    (hno : existsInRange s H u d (d + msPerDay) = false)
    (hd0 : completionDate tz now0 date0 = some d)
    (hend : d + msPerDay ≤ maxTimeValue)
    (hday : ∀ c ∈ calls, completionDate tz c.1 c.2 = some d)
    (hN : 1 ≤ calls.length) :
    keyCount (run tz (completeHabit tz now0 s u (IdParam.oid H) date0).2
      (calls.map (fun c => Call.uncomplete c.1 u (IdParam.oid H) c.2))).2 H u d = 0 ∧
    (∃ h1 h2, findHabit (completeHabit tz now0 s u (IdParam.oid H) date0).2 H u = some h1 ∧
      findHabit (run tz (completeHabit tz now0 s u (IdParam.oid H) date0).2
        (calls.map (fun c => Call.uncomplete c.1 u (IdParam.oid H) c.2))).2 H u = some h2 ∧
      h2.completionCount = h1.completionCount - 1 ∧ h2.streak = h1.streak - 1 ∧
      0 ≤ h2.completionCount ∧ 0 ≤ h2.streak) ∧
    (run tz (completeHabit tz now0 s u (IdParam.oid H) date0).2
      (calls.map (fun c => Call.uncomplete c.1 u (IdParam.oid H) c.2))).1.length = calls.length ∧
    ∀ r ∈ (run tz (completeHabit tz now0 s u (IdParam.oid H) date0).2
        (calls.map (fun c => Call.uncomplete c.1 u (IdParam.oid H) c.2))).1,
      ∃ n k, r = Response.success 200 (Payload.counters n false k) := by
  cases calls with
  | nil => simp at hN
  | cons c cs =>
    have hc := hday c (List.mem_cons_self _ _)
    have hlo : -maxTimeValue ≤ d + msPerDay := by
      have := (completionDate_range hc).1
      unfold msPerDay; omega
    obtain ⟨_, hid, hu⟩ := findHabit_some hf
    have hno0 := hasCompletion_false_of_range hno
    -- the store after the completion
    have hf1 := findHabit_after_save
      { h with completionCount := h.completionCount + 1, streak := h.streak + 1 } hf hid hu
      (s.completions ++ [{ habitId := H, userId := u, date := d }])
    have hno1 : s.completions.any (inRange H u d (d + msPerDay)) = false := hno
    have hstep := uncompleteHabit_hit s.completions hf1 hv
      (by show 0 < h.completionCount + 1; omega) (by show 0 < h.streak + 1; omega) hc hend hlo rfl hno1
    -- the store after the first uncompletion
    have hf2 := findHabit_after_save
      { h with completionCount := h.completionCount + 1 - 1, streak := h.streak + 1 - 1 }
      hf1 hid hu s.completions
    have hrest := run_unrepeats tz _ u H _ d hf2 hend hno cs
      (fun x hx => hday x (List.mem_cons_of_mem _ hx))
    simp only [completeHabit_first hf hv hno0 hd0, List.map_cons, run, step, hstep]
    refine ⟨?_, ?_, ?_, ?_⟩
    · rw [hrest.1]; exact keyCount_zero_of_not_has hno0
    · rw [hrest.1]
      refine ⟨_, _, hf1, hf2, ?_, ?_, ?_, ?_⟩
      · rfl
      · rfl
      · show 0 ≤ h.completionCount + 1 - 1; omega
      · show 0 ≤ h.streak + 1 - 1; omega
    · simp only [List.length_cons, run_length, List.length_map]
    · intro r hr
      rcases List.mem_cons.mp hr with rfl | hr
      · exact ⟨_, _, rfl⟩
      · exact hrest.2 r hr

/-- One completion on 2024-01-01 (UTC) of `sampleHabit` and two uncompletions leave no
record for that day. -/
theorem undo_idempotent_witness :
    keyCount (run (fixedZone 0)
      (completeHabit (fixedZone 0) 0 sampleStore 7 (IdParam.oid 1) (DateArg.instant 1704096000000)).2
      [Call.uncomplete 1704100000000 7 (IdParam.oid 1) DateArg.absent,
       Call.uncomplete 0 7 (IdParam.oid 1) (DateArg.instant 1704139200000)]).2 1 7 1704067200000 = 0 :=
  (undo_idempotent (fixedZone 0) sampleStore 7 1 sampleHabit 1704067200000
    0 (DateArg.instant 1704096000000)
    [(1704100000000, DateArg.absent), (0, DateArg.instant 1704139200000)]
    (by decide) (by decide) (by decide) (by decide) (by decide) (by decide) (by decide)
    (by decide) (by decide)).1

/-! ## The ledger holds each key at most once (C3) -/

theorem saveHabit_completions {s s1 : Store} {h : Habit} (hs : saveHabit s h = some s1) :
    s1.completions = s.completions := by
  unfold saveHabit at hs
  split at hs
  · cases hs; rfl
  · cases hs

theorem createHabit_completions (s : Store) (u i : Nat) (b : Body) :
    (createHabit s u i b).2.completions = s.completions := by
  unfold createHabit
  split
  · rfl
  · split <;> rfl

/-! ## The document of an update -/

theorem assignPath_other {key : String}
    (hk : ¬ (key = "name" ∨ key = "icon" ∨ key = "color" ∨ key = "tags" ∨
      key = "completionCount" ∨ key = "streak" ∨ key = "userId")) (h : Habit) (v : JVal) :
    assignPath h key v = some h := by
  simp only [not_or] at hk
  simp only [assignPath, hk.1, hk.2.1, hk.2.2.1, hk.2.2.2.1, hk.2.2.2.2.1, hk.2.2.2.2.2.1,
    hk.2.2.2.2.2.2, if_false]

theorem assignKey_fields (m : DocumentClass) (doc : Doc) (key : String) (v : JVal) :
    (assignKey m doc key v).fields = doc.fields.bind (fun h => assignPath h key v) := by
  unfold assignKey
  split
  · rfl
  · next hk =>
    have hb : doc.fields.bind (fun h => assignPath h key v) = doc.fields := by
      cases doc.fields with
      | none => rfl
      | some f => exact assignPath_other hk f v
    rw [hb]
    split
    · rfl
    · split
      · rfl
      · split
        · rfl
        · split <;> rfl

theorem assignKey_id (m : DocumentClass) (doc : Doc) (key : String) (v : JVal)
    (hk : key ≠ "_id") (hm : m.member key v ≠ Member.setsId) : (assignKey m doc key v).id = doc.id := by
  unfold assignKey
  split_ifs <;>
    first
    | rfl
    | contradiction
    | (cases hmv : m.member key v <;> first | rfl | exact absurd hmv hm)

theorem assignKey_isNew (m : DocumentClass) (doc : Doc) (key : String) (v : JVal)
    (hk : key ≠ "isNew") (hm : m.member key v ≠ Member.newFlag) :
    (assignKey m doc key v).isNew = doc.isNew := by
  unfold assignKey
  split_ifs <;>
    first
    | rfl
    | contradiction
    | (cases hmv : m.member key v <;> first | rfl | exact absurd hmv hm)

theorem assignKey_saveThrows (m : DocumentClass) (doc : Doc) (key : String) (v : JVal)
    (hk : key ≠ "save") (hm : m.member key v ≠ Member.breaksSave) :
    (assignKey m doc key v).saveThrows = doc.saveThrows := by
  unfold assignKey
  split_ifs <;>
    first
    | rfl
    | contradiction
    | (cases hmv : m.member key v <;> first | rfl | exact absurd hmv hm)

theorem assignKey_viewThrows (m : DocumentClass) (doc : Doc) (key : String) (v : JVal)
    (hm : m.member key v ≠ Member.breaksView) :
    (assignKey m doc key v).viewThrows = doc.viewThrows := by
  unfold assignKey
  split_ifs <;>
    first
    | rfl
    | contradiction
    | (cases hmv : m.member key v <;> first | rfl | exact absurd hmv hm)

theorem fold_fields (m : DocumentClass) (updates : Body) (doc : Doc) :
    (updates.foldl
      (fun doc kv =>
        if kv.1 ≠ "userId" ∧ kv.1 ≠ "completionCount" ∧ kv.1 ≠ "streak" then
          assignKey m doc kv.1 kv.2
        else doc) doc).fields =
    updates.foldl
      (fun acc kv =>
        if kv.1 ≠ "userId" ∧ kv.1 ≠ "completionCount" ∧ kv.1 ≠ "streak" then
          acc.bind (fun h => assignPath h kv.1 kv.2)
        else acc) doc.fields := by
  induction updates generalizing doc with
  | nil => rfl
  | cons kv rest ih =>
    rw [List.foldl_cons, List.foldl_cons, ih]
    split
    · rw [assignKey_fields]
    · rfl

theorem applyUpdates_fields (m : DocumentClass) (habit : Habit) (updates : Body) :
    (applyUpdates m habit updates).fields = applyFields habit updates :=
  fold_fields m updates _

theorem fold_keeps {α : Type} (m : DocumentClass) (g : Doc → α) (P : String → JVal → Prop)
    (hstep : ∀ doc k v, P k v → g (assignKey m doc k v) = g doc)
    (updates : Body) (hall : ∀ kv ∈ updates, P kv.1 kv.2) (doc : Doc) :
    g (updates.foldl
      (fun doc kv =>
        if kv.1 ≠ "userId" ∧ kv.1 ≠ "completionCount" ∧ kv.1 ≠ "streak" then
          assignKey m doc kv.1 kv.2
        else doc) doc) = g doc := by
  induction updates generalizing doc with
  | nil => rfl
  | cons kv rest ih =>
    rw [List.foldl_cons, ih (fun x hx => hall x (List.mem_cons_of_mem _ hx))]
    split
    · exact hstep doc kv.1 kv.2 (hall kv (List.mem_cons_self _ _))
    · rfl

theorem applyUpdates_id (m : DocumentClass) (habit : Habit) (updates : Body)
    (hk : keepsId m updates = true) : (applyUpdates m habit updates).id = some habit._id := by
  unfold keepsId at hk
  rw [List.all_eq_true] at hk
  exact fold_keeps m (fun d => d.id) (fun k v => k ≠ "_id" ∧ m.member k v ≠ Member.setsId)
    (fun doc k v hp => assignKey_id m doc k v hp.1 hp.2) updates
    (fun kv hkv => by simpa using hk kv hkv) _

theorem applyUpdates_isNew (m : DocumentClass) (habit : Habit) (updates : Body)
    (hk : keepsOld m updates = true) : (applyUpdates m habit updates).isNew = false := by
  unfold keepsOld at hk
  rw [List.all_eq_true] at hk
  exact fold_keeps m (fun d => d.isNew) (fun k v => k ≠ "isNew" ∧ m.member k v ≠ Member.newFlag)
    (fun doc k v hp => assignKey_isNew m doc k v hp.1 hp.2) updates
    (fun kv hkv => by simpa using hk kv hkv) _

theorem applyUpdates_methods (m : DocumentClass) (habit : Habit) (updates : Body)
    (hk : keepsMethods m updates = true) :
    (applyUpdates m habit updates).saveThrows = false ∧
    (applyUpdates m habit updates).viewThrows = false := by
  unfold keepsMethods at hk
  rw [List.all_eq_true] at hk
  constructor
  · exact fold_keeps m (fun d => d.saveThrows)
      (fun k v => k ≠ "save" ∧ m.member k v ≠ Member.breaksSave)
      (fun doc k v hp => assignKey_saveThrows m doc k v hp.1 hp.2) updates
      (fun kv hkv => by
        have := hk kv hkv
        simp only [Bool.and_eq_true, bne_iff_ne, ne_eq] at this
        exact ⟨this.1.1, this.1.2⟩) _
  · exact fold_keeps m (fun d => d.viewThrows) (fun k v => m.member k v ≠ Member.breaksView)
      (fun doc k v hp => assignKey_viewThrows m doc k v hp) updates
      (fun kv hkv => by
        have := hk kv hkv
        simp only [Bool.and_eq_true, bne_iff_ne, ne_eq] at this
        exact this.2) _

theorem habit_some {doc : Doc} {d : Habit} (hd : doc.habit = some d) :
    ∃ f k, doc.fields = some f ∧ doc.id = some k ∧ d = { f with _id := k } := by
  unfold Doc.habit at hd
  split at hd
  · next f k hf hk =>
    cases hd
    exact ⟨f, k, hf, hk, rfl⟩
  · cases hd

theorem saveDoc_some {s s1 : Store} {loaded : Habit} {doc : Doc}
    (hs : saveDoc s loaded doc = some s1) :
    doc.saveThrows = false ∧ ∃ d, doc.habit = some d ∧ validName d.name = true ∧
      ((doc.isNew = true ∧ s.habits.any (fun x => x._id == d._id) = false ∧
          s1 = { s with habits := s.habits ++ [d] }) ∨
       (doc.isNew = false ∧ s.habits.any (fun x => x._id == d._id) = true ∧
          s1 = { s with habits := s.habits.map (fun x =>
            if x._id == d._id then setModified loaded d x else x) })) := by
  unfold saveDoc at hs
  split at hs
  · cases hs
  · next hthrow =>
    refine ⟨by simpa using hthrow, ?_⟩
    split at hs
    · cases hs
    · next d hd =>
      refine ⟨d, hd, ?_⟩
      split at hs
      · next hv =>
        refine ⟨hv, ?_⟩
        split at hs
        · next hnew =>
          split at hs
          · cases hs
          · next hany =>
            cases hs
            exact Or.inl ⟨hnew, by simpa using hany, rfl⟩
        · next hnew =>
          split at hs
          · next hany =>
            cases hs
            exact Or.inr ⟨by simpa using hnew, hany, rfl⟩
          · cases hs
      · cases hs

theorem saveDoc_completions {s s1 : Store} {loaded : Habit} {doc : Doc}
    (hs : saveDoc s loaded doc = some s1) : s1.completions = s.completions := by
  obtain ⟨_, d, _, _, h | h⟩ := saveDoc_some hs
  · rw [h.2.2]
  · rw [h.2.2]

/-- The outcomes of `updateHabit` for a habit that is found: nothing is saved and the
answer is 500, or the document is saved and the answer is 500 or the view. -/
theorem updateHabit_cases (m : DocumentClass) (tz : TimeZone) (now : Int) (s : Store) (u H : Nat)
    (h : Habit) (updates : Body) (hf : findHabit s H u = some h) :
    updateHabit m tz now s u (IdParam.oid H) updates = (Response.error 500, s) ∨
    ∃ s1 d, saveDoc s h (applyUpdates m h updates) = some s1 ∧
      (applyUpdates m h updates).habit = some d ∧
      (updateHabit m tz now s u (IdParam.oid H) updates = (Response.error 500, s1) ∨
        ∃ c, completedToday tz now s1 H u = some c ∧
          (applyUpdates m h updates).viewThrows = false ∧
          updateHabit m tz now s u (IdParam.oid H) updates =
            (Response.success 200 (Payload.view { habit := d, completedToday := c }), s1)) := by
  simp only [updateHabit, hf]
  cases hs : saveDoc s h (applyUpdates m h updates) with
  | none => exact Or.inl rfl
  | some s1 =>
    obtain ⟨_, d, hd, _⟩ := saveDoc_some hs
    rw [hd]
    refine Or.inr ⟨s1, d, rfl, rfl, ?_⟩
    dsimp only
    cases hc : completedToday tz now s1 H u with
    | none => exact Or.inl rfl
    | some c =>
      dsimp only
      cases hv : (applyUpdates m h updates).viewThrows with
      | true => exact Or.inl (by simp)
      | false => exact Or.inr ⟨c, rfl, rfl, by simp [successResponse]⟩

theorem updateHabit_completions (m : DocumentClass) (tz : TimeZone) (now : Int) (s : Store)
    (u : Nat) (hid : IdParam) (b : Body) :
    (updateHabit m tz now s u hid b).2.completions = s.completions := by
  cases hid with
  | malformed => rfl
  | oid H =>
    cases hf : findHabit s H u with
    | none => simp only [updateHabit, hf]
    | some h =>
      rcases updateHabit_cases m tz now s u H h b hf with e | ⟨s1, d, hs, _, e | ⟨c, _, _, e⟩⟩
      · rw [e]
      · rw [e]; exact saveDoc_completions hs
      · rw [e]; exact saveDoc_completions hs

theorem deleteHabit_completions (s : Store) (u : Nat) (hid : IdParam) :
    (deleteHabit s u hid).2.completions.Sublist s.completions := by
  unfold deleteHabit
  split
  · exact List.Sublist.refl _
  · split
    · exact List.Sublist.refl _
    · exact List.filter_sublist _

theorem completeHabit_completions (tz : TimeZone) (now : Int) (s : Store) (u : Nat) (hid : IdParam)
    (date : DateArg) :
    (completeHabit tz now s u hid date).2.completions = s.completions ∨
    ∃ r, (completeHabit tz now s u hid date).2.completions = s.completions ++ [r] ∧
      hasCompletion s r.habitId r.userId r.date = false := by
  unfold completeHabit
  split
  · exact Or.inl rfl
  · split
    · exact Or.inl rfl
    · split
      · next s1 hcr =>
        have hs1 : ∃ r, s1.completions = s.completions ++ [r] ∧
            hasCompletion s r.habitId r.userId r.date = false := by
          unfold createCompletion at hcr
          split at hcr
          · cases hcr
          · split at hcr
            · cases hcr
            · next hno =>
              cases hcr
              exact ⟨_, rfl, by simpa using hno⟩
        dsimp only
        split
        · exact Or.inr hs1
        · next s2 hs2 =>
          obtain ⟨r, hr1, hr2⟩ := hs1
          exact Or.inr ⟨r, by rw [saveHabit_completions hs2]; exact hr1, hr2⟩
      · exact Or.inl rfl
      · exact Or.inl rfl

theorem uncompleteHabit_completions (tz : TimeZone) (now : Int) (s : Store) (u : Nat)
    (hid : IdParam) (date : DateArg) :
    (uncompleteHabit tz now s u hid date).2.completions.Sublist s.completions := by
  unfold uncompleteHabit
  split
  · exact List.Sublist.refl _
  · split
    · exact List.Sublist.refl _
    · split
      · exact List.Sublist.refl _
      · split
        · exact List.Sublist.refl _
        · split
          · next r s1 hfd =>
            have hs1 : s1.completions.Sublist s.completions := by
              unfold findOneAndDelete at hfd
              rw [← (Prod.mk.inj hfd).2]
              exact List.eraseP_sublist _
            dsimp only
            split
            · exact hs1
            · next s2 hs2 => rw [saveHabit_completions hs2]; exact hs1
          · next s1 hfd =>
            unfold findOneAndDelete at hfd
            rw [← (Prod.mk.inj hfd).2]
            exact List.eraseP_sublist _

theorem keyCount_le_of_sublist {s t : Store} (hsub : t.completions.Sublist s.completions)
    (H u : Nat) (d : Int) : keyCount t H u d ≤ keyCount s H u d := by
  unfold keyCount
  exact (List.Sublist.filter _ hsub).length_le

theorem keyCount_append {s t : Store} {r : HabitCompletion}
    (happ : t.completions = s.completions ++ [r])
    (hno : hasCompletion s r.habitId r.userId r.date = false)
    (hle : ∀ H u d, keyCount s H u d ≤ 1) (H u : Nat) (d : Int) : keyCount t H u d ≤ 1 := by
  by_cases hk : r.habitId = H ∧ r.userId = u ∧ r.date = d
  · obtain ⟨rfl, rfl, rfl⟩ := hk
    have h0 := keyCount_zero_of_not_has hno
    unfold keyCount at h0 ⊢
    rw [happ, List.filter_append, List.length_append, h0]
    simp
  · have hle1 := hle H u d
    unfold keyCount at hle1 ⊢
    have hf : (r.habitId == H && r.userId == u && r.date == d) = false := by
      rw [Bool.eq_false_iff]
      intro ht
      simp only [Bool.and_eq_true, beq_iff_eq] at ht
      exact hk ⟨ht.1.1, ht.1.2, ht.2⟩
    rw [happ, List.filter_append, List.length_append]
    simp only [List.filter_cons, hf, List.filter_nil, Bool.false_eq_true, if_false,
      List.length_nil, Nat.add_zero]
    exact hle1

theorem step_keeps_unique (tz : TimeZone) (s : Store) (c : Call)
    (hle : ∀ H u d, keyCount s H u d ≤ 1) : ∀ H u d, keyCount (step tz s c).2 H u d ≤ 1 := by
  intro H u d
  cases c with
  | create u1 i b =>
    exact le_trans (keyCount_le_of_sublist
      (by show (createHabit s u1 i b).2.completions.Sublist s.completions
          rw [createHabit_completions]) H u d) (hle H u d)
  | update m now u1 hid b =>
    exact le_trans (keyCount_le_of_sublist
      (by show (updateHabit m tz now s u1 hid b).2.completions.Sublist s.completions
          rw [updateHabit_completions]) H u d) (hle H u d)
  | delete u1 hid =>
    exact le_trans (keyCount_le_of_sublist (deleteHabit_completions s u1 hid) H u d) (hle H u d)
  | complete now u1 hid date =>
    rcases completeHabit_completions tz now s u1 hid date with heq | ⟨r, happ, hno⟩
    · exact le_trans (keyCount_le_of_sublist
        (by show (completeHabit tz now s u1 hid date).2.completions.Sublist s.completions
            rw [heq]) H u d) (hle H u d)
    · exact keyCount_append happ hno hle H u d
  | uncomplete now u1 hid date =>
    exact le_trans (keyCount_le_of_sublist (uncompleteHabit_completions tz now s u1 hid date) H u d)
      (hle H u d)

theorem run_keeps_unique (tz : TimeZone) (cs : List Call) (s : Store)
    (hle : ∀ H u d, keyCount s H u d ≤ 1) : ∀ H u d, keyCount (run tz s cs).2 H u d ≤ 1 := by
  induction cs generalizing s with
  | nil => exact hle
  | cons c cs ih => exact ih (step tz s c).2 (step_keeps_unique tz s c hle)

/-- C3 (uniqueness invariant). In every store reached from the empty store by a
sequence of `createHabit`, `updateHabit`, `completeHabit`, `uncompleteHabit` and
`deleteHabit` calls, the ledger holds at most one record for each
`(habitId, userId, day)` triple. -/
theorem ledger_unique_reachable (tz : TimeZone) (calls : List Call) (H u : Nat) (d : Int) :
    keyCount (run tz emptyStore calls).2 H u d ≤ 1 :=
  run_keeps_unique tz calls emptyStore (fun _ _ _ => Nat.zero_le 1) H u d

/-! ## Counters never go below zero (C4) -/

theorem countersNonneg_iff (h : Habit) :
    h.countersNonneg = true ↔ 0 ≤ h.completionCount ∧ 0 ≤ h.streak := by
  simp [Habit.countersNonneg]

theorem increment_nonneg {x : Int} (hx : 0 ≤ x) : 0 ≤ increment x := by
  rw [increment_eq]; omega

theorem decrement_nonneg {x : Int} (hx : 0 ≤ x) : 0 ≤ decrement x := by
  unfold decrement
  split
  · omega
  · exact hx

theorem orElse_nonneg {x y : Int} (hx : 0 ≤ x) (hy : 0 ≤ y) : 0 ≤ orElse x y := by
  unfold orElse
  split
  · exact hy
  · exact hx

theorem saveHabit_nonneg {s s1 : Store} {h : Habit} (hs : saveHabit s h = some s1)
    (h0 : s.countersNonneg = true) (hh : h.countersNonneg = true) : s1.countersNonneg = true := by
  unfold saveHabit at hs
  split at hs
  · cases hs
    unfold Store.countersNonneg at h0 ⊢
    rw [List.all_eq_true] at h0 ⊢
    intro x hx
    obtain ⟨y, hy, rfl⟩ := List.mem_map.mp hx
    split
    · exact hh
    · exact h0 y hy
  · cases hs

theorem found_nonneg {s : Store} {H u : Nat} {h : Habit} (hf : findHabit s H u = some h)
    (h0 : s.countersNonneg = true) : h.countersNonneg = true := by
  unfold Store.countersNonneg at h0
  exact (List.all_eq_true.mp h0) h (findHabit_some hf).1

theorem completeHabit_nonneg (tz : TimeZone) (now : Int) (s : Store) (u : Nat) (hid : IdParam)
    (date : DateArg) (h0 : s.countersNonneg = true) :
    (completeHabit tz now s u hid date).2.countersNonneg = true ∧
    (completeHabit tz now s u hid date).1.countersNonneg = true := by
  unfold completeHabit
  split
  · exact ⟨h0, rfl⟩
  · split
    · exact ⟨h0, rfl⟩
    · next habit hf =>
      have hh := (countersNonneg_iff habit).mp (found_nonneg hf h0)
      have hh1 : Habit.countersNonneg { habit with
          completionCount := increment habit.completionCount
          streak := increment habit.streak } = true :=
        (countersNonneg_iff _).mpr ⟨increment_nonneg hh.1, increment_nonneg hh.2⟩
      split
      · next s1 hcr =>
        have hs1 : s1.countersNonneg = true := by
          unfold createCompletion at hcr
          split at hcr
          · cases hcr
          · split at hcr
            · cases hcr
            · cases hcr; exact h0
        dsimp only
        split
        · exact ⟨hs1, rfl⟩
        · next s2 hs2 =>
          refine ⟨saveHabit_nonneg hs2 hs1 hh1, ?_⟩
          simpa [successResponse, Response.countersNonneg] using
            ⟨increment_nonneg hh.1, increment_nonneg hh.2⟩
      · refine ⟨h0, ?_⟩
        simpa [successResponse, Response.countersNonneg] using
          ⟨orElse_nonneg hh.1 (by decide : (0 : Int) ≤ 1), orElse_nonneg hh.2 (by decide : (0 : Int) ≤ 1)⟩
      · exact ⟨h0, rfl⟩

theorem uncompleteHabit_nonneg (tz : TimeZone) (now : Int) (s : Store) (u : Nat) (hid : IdParam)
    (date : DateArg) (h0 : s.countersNonneg = true) :
    (uncompleteHabit tz now s u hid date).2.countersNonneg = true ∧
    (uncompleteHabit tz now s u hid date).1.countersNonneg = true := by
  unfold uncompleteHabit
  split
  · exact ⟨h0, rfl⟩
  · split
    · exact ⟨h0, rfl⟩
    · next habit hf =>
      have hh := (countersNonneg_iff habit).mp (found_nonneg hf h0)
      have hd1 := decrement_nonneg hh.1
      have hd2 := decrement_nonneg hh.2
      have hh1 : Habit.countersNonneg { habit with
          completionCount := decrement habit.completionCount
          streak := decrement habit.streak } = true :=
        (countersNonneg_iff _).mpr ⟨hd1, hd2⟩
      split
      · exact ⟨h0, rfl⟩
      · split
        · exact ⟨h0, rfl⟩
        · split
          · next r s1 hfd =>
            have hs1 : s1.countersNonneg = true := by
              unfold findOneAndDelete at hfd
              rw [← (Prod.mk.inj hfd).2]
              exact h0
            dsimp only
            split
            · exact ⟨hs1, rfl⟩
            · next s2 hs2 =>
              refine ⟨saveHabit_nonneg hs2 hs1 hh1, ?_⟩
              simpa [successResponse, Response.countersNonneg] using
                ⟨orElse_nonneg hd1 (le_refl 0), orElse_nonneg hd2 (le_refl 0)⟩
          · next s1 hfd =>
            have hs1 : s1.countersNonneg = true := by
              unfold findOneAndDelete at hfd
              rw [← (Prod.mk.inj hfd).2]
              exact h0
            refine ⟨hs1, ?_⟩
            simpa [successResponse, Response.countersNonneg] using
              ⟨orElse_nonneg hh.1 (le_refl 0), orElse_nonneg hh.2 (le_refl 0)⟩

theorem assignPath_counters {h h1 : Habit} {key : String} {v : JVal}
    (hk : key ≠ "completionCount" ∧ key ≠ "streak") (ha : assignPath h key v = some h1) :
    h1.completionCount = h.completionCount ∧ h1.streak = h.streak := by
  unfold assignPath at ha
  simp only [hk.1, hk.2, if_false] at ha
  repeat' split at ha
  all_goals
    first
    | (cases ha; exact ⟨rfl, rfl⟩)
    | (obtain ⟨x, _, hx⟩ := Option.map_eq_some'.mp ha
       rw [← hx]
       exact ⟨rfl, rfl⟩)

theorem newHabit_counters {newId u : Nat} {body : Body} {h : Habit}
    (hn : newHabit newId u body = some h) : h.completionCount = 0 ∧ h.streak = 0 := by
  unfold newHabit at hn
  dsimp only at hn
  have key : ∀ (k : String) (acc : Option Habit) (x : Habit),
      (k ≠ "completionCount" ∧ k ≠ "streak") →
      (∀ y, acc = some y → y.completionCount = 0 ∧ y.streak = 0) →
      (match body.get k with
        | none => acc
        | some v => acc.bind (fun h => assignPath h k v)) = some x →
      x.completionCount = 0 ∧ x.streak = 0 := by
    intro k acc x hk hacc hx
    cases hb : body.get k with
    | none => rw [hb] at hx; exact hacc x hx
    | some v =>
      rw [hb] at hx
      cases acc with
      | none => simp at hx
      | some y =>
        have hy := hacc y rfl
        have := assignPath_counters hk hx
        exact ⟨this.1.trans hy.1, this.2.trans hy.2⟩
  split at hn
  · next h2 heq =>
    split at hn
    · cases hn
      refine key "color" _ _ (by decide) ?_ heq
      intro y hy
      refine key "tags" _ _ (by decide) ?_ hy
      intro z hz
      refine key "name" _ _ (by decide) ?_ hz
      intro w hw
      cases hw
      exact ⟨rfl, rfl⟩
    · cases hn
  · cases hn

theorem createHabit_nonneg (s : Store) (u newId : Nat) (body : Body)
    (h0 : s.countersNonneg = true) : (createHabit s u newId body).2.countersNonneg = true := by
  unfold createHabit
  split
  · exact h0
  · next h hn =>
    split
    · exact h0
    · have hc := newHabit_counters hn
      unfold Store.countersNonneg at h0 ⊢
      simp only [List.all_append, h0, List.all_cons, List.all_nil, Bool.and_true, Bool.true_and]
      rw [countersNonneg_iff, hc.1, hc.2]
      exact ⟨le_refl 0, le_refl 0⟩

theorem run_completions_nonneg (tz : TimeZone) (calls : List Call) (s : Store)
    (h0 : s.countersNonneg = true) (hcalls : ∀ c ∈ calls, c.isCompletion = true) :
    (run tz s calls).2.countersNonneg = true ∧
    ∀ r ∈ (run tz s calls).1, r.countersNonneg = true := by
  induction calls generalizing s with
  | nil => exact ⟨h0, by simp [run]⟩
  | cons c cs ih =>
    have hc := hcalls c (List.mem_cons_self _ _)
    have hstep : (step tz s c).2.countersNonneg = true ∧ (step tz s c).1.countersNonneg = true := by
      cases c with
      | create _ _ _ => cases hc
      | update _ _ _ _ _ => cases hc
      | delete _ _ => cases hc
      | complete now u hid date => exact completeHabit_nonneg tz now s u hid date h0
      | uncomplete now u hid date => exact uncompleteHabit_nonneg tz now s u hid date h0
    have ih1 := ih (step tz s c).2 hstep.1 (fun x hx => hcalls x (List.mem_cons_of_mem _ hx))
    refine ⟨ih1.1, ?_⟩
    intro r hr
    rcases List.mem_cons.mp hr with rfl | hr
    · exact hstep.2
    · exact ih1.2 r hr

/-- C4 (non-negative counters). Start from a store whose counters are all at least 0
(the empty store is one) and create a habit, whose counters are 0. After every prefix
of every sequence of `completeHabit` and `uncompleteHabit` calls, for any days in any
order, every stored `completionCount` and `streak` is at least 0, and so are the
counters returned by each call. -/
theorem counters_nonneg (tz : TimeZone) (s0 : Store) (u newId : Nat) (body : Body)
    (calls : List Call) (k : Nat)
    (h0 : s0.countersNonneg = true) (hcalls : ∀ c ∈ calls, c.isCompletion = true) :
    (∀ h, (createHabit s0 u newId body).1 = Response.success 201 (Payload.habit h) →
      h.completionCount = 0 ∧ h.streak = 0) ∧
    (run tz (createHabit s0 u newId body).2 (calls.take k)).2.countersNonneg = true ∧
    ∀ r ∈ (run tz (createHabit s0 u newId body).2 (calls.take k)).1,
      r.countersNonneg = true := by
  refine ⟨?_, run_completions_nonneg tz (calls.take k) _ (createHabit_nonneg s0 u newId body h0)
    (fun c hc => hcalls c (List.mem_of_mem_take hc))⟩
  intro h hr
  unfold createHabit at hr
  split at hr
  · cases hr
  · next h1 hn =>
    split at hr
    · cases hr
    · cases hr
      exact newHabit_counters hn

/-- An uncompletion before any completion, and two after one, keep the counters at 0 or more. -/
theorem counters_nonneg_witness :
    (run (fixedZone 0) (createHabit emptyStore 7 1 [("name", JVal.str "read")]).2
      ([Call.uncomplete 0 7 (IdParam.oid 1) DateArg.absent,
        Call.complete 0 7 (IdParam.oid 1) DateArg.absent,
        Call.uncomplete 0 7 (IdParam.oid 1) DateArg.absent,
        Call.uncomplete 0 7 (IdParam.oid 1) DateArg.absent].take 3)).2.countersNonneg = true :=
  (counters_nonneg (fixedZone 0) emptyStore 7 1 [("name", JVal.str "read")]
    [Call.uncomplete 0 7 (IdParam.oid 1) DateArg.absent,
     Call.complete 0 7 (IdParam.oid 1) DateArg.absent,
     Call.uncomplete 0 7 (IdParam.oid 1) DateArg.absent,
     Call.uncomplete 0 7 (IdParam.oid 1) DateArg.absent] 3 (by decide) (by decide)).2.1

/-! ## Completing a day that is already completed (C5) -/

/-- C5, as stated, fails: in `staleStore` the ledger holds the record for the day and
the stored counters are 0, and `completeHabit` for that day returns counters 1 and 1,
not the stored 0 and 0. -/
theorem stale_counter_reported_as_one :
    findHabit staleStore 1 7 = some staleHabit ∧
    staleHabit.completionCount = 0 ∧ staleHabit.streak = 0 ∧
    hasCompletion staleStore 1 7 1704067200000 = true ∧
    completionDate (fixedZone 0) 0 (DateArg.instant 1704096000000) = some 1704067200000 ∧
    completeHabit (fixedZone 0) 0 staleStore 7 (IdParam.oid 1) (DateArg.instant 1704096000000) =
      (Response.success 200 (Payload.counters 1 true 1), staleStore) := by
  decide

/-- C5 (repeat completion), amended. If a ledger record for `(H, u, d)` exists, then
`completeHabit` for day `d` leaves the whole store unchanged, answers 200 rather than
an error, with `completedToday = true` and with each counter equal to the stored
value when that is not 0, and equal to 1 when the stored value is 0. -/
theorem completeHabit_repeat_reports (tz : TimeZone) (now : Int) (s : Store) (u H : Nat)
    (h : Habit) (date : DateArg) (d : Int)
    (hf : findHabit s H u = some h) (hyes : hasCompletion s H u d = true)
    (hd : completionDate tz now date = some d) :
    (completeHabit tz now s u (IdParam.oid H) date).2 = s ∧
    (completeHabit tz now s u (IdParam.oid H) date).1 =
      Response.success 200
        (Payload.counters (if h.completionCount = 0 then 1 else h.completionCount) true
          (if h.streak = 0 then 1 else h.streak)) ∧
    (h.completionCount ≠ 0 → h.streak ≠ 0 →
      (completeHabit tz now s u (IdParam.oid H) date).1 =
        Response.success 200 (Payload.counters h.completionCount true h.streak)) := by
  have hres : completeHabit tz now s u (IdParam.oid H) date =
      (Response.success 200
        (Payload.counters (if h.completionCount = 0 then 1 else h.completionCount) true
          (if h.streak = 0 then 1 else h.streak)), s) := by
    simp only [completeHabit, hf, hd, createCompletion, hyes, if_true, successResponse, orElse]
  refine ⟨by rw [hres], by rw [hres], ?_⟩
  intro hc hk
  rw [hres, if_neg hc, if_neg hk]

/-- With stored counters 3 and 2 the repeated completion reports 3 and 2. -/
theorem completeHabit_repeat_reports_witness :
    (completeHabit (fixedZone 0) 1704139200000
      { habits := [{ sampleHabit with completionCount := 3, streak := 2 }],
        completions := [{ habitId := 1, userId := 7, date := 1704067200000 }] }
      7 (IdParam.oid 1) DateArg.absent).1 = Response.success 200 (Payload.counters 3 true 2) :=
  (completeHabit_repeat_reports (fixedZone 0) 1704139200000
    { habits := [{ sampleHabit with completionCount := 3, streak := 2 }],
      completions := [{ habitId := 1, userId := 7, date := 1704067200000 }] }
    7 1 { sampleHabit with completionCount := 3, streak := 2 } DateArg.absent 1704067200000
    (by decide) (by decide) (by decide)).2.2 (by decide) (by decide)

/-! ## Day keys (C6) -/

theorem setHoursZero_some {tz : TimeZone} {t k : Int} (h : setHoursZero tz t = some k) :
    k = localDay tz t * msPerDay - tz.offsetAtLocal (localDay tz t * msPerDay) := by
  unfold setHoursZero at h
  have := (timeClip_some h).1
  unfold toUTC at this
  exact this.symm

/-- C6 (day boundary). In a time zone whose local offsets differ by less than a day,
the normalisation `setHours(0, 0, 0, 0)` of `completeHabit` and `uncompleteHabit` gives
two instants the same day key exactly when they fall on the same local calendar day;
and the last millisecond before a local midnight and the midnight instant get
different day keys. -/
theorem day_key_iff_same_day (tz : TimeZone)
    (hreg : ∀ x y, tz.offsetAtLocal x - tz.offsetAtLocal y < msPerDay) :
    (∀ t1 t2 k1 k2, setHoursZero tz t1 = some k1 → setHoursZero tz t2 = some k2 →
      (k1 = k2 ↔ localDay tz t1 = localDay tz t2)) ∧
    (∀ m k1 k2, localTime tz m % msPerDay = 0 → localTime tz (m - 1) = localTime tz m - 1 →
      setHoursZero tz (m - 1) = some k1 → setHoursZero tz m = some k2 → k1 ≠ k2) := by
  have main : ∀ t1 t2 k1 k2, setHoursZero tz t1 = some k1 → setHoursZero tz t2 = some k2 →
      (k1 = k2 ↔ localDay tz t1 = localDay tz t2) := by
    intro t1 t2 k1 k2 h1 h2
    have e1 := setHoursZero_some h1
    have e2 := setHoursZero_some h2
    constructor
    · intro hk
      have r1 := hreg (localDay tz t1 * msPerDay) (localDay tz t2 * msPerDay)
      have r2 := hreg (localDay tz t2 * msPerDay) (localDay tz t1 * msPerDay)
      unfold msPerDay at e1 e2 r1 r2
      omega
    · intro hd
      rw [e1, e2, hd]
  refine ⟨main, ?_⟩
  intro m k1 k2 hmid hprev h1 h2 hk
  have hday := (main (m - 1) m k1 k2 h1 h2).mp hk
  unfold localDay at hday
  rw [hprev] at hday
  unfold msPerDay at hday hmid
  omega

/-- Eight hours ahead of UTC, 2024-01-01T08:00Z lies on the local day that starts at
2023-12-31T16:00Z, and the millisecond before that start has another day key. -/
theorem day_key_iff_same_day_witness :
    ((1704038400000 : Int) = 1704038400000 ↔
      localDay (fixedZone 28800000) 1704096000000 = localDay (fixedZone 28800000) 1704038400000) ∧
    (1703952000000 : Int) ≠ 1704038400000 :=
  ⟨(day_key_iff_same_day (fixedZone 28800000) (fun _ _ => (by decide : (28800000 : Int) - 28800000 < msPerDay))).1
      1704096000000 1704038400000 1704038400000 1704038400000 (by decide) (by decide),
   (day_key_iff_same_day (fixedZone 28800000) (fun _ _ => (by decide : (28800000 : Int) - 28800000 < msPerDay))).2
      1704038400000 1703952000000 1704038400000 (by decide) (by decide) (by decide) (by decide)⟩

/-! ## The scenario of a fresh habit (C7) -/

theorem assignPath_frame {h h1 : Habit} {key : String} {v : JVal}
    (hk : key ≠ "userId" ∧ key ≠ "completionCount" ∧ key ≠ "streak")
    (ha : assignPath h key v = some h1) :
    h1._id = h._id ∧ h1.userId = h.userId ∧ h1.completionCount = h.completionCount ∧
      h1.streak = h.streak := by
  unfold assignPath at ha
  simp only [hk.1, hk.2.1, hk.2.2, if_false] at ha
  repeat' split at ha
  all_goals
    first
    | (cases ha; exact ⟨rfl, rfl, rfl, rfl⟩)
    | (obtain ⟨x, _, hx⟩ := Option.map_eq_some'.mp ha
       rw [← hx]
       exact ⟨rfl, rfl, rfl, rfl⟩)

theorem newHabit_spec {newId u : Nat} {body : Body} {h : Habit}
    (hn : newHabit newId u body = some h) :
    validName h.name = true ∧ h._id = newId ∧ h.userId = u := by
  unfold newHabit at hn
  dsimp only at hn
  have key : ∀ (k : String) (acc : Option Habit) (x : Habit),
      (k ≠ "userId" ∧ k ≠ "completionCount" ∧ k ≠ "streak") →
      (∀ y, acc = some y → y._id = newId ∧ y.userId = u) →
      (match body.get k with
        | none => acc
        | some v => acc.bind (fun h => assignPath h k v)) = some x →
      x._id = newId ∧ x.userId = u := by
    intro k acc x hk hacc hx
    cases hb : body.get k with
    | none => rw [hb] at hx; exact hacc x hx
    | some v =>
      rw [hb] at hx
      cases acc with
      | none => simp at hx
      | some y =>
        have hy := hacc y rfl
        have := assignPath_frame hk hx
        exact ⟨this.1.trans hy.1, this.2.1.trans hy.2⟩
  split at hn
  · next h2 heq =>
    split at hn
    · next hvalid =>
      cases hn
      refine ⟨hvalid, ?_⟩
      refine key "color" _ _ (by decide) ?_ heq
      intro y hy
      refine key "tags" _ _ (by decide) ?_ hy
      intro z hz
      refine key "name" _ _ (by decide) ?_ hz
      intro w hw
      cases hw
      exact ⟨rfl, rfl⟩
    · cases hn
  · cases hn

theorem createHabit_created {s : Store} {u newId : Nat} {body : Body} {h : Habit}
    (hr : (createHabit s u newId body).1 = Response.success 201 (Payload.habit h)) :
    newHabit newId u body = some h ∧ s.habits.any (fun x => x._id == newId) = false ∧
    (createHabit s u newId body).2 = { s with habits := s.habits ++ [h] } := by
  have h12 : newHabit newId u body = some h ∧ s.habits.any (fun x => x._id == newId) = false := by
    unfold createHabit at hr
    split at hr
    · cases hr
    · next h1 hn =>
      split at hr
      · cases hr
      · next hany =>
        cases hr
        exact ⟨hn, by simpa using hany⟩
  refine ⟨h12.1, h12.2, ?_⟩
  simp only [createHabit, h12.1, h12.2, Bool.false_eq_true, if_false]

theorem findHabit_append_new {s : Store} {h : Habit} {c : List HabitCompletion}
    (hany : s.habits.any (fun x => x._id == h._id) = false) :
    findHabit { habits := s.habits ++ [h], completions := c } h._id h.userId = some h := by
  unfold findHabit
  have hnone : s.habits.find? (fun x => x._id == h._id && x.userId == h.userId) = none := by
    rw [List.find?_eq_none]
    intro x hx hp
    have := (List.any_eq_false.mp hany) x hx
    simp only [Bool.and_eq_true] at hp
    exact this hp.1
  simp [List.find?_append, hnone, List.find?]

/-- C7, as stated, fails: on a server whose zone is eight hours ahead of UTC the two
instants fall on different local days, and the second `completeHabit` of the scenario
returns counters 2 and 2. -/
theorem scenario_other_zone :
    (run (fixedZone 28800000) (createHabit emptyStore 7 1 [("name", JVal.str "run")]).2
      [Call.complete 0 7 (IdParam.oid 1) (DateArg.instant 1704096000000),
       Call.complete 0 7 (IdParam.oid 1) (DateArg.instant 1704139200000)]).1 =
      [Response.success 200 (Payload.counters 1 true 1),
       Response.success 200 (Payload.counters 2 true 2)] := by
  decide

/-- C7 (scenario), amended. Let the server's zone put 2024-01-01T08:00Z and
2024-01-01T20:00Z on the same local day `d` (as UTC does). For a freshly created habit,
`completeHabit` at the first instant returns `(1, 1, true)`, `completeHabit` at the
second returns the unchanged `(1, 1, true)`, a following `uncompleteHabit` for day `d`
returns `(0, 0, false)`, and a second one returns the same `(0, 0, false)`. -/
theorem scenario_same_day (tz : TimeZone) (s0 : Store) (u newId : Nat) (body : Body) (h : Habit)
    (d now1 now2 now3 now4 : Int) (date3 date4 : DateArg)
    (hcreate : (createHabit s0 u newId body).1 = Response.success 201 (Payload.habit h))
    (hfresh : ∀ c ∈ s0.completions, c.habitId ≠ newId)
    (hd1 : completionDate tz now1 (DateArg.instant 1704096000000) = some d)
    (hd2 : completionDate tz now2 (DateArg.instant 1704139200000) = some d)
    (hd3 : completionDate tz now3 date3 = some d)
    (hd4 : completionDate tz now4 date4 = some d)
    (hend : d + msPerDay ≤ maxTimeValue) :
    h.completionCount = 0 ∧ h.streak = 0 ∧
    (run tz (createHabit s0 u newId body).2
      [Call.complete now1 u (IdParam.oid newId) (DateArg.instant 1704096000000),
       Call.complete now2 u (IdParam.oid newId) (DateArg.instant 1704139200000),
       Call.uncomplete now3 u (IdParam.oid newId) date3,
       Call.uncomplete now4 u (IdParam.oid newId) date4]).1 =
      [Response.success 200 (Payload.counters 1 true 1),
       Response.success 200 (Payload.counters 1 true 1),
       Response.success 200 (Payload.counters 0 false 0),
       Response.success 200 (Payload.counters 0 false 0)] := by
  obtain ⟨hn, hany, hs1⟩ := createHabit_created hcreate
  obtain ⟨hv, hid, hu⟩ := newHabit_spec hn
  obtain ⟨hc0, hk0⟩ := newHabit_counters hn
  refine ⟨hc0, hk0, ?_⟩
  have hlo : -maxTimeValue ≤ d + msPerDay := by
    have := (completionDate_range hd1).1
    unfold msPerDay; omega
  -- the store after the creation
  have hf1 : findHabit { s0 with habits := s0.habits ++ [h] } newId u = some h := by
    have := @findHabit_append_new s0 h s0.completions (by rw [hid]; exact hany)
    rw [hid, hu] at this
    exact this
  have hpre : s0.completions.any (inRange newId u d (d + msPerDay)) = false := by
    rw [List.any_eq_false]
    intro c hc hin
    apply hfresh c hc
    simp only [inRange, Bool.and_eq_true, beq_iff_eq] at hin
    exact hin.1.1.1
  have hno1 : hasCompletion { s0 with habits := s0.habits ++ [h] } newId u d = false :=
    hasCompletion_false_of_range hpre
  have e1 := completeHabit_first hf1 hv hno1 hd1
  -- the store after the first completion
  have hf2 := findHabit_after_save
    { h with completionCount := h.completionCount + 1, streak := h.streak + 1 } hf1 hid hu
    (s0.completions ++ [{ habitId := newId, userId := u, date := d }])
  have e2 := completeHabit_repeat hf2 (by simp [hasCompletion]) hd2
  have e3 := uncompleteHabit_hit s0.completions hf2 hv
    (by show 0 < h.completionCount + 1; omega) (by show 0 < h.streak + 1; omega) hd3 hend hlo rfl hpre
  -- the store after the first uncompletion
  have hf3 := findHabit_after_save
    { h with completionCount := h.completionCount + 1 - 1, streak := h.streak + 1 - 1 }
    hf2 hid hu s0.completions
  have e4 := uncompleteHabit_miss hf3 hd4 hend hlo hpre
  simp only [hs1, run, step, e1, e2, e3, e4]
  simp only [hc0, hk0, orElse]
  decide

/-- The scenario on a server in UTC, starting from the empty store. -/
theorem scenario_same_day_witness :
    (run (fixedZone 0) (createHabit emptyStore 7 1 [("name", JVal.str "run")]).2
      [Call.complete 0 7 (IdParam.oid 1) (DateArg.instant 1704096000000),
       Call.complete 0 7 (IdParam.oid 1) (DateArg.instant 1704139200000),
       Call.uncomplete 1704100000000 7 (IdParam.oid 1) DateArg.absent,
       Call.uncomplete 1704100000001 7 (IdParam.oid 1) DateArg.absent]).1 =
      [Response.success 200 (Payload.counters 1 true 1),
       Response.success 200 (Payload.counters 1 true 1),
       Response.success 200 (Payload.counters 0 false 0),
       Response.success 200 (Payload.counters 0 false 0)] :=
  (scenario_same_day (fixedZone 0) emptyStore 7 1 [("name", JVal.str "run")]
    { _id := 1, userId := 7, name := "run", icon := "default-habit-icon", tags := [],
      completionCount := 0, streak := 0, color := "#4a69bd" }
    1704067200000 0 0 1704100000000 1704100000001 DateArg.absent DateArg.absent
    (by decide) (by decide) (by decide) (by decide) (by decide) (by decide) (by decide)).2.2

/-! ## Deleting a habit (C8) -/

/-- C8 (cascade). If habit `H` is owned by caller `u`, `deleteHabit` succeeds (204),
and afterwards the habit store holds no habit with id `H` and the ledger holds no record
whose `habitId` is `H`, whatever its day and `userId`. -/
theorem deleteHabit_cascade (s : Store) (u H : Nat) (h : Habit)
    (hf : findHabit s H u = some h) :
    (deleteHabit s u (IdParam.oid H)).1 = Response.empty 204 ∧
    (∀ x ∈ (deleteHabit s u (IdParam.oid H)).2.habits, x._id ≠ H) ∧
    (∀ c ∈ (deleteHabit s u (IdParam.oid H)).2.completions, c.habitId ≠ H) := by
  obtain ⟨_, hid, _⟩ := findHabit_some hf
  simp only [deleteHabit, hf, deleteManyCompletions, deleteOneHabit, hid]
  refine ⟨trivial, ?_, ?_⟩
  · intro x hx
    have := (List.mem_filter.mp hx).2
    simpa using this
  · intro c hc
    have := (List.mem_filter.mp hc).2
    simpa using this

/-- Deleting `staleHabit`, which has a completion, answers 204. -/
theorem deleteHabit_cascade_witness :
    findHabit staleStore 1 7 = some staleHabit ∧
    (deleteHabit staleStore 7 (IdParam.oid 1)).1 = Response.empty 204 :=
  ⟨by decide, (deleteHabit_cascade staleStore 7 1 staleHabit (by decide)).1⟩

/-! ## Habits that are not found (C9) -/

/-- C9 (NotFound is atomic). If no habit with id `h` and `userId` `u` exists (the id is
absent or the habit belongs to another user), then `getHabit`, `updateHabit`,
`deleteHabit`, `completeHabit` and `uncompleteHabit` each answer 404 and leave the
habit store and the ledger exactly as they were. -/
theorem notFound_atomic (m : DocumentClass) (tz : TimeZone) (now : Int) (s : Store) (u H : Nat)
    (updates : Body) (date : DateArg) (hf : findHabit s H u = none) :
    getHabit tz now s u (IdParam.oid H) = (Response.error 404, s) ∧
    updateHabit m tz now s u (IdParam.oid H) updates = (Response.error 404, s) ∧
    deleteHabit s u (IdParam.oid H) = (Response.error 404, s) ∧
    completeHabit tz now s u (IdParam.oid H) date = (Response.error 404, s) ∧
    uncompleteHabit tz now s u (IdParam.oid H) date = (Response.error 404, s) := by
  refine ⟨?_, ?_, ?_, ?_, ?_⟩
  · simp only [getHabit, hf]
  · simp only [updateHabit, hf]
  · simp only [deleteHabit, hf]
  · simp only [completeHabit, hf]
  · simp only [uncompleteHabit, hf]

/-- User 8 deleting the habit of user 7 gets 404 and changes nothing. -/
theorem notFound_atomic_witness :
    deleteHabit staleStore 8 (IdParam.oid 1) = (Response.error 404, staleStore) :=
  (notFound_atomic plainDocument (fixedZone 0) 0 staleStore 8 1 [] DateArg.absent
    (by decide)).2.2.1

/-! ## Protected fields (C10) -/

theorem applyUpdates_frame (updates : Body) (acc : Option Habit) (h h1 : Habit)
    (hacc : ∀ y, acc = some y → y._id = h._id ∧ y.userId = h.userId ∧
      y.completionCount = h.completionCount ∧ y.streak = h.streak)
    (hfold : updates.foldl
      (fun acc kv =>
        if kv.1 ≠ "userId" ∧ kv.1 ≠ "completionCount" ∧ kv.1 ≠ "streak" then
          acc.bind (fun h => assignPath h kv.1 kv.2)
        else acc) acc = some h1) :
    h1._id = h._id ∧ h1.userId = h.userId ∧ h1.completionCount = h.completionCount ∧
      h1.streak = h.streak := by
  induction updates generalizing acc with
  | nil => exact hacc h1 hfold
  | cons kv rest ih =>
    rw [List.foldl_cons] at hfold
    refine ih _ ?_ hfold
    intro y hy
    split at hy
    · next hk =>
      cases acc with
      | none => simp at hy
      | some z =>
        have hz := hacc z rfl
        have hfr := assignPath_frame hk hy
        exact ⟨hfr.1.trans hz.1, hfr.2.1.trans hz.2.1, hfr.2.2.1.trans hz.2.2.1,
          hfr.2.2.2.trans hz.2.2.2⟩
    · exact hacc y hy

theorem findHabit_map (l : List Habit) (c : List HabitCompletion) (g : Habit → Habit)
    (hg : ∀ x, (g x)._id = x._id ∧ (g x).userId = x.userId) (H u : Nat) :
    findHabit { habits := l.map g, completions := c } H u =
      (l.find? (fun h => h._id == H && h.userId == u)).map g := by
  unfold findHabit
  induction l with
  | nil => rfl
  | cons a rest ih =>
    simp only [List.map_cons, List.find?_cons, (hg a).1, (hg a).2]
    split
    · rfl
    · exact ih

theorem findHabit_append_old {s : Store} {H u : Nat} {h : Habit}
    (hf : findHabit s H u = some h) (d : Habit) :
    findHabit { s with habits := s.habits ++ [d] } H u = some h := by
  unfold findHabit at hf ⊢
  rw [List.find?_append, hf]
  rfl

/-- After a save of `updateHabit`, the habit found for `(H, u)` is the one found before
or that one with the modified paths of the document set on it. -/
theorem saveDoc_find {s s1 : Store} {loaded : Habit} {doc : Doc} {H u : Nat} {h : Habit}
    (hs : saveDoc s loaded doc = some s1) (hf : findHabit s H u = some h) :
    findHabit s1 H u = some h ∨
    ∃ d, doc.habit = some d ∧ doc.isNew = false ∧ h._id = d._id ∧
      findHabit s1 H u = some (setModified loaded d h) := by
  obtain ⟨_, d, hd, _, ⟨_, _, e⟩ | ⟨hnew, _, e⟩⟩ := saveDoc_some hs
  · rw [e]
    exact Or.inl (findHabit_append_old hf d)
  · rw [e]
    have hmap := findHabit_map s.habits s.completions
      (fun x => if x._id == d._id then setModified loaded d x else x)
      (fun x => by by_cases hx : x._id = d._id <;> simp [hx, setModified]) H u
    have hf0 : s.habits.find? (fun h => h._id == H && h.userId == u) = some h := hf
    rw [hf0] at hmap
    by_cases hid : h._id = d._id
    · refine Or.inr ⟨d, hd, hnew, hid, ?_⟩
      rw [hmap]
      simp [hid]
    · refine Or.inl ?_
      rw [hmap]
      simp [hid]

/-- C10 (protected fields). For every habit `H` owned by the caller and every update
body, also one that carries `userId`, `completionCount` or `streak` with any values,
and whatever the further keys of the body do to the document, the habit stored after
`updateHabit` has the `userId`, `completionCount` and `streak` it had before the
call. -/
theorem updateHabit_protected (m : DocumentClass) (tz : TimeZone) (now : Int) (s : Store)
    (u H : Nat) (h : Habit) (updates : Body) (hf : findHabit s H u = some h) :
    ∃ h1, findHabit (updateHabit m tz now s u (IdParam.oid H) updates).2 H u = some h1 ∧
      h1.userId = h.userId ∧ h1.completionCount = h.completionCount ∧ h1.streak = h.streak := by
  have key : ∀ s1, saveDoc s h (applyUpdates m h updates) = some s1 →
      ∃ h1, findHabit s1 H u = some h1 ∧
        h1.userId = h.userId ∧ h1.completionCount = h.completionCount ∧ h1.streak = h.streak := by
    intro s1 hs
    rcases saveDoc_find hs hf with e | ⟨d, _, _, _, e⟩
    · exact ⟨h, e, rfl, rfl, rfl⟩
    · exact ⟨_, e, rfl, rfl, rfl⟩
  rcases updateHabit_cases m tz now s u H h updates hf with e | ⟨s1, d, hs, _, e | ⟨c, _, _, e⟩⟩
  · rw [e]
    exact ⟨h, hf, rfl, rfl, rfl⟩
  · rw [e]
    exact key s1 hs
  · rw [e]
    exact key s1 hs

/-- An update that names all three protected fields, a new name, and `_id` and `isNew`,
which make the save insert a copy. -/
theorem updateHabit_protected_witness :
    ∃ h1, findHabit (updateHabit plainDocument (fixedZone 0) 0 sampleStore 7 (IdParam.oid 1)
        [("streak", JVal.num ⟨99, by decide⟩), ("userId", JVal.num ⟨3, by decide⟩),
         ("completionCount", JVal.num ⟨5, by decide⟩), ("name", JVal.str "walk"),
         ("_id", JVal.str "000000000000000000000002"), ("isNew", JVal.num ⟨1, by decide⟩)]).2 1 7 = some h1 ∧
      h1.userId = sampleHabit.userId ∧ h1.completionCount = sampleHabit.completionCount ∧
      h1.streak = sampleHabit.streak :=
  updateHabit_protected plainDocument (fixedZone 0) 0 sampleStore 7 1 sampleHabit
    [("streak", JVal.num ⟨99, by decide⟩), ("userId", JVal.num ⟨3, by decide⟩),
     ("completionCount", JVal.num ⟨5, by decide⟩), ("name", JVal.str "walk"),
     ("_id", JVal.str "000000000000000000000002"), ("isNew", JVal.num ⟨1, by decide⟩)] (by decide)

/-! ## Other habits and their completions stay as they are (C19) -/

theorem filter_map_replace (l : List Habit) (h1 : Habit) :
    (l.map (fun x => if x._id == h1._id then h1 else x)).filter (fun x => !(x._id == h1._id)) =
      l.filter (fun x => !(x._id == h1._id)) := by
  induction l with
  | nil => rfl
  | cons a t ih =>
    by_cases ha : a._id = h1._id
    · have hb : (a._id == h1._id) = true := by simpa using ha
      simp only [List.map_cons, hb, if_true, List.filter_cons, beq_self_eq_true, Bool.not_true,
        Bool.false_eq_true, if_false, ih]
    · have hb : (a._id == h1._id) = false := by simpa using ha
      simp only [List.map_cons, hb, Bool.false_eq_true, if_false, List.filter_cons, Bool.not_false,
        if_true, ih]

theorem filter_eraseP_other (l : List HabitCompletion) (p q : HabitCompletion → Bool)
    (hpq : ∀ c, p c = true → q c = false) : (l.eraseP p).filter q = l.filter q := by
  induction l with
  | nil => rfl
  | cons a t ih =>
    by_cases hp : p a = true
    · rw [List.eraseP_cons_of_pos hp, List.filter_cons, hpq a hp]
      simp
    · rw [List.eraseP_cons_of_neg hp, List.filter_cons, List.filter_cons, ih]

theorem saveHabit_others {s s1 : Store} {h : Habit} (hs : saveHabit s h = some s1) :
    s1.habits.filter (fun x => !(x._id == h._id)) = s.habits.filter (fun x => !(x._id == h._id)) ∧
    s1.completions = s.completions := by
  unfold saveHabit at hs
  split at hs
  · cases hs
    exact ⟨filter_map_replace s.habits h, rfl⟩
  · cases hs

theorem sameOthers_refl (H : Nat) (s : Store) : sameOthers H s s := ⟨rfl, rfl⟩

theorem sameOthers_save {H : Nat} {s s0 s1 : Store} {h : Habit}
    (hs : saveHabit s0 h = some s1) (hid : h._id = H) (h0 : sameOthers H s s0) :
    sameOthers H s s1 := by
  have := saveHabit_others hs
  rw [hid] at this
  exact ⟨this.1.trans h0.1, by rw [this.2]; exact h0.2⟩

theorem completeHabit_frame (tz : TimeZone) (now : Int) (s : Store) (u H : Nat) (date : DateArg) :
    sameOthers H s (completeHabit tz now s u (IdParam.oid H) date).2 := by
  unfold completeHabit
  dsimp only
  split
  · exact sameOthers_refl H s
  · next habit hf =>
    obtain ⟨_, hid, _⟩ := findHabit_some hf
    split
    · next s1 hcr =>
      have hs1 : sameOthers H s s1 := by
        unfold createCompletion at hcr
        split at hcr
        · cases hcr
        · split at hcr
          · cases hcr
          · cases hcr
            refine ⟨rfl, ?_⟩
            simp [List.filter_append, List.filter_cons]
      split
      · exact hs1
      · next s2 hs2 => exact sameOthers_save hs2 hid hs1
    · exact sameOthers_refl H s
    · exact sameOthers_refl H s

theorem uncompleteHabit_frame (tz : TimeZone) (now : Int) (s : Store) (u H : Nat)
    (date : DateArg) : sameOthers H s (uncompleteHabit tz now s u (IdParam.oid H) date).2 := by
  unfold uncompleteHabit
  dsimp only
  split
  · exact sameOthers_refl H s
  · next habit hf =>
    obtain ⟨_, hid, _⟩ := findHabit_some hf
    split
    · exact sameOthers_refl H s
    · split
      · exact sameOthers_refl H s
      · next _ lo _ _ hi _ =>
        have herase : sameOthers H s
            { s with completions := s.completions.eraseP (inRange H u lo hi) } := by
          refine ⟨rfl, ?_⟩
          apply filter_eraseP_other
          intro c hc
          simp only [inRange, Bool.and_eq_true, beq_iff_eq] at hc
          simp [hc.1.1.1]
        split
        · next r s1 hfd =>
          have hs1 : sameOthers H s s1 := by
            unfold findOneAndDelete at hfd
            rw [← (Prod.mk.inj hfd).2]
            exact herase
          split
          · exact hs1
          · next s2 hs2 => exact sameOthers_save hs2 hid hs1
        · next s1 hfd =>
          unfold findOneAndDelete at hfd
          rw [← (Prod.mk.inj hfd).2]
          exact herase

theorem filter_map_at (l : List Habit) (k : Nat) (g : Habit → Habit)
    (hg : ∀ x, (g x)._id = x._id) :
    (l.map (fun x => if x._id == k then g x else x)).filter (fun x => !(x._id == k)) =
      l.filter (fun x => !(x._id == k)) := by
  induction l with
  | nil => rfl
  | cons a rest ih =>
    by_cases ha : a._id = k
    · have hb : (a._id == k) = true := by simpa using ha
      have hc : ((g a)._id == k) = true := by rw [hg a]; exact hb
      simp only [List.map_cons, hb, if_true, List.filter_cons, hc, Bool.not_true,
        Bool.false_eq_true, if_false, ih]
    · have hb : (a._id == k) = false := by simpa using ha
      simp only [List.map_cons, hb, Bool.false_eq_true, if_false, List.filter_cons, Bool.not_false,
        if_true, ih]

theorem habit_id_kept {m : DocumentClass} {h d : Habit} {updates : Body}
    (hk : keepsId m updates = true) (hd : (applyUpdates m h updates).habit = some d) :
    d._id = h._id := by
  obtain ⟨f, k, _, hid, rfl⟩ := habit_some hd
  rw [applyUpdates_id m h updates hk] at hid
  exact (Option.some.inj hid).symm

theorem updateHabit_frame (m : DocumentClass) (tz : TimeZone) (now : Int) (s : Store) (u H : Nat)
    (updates : Body) (hk : keepsId m updates = true) :
    sameOthers H s (updateHabit m tz now s u (IdParam.oid H) updates).2 := by
  cases hf : findHabit s H u with
  | none =>
    simp only [updateHabit, hf]
    exact sameOthers_refl H s
  | some h =>
    obtain ⟨hmem, hid, _⟩ := findHabit_some hf
    have key : ∀ s1, saveDoc s h (applyUpdates m h updates) = some s1 → sameOthers H s s1 := by
      intro s1 hs
      obtain ⟨_, d, hd, _, ⟨_, hany, _⟩ | ⟨_, _, e⟩⟩ := saveDoc_some hs
      · have hdid := habit_id_kept hk hd
        have := (List.any_eq_false.mp hany) h hmem
        rw [hdid] at this
        simp at this
      · have hdid : d._id = H := (habit_id_kept hk hd).trans hid
        rw [e, hdid]
        exact ⟨filter_map_at s.habits H (setModified h d) (fun _ => rfl), rfl⟩
    rcases updateHabit_cases m tz now s u H h updates hf with e | ⟨s1, d, hs, _, e | ⟨c, _, _, e⟩⟩
    · rw [e]
      exact sameOthers_refl H s
    · rw [e]
      exact key s1 hs
    · rw [e]
      exact key s1 hs

theorem deleteHabit_frame (s : Store) (u H : Nat) :
    sameOthers H s (deleteHabit s u (IdParam.oid H)).2 := by
  unfold deleteHabit
  dsimp only
  split
  · exact sameOthers_refl H s
  · next habit hf =>
    obtain ⟨_, hid, _⟩ := findHabit_some hf
    simp only [sameOthers, deleteManyCompletions, deleteOneHabit, hid, List.filter_filter,
      Bool.and_self, and_self]

/-- C19, as stated, fails. User 7 updates habit 1 with a body that carries the `_id` of
habit 2 and a new name: the save addresses the document with that `_id`, the habit of
user 8, and sets its name; the answer is 200. With `isNew` and an unused `_id` the save
inserts a copy of habit 1 under the new id. -/
theorem update_reaches_another_habit :
    updateHabit plainDocument (fixedZone 0) 1704096000000 listStore 7 (IdParam.oid 1)
        [("_id", JVal.str "000000000000000000000002"), ("name", JVal.str "mine")] =
      (Response.success 200
        (Payload.view
          { habit :=
              { sampleHabit with
                _id := 2, name := "mine", tags := ["health"], completionCount := 1, streak := 1 },
            completedToday := true }),
       { habits :=
           [{ sampleHabit with tags := ["health"], completionCount := 1, streak := 1 },
            { sampleHabit with _id := 2, userId := 8, name := "mine", tags := ["health"] },
            { sampleHabit with _id := 3, tags := ["work"] }],
         completions := [{ habitId := 1, userId := 7, date := 1704067200000 }] }) ∧
    ¬ sameOthers 1 listStore
        (updateHabit plainDocument (fixedZone 0) 1704096000000 listStore 7 (IdParam.oid 1)
          [("_id", JVal.str "000000000000000000000002"), ("name", JVal.str "mine")]).2 ∧
    (updateHabit plainDocument (fixedZone 0) 1704096000000 listStore 7 (IdParam.oid 1)
        [("isNew", JVal.num ⟨1, by decide⟩), ("_id", JVal.str "000000000000000000000009")]).2 =
      { listStore with
        habits := listStore.habits ++
          [{ sampleHabit with _id := 9, tags := ["health"], completionCount := 1, streak := 1 }] } ∧
    ¬ sameOthers 1 listStore
        (updateHabit plainDocument (fixedZone 0) 1704096000000 listStore 7 (IdParam.oid 1)
          [("isNew", JVal.num ⟨1, by decide⟩), ("_id", JVal.str "000000000000000000000009")]).2 := by
  decide

/-- C19 (single-habit frame), amended. Each of `completeHabit`, `uncompleteHabit` and
`deleteHabit` called for `(u, H)`, and `updateHabit` called for `(u, H)` with a body
that has no key assigning `_id`, leaves every habit document with another id and every
ledger record of another habit exactly as it was, whatever the call answers. -/
theorem single_habit_frame (m : DocumentClass) (tz : TimeZone) (now : Int) (s : Store) (u H : Nat)
    (updates : Body) (date : DateArg) (hk : keepsId m updates = true) :
    sameOthers H s (completeHabit tz now s u (IdParam.oid H) date).2 ∧
    sameOthers H s (uncompleteHabit tz now s u (IdParam.oid H) date).2 ∧
    sameOthers H s (updateHabit m tz now s u (IdParam.oid H) updates).2 ∧
    sameOthers H s (deleteHabit s u (IdParam.oid H)).2 :=
  ⟨completeHabit_frame tz now s u H date, uncompleteHabit_frame tz now s u H date,
   updateHabit_frame m tz now s u H updates hk, deleteHabit_frame s u H⟩

/-- User 7 renames habit 1 of `listStore`, also marking the document new: the insert
meets the unique index on `_id`, and the habits of others stay as they are. -/
theorem single_habit_frame_witness :
    sameOthers 1 listStore
      (updateHabit plainDocument (fixedZone 0) 1704096000000 listStore 7 (IdParam.oid 1)
        [("name", JVal.str "mine"), ("isNew", JVal.num ⟨1, by decide⟩)]).2 :=
  (single_habit_frame plainDocument (fixedZone 0) 1704096000000 listStore 7 1
    [("name", JVal.str "mine"), ("isNew", JVal.num ⟨1, by decide⟩)] DateArg.absent
    (by decide)).2.2.1

/-! ## Tag usage (C16) -/

/-- C16 fails on the code: `getTags` answers the same three entries for every store
and user. With no habit at all it reports `health` 3, `work` 2 and `personal` 1, where
the tag usage of the claim is empty. -/
theorem getTags_is_fixed_list :
    (getTags emptyStore 7).1 =
      Response.success 200 (Payload.tags [("health", 3), ("work", 2), ("personal", 1)]) ∧
    tagUsage emptyStore 7 = [] ∧
    (getTags { habits := [{ sampleHabit with tags := ["sport", "daily"] }], completions := [] } 7).1 =
      Response.success 200 (Payload.tags [("health", 3), ("work", 2), ("personal", 1)]) ∧
    tagUsage { habits := [{ sampleHabit with tags := ["sport", "daily"] }], completions := [] } 7 =
      [("sport", 1), ("daily", 1)] := by
  decide

/-! ## A failing cleanup after a delete (C17) -/

theorem deleteHabitWith_false (s : Store) (u : Nat) (hid : IdParam) :
    deleteHabitWith false s u hid = deleteHabit s u hid := by
  unfold deleteHabitWith deleteHabit
  cases hid with
  | malformed => rfl
  | oid H => cases findHabit s H u <;> rfl

/-- C17, as stated, fails: when the deletion of the completions throws after the habit
document is gone, `deleteHabit` answers 500; the habit is removed and its completion
stays in the ledger. -/
theorem cleanup_failure_answers_500 :
    findHabit staleStore 1 7 = some staleHabit ∧
    deleteHabitWith true staleStore 7 (IdParam.oid 1) =
      (Response.error 500,
       { habits := [], completions := [{ habitId := 1, userId := 7, date := 1704067200000 }] }) := by
  decide

/-- C17, amended. If habit `H` is owned by `u` and the deletion of its completions
fails after the habit document has been deleted, `deleteHabit` answers 500: the
failure is reported to the caller, the habit is gone and the ledger is as it was. -/
theorem cleanup_failure_surfaces (s : Store) (u H : Nat) (h : Habit)
    (hf : findHabit s H u = some h) :
    (deleteHabitWith true s u (IdParam.oid H)).1 = Response.error 500 ∧
    (∀ x ∈ (deleteHabitWith true s u (IdParam.oid H)).2.habits, x._id ≠ H) ∧
    (deleteHabitWith true s u (IdParam.oid H)).2.completions = s.completions := by
  obtain ⟨_, hid, _⟩ := findHabit_some hf
  simp only [deleteHabitWith, hf, if_true, deleteOneHabit, hid]
  refine ⟨trivial, ?_, trivial⟩
  intro x hx
  have := (List.mem_filter.mp hx).2
  simpa using this

/-- The cleanup fails while `staleHabit` is deleted. -/
theorem cleanup_failure_surfaces_witness :
    (deleteHabitWith true staleStore 7 (IdParam.oid 1)).1 = Response.error 500 :=
  (cleanup_failure_surfaces staleStore 7 1 staleHabit (by decide)).1

/-! ## Which dates complete and uncomplete accept (C18) -/

theorem uncompleteHabit_eval {tz : TimeZone} {now : Int} {s : Store} {u H : Nat} {h : Habit}
    {date : DateArg} {d : Int}
    (hf : findHabit s H u = some h) (hv : validName h.name = true)
    (hd : completionDate tz now date = some d) (hend : d + msPerDay ≤ maxTimeValue) :
    uncompleteHabit tz now s u (IdParam.oid H) date =
      match s.completions.find? (inRange H u d (d + msPerDay)) with
      | some _ =>
        (Response.success 200
          (Payload.counters (decrement h.completionCount) false (decrement h.streak)),
         { habits := s.habits.map (fun x =>
             if x._id == h._id then
               { h with completionCount := decrement h.completionCount,
                        streak := decrement h.streak }
             else x),
           completions := s.completions.eraseP (inRange H u d (d + msPerDay)) })
      | none => (Response.success 200 (Payload.counters h.completionCount false h.streak), s) := by
  have hlo : -maxTimeValue ≤ d + msPerDay := by
    have := (completionDate_range hd).1
    unfold msPerDay; omega
  have hclip : timeClip (d + 24 * 60 * 60 * 1000) = some (d + msPerDay) := by
    have : d + 24 * 60 * 60 * 1000 = d + msPerDay := rfl
    rw [this, timeClip, if_pos ⟨hlo, hend⟩]
  cases hfind : s.completions.find? (inRange H u d (d + msPerDay)) with
  | none =>
    have herase : s.completions.eraseP (inRange H u d (d + msPerDay)) = s.completions :=
      List.eraseP_of_forall_not (List.find?_eq_none.mp hfind)
    simp only [uncompleteHabit, hf, hd, hclip, findOneAndDelete, hfind, herase, successResponse,
      orElse_zero]
  | some r =>
    simp only [uncompleteHabit, hf, hd, hclip, findOneAndDelete, hfind, successResponse,
      orElse_zero, saveHabit, hv, if_true]

/-- C18, as stated, fails: with a `date` that `new Date` cannot read, both handlers
answer 500 for a habit the caller owns. -/
theorem unreadable_date_answers_500 :
    findHabit sampleStore 1 7 = some sampleHabit ∧
    completeHabit (fixedZone 0) 0 sampleStore 7 (IdParam.oid 1) DateArg.invalid =
      (Response.error 500, sampleStore) ∧
    uncompleteHabit (fixedZone 0) 0 sampleStore 7 (IdParam.oid 1) DateArg.invalid =
      (Response.error 500, sampleStore) := by
  decide

/-- C18, amended. For a schema-valid habit `H` owned by `u`: when the `date` input is
absent or is read as a date whose local day is within the range of `Date`,
`completeHabit` and `uncompleteHabit` answer 200 with the counters; when `date` is a
value that `new Date` cannot read, both answer 500 and leave the store unchanged. -/
theorem completion_accepts_readable_dates (tz : TimeZone) (now : Int) (s : Store) (u H : Nat)
    (h : Habit) (hf : findHabit s H u = some h) (hv : validName h.name = true) :
    (∀ date d, completionDate tz now date = some d →
      ∃ c k, (completeHabit tz now s u (IdParam.oid H) date).1 =
        Response.success 200 (Payload.counters c true k)) ∧
    (∀ date d, completionDate tz now date = some d → d + msPerDay ≤ maxTimeValue →
      ∃ c k, (uncompleteHabit tz now s u (IdParam.oid H) date).1 =
        Response.success 200 (Payload.counters c false k)) ∧
    completeHabit tz now s u (IdParam.oid H) DateArg.invalid = (Response.error 500, s) ∧
    uncompleteHabit tz now s u (IdParam.oid H) DateArg.invalid = (Response.error 500, s) := by
  refine ⟨?_, ?_, ?_, ?_⟩
  · intro date d hd
    cases hhas : hasCompletion s H u d with
    | false => rw [completeHabit_first hf hv hhas hd]; exact ⟨_, _, rfl⟩
    | true => rw [completeHabit_repeat hf hhas hd]; exact ⟨_, _, rfl⟩
  · intro date d hd hend
    rw [uncompleteHabit_eval hf hv hd hend]
    cases s.completions.find? (inRange H u d (d + msPerDay)) with
    | none => exact ⟨_, _, rfl⟩
    | some r => exact ⟨_, _, rfl⟩
  · simp only [completeHabit, hf, completionDate, requestedDate, Option.bind_none, Option.none_bind,
      createCompletion]
  · simp only [uncompleteHabit, hf, completionDate, requestedDate, Option.bind_none,
      Option.none_bind]

/-- Both handlers answer 200 for `sampleHabit` when no `date` is sent. -/
theorem completion_accepts_readable_dates_witness :
    (∃ c k, (completeHabit (fixedZone 0) 1704096000000 sampleStore 7 (IdParam.oid 1)
        DateArg.absent).1 = Response.success 200 (Payload.counters c true k)) ∧
    (∃ c k, (uncompleteHabit (fixedZone 0) 1704096000000 sampleStore 7 (IdParam.oid 1)
        DateArg.absent).1 = Response.success 200 (Payload.counters c false k)) :=
  ⟨(completion_accepts_readable_dates (fixedZone 0) 1704096000000 sampleStore 7 1 sampleHabit
      (by decide) (by decide)).1 DateArg.absent 1704067200000 (by decide),
   (completion_accepts_readable_dates (fixedZone 0) 1704096000000 sampleStore 7 1 sampleHabit
      (by decide) (by decide)).2.1 DateArg.absent 1704067200000 (by decide) (by decide)⟩

/-! ## The streak is a running count (C20) -/

theorem hasCompletion_append_other {s : Store} {hs : List Habit} {H u : Nat} {d1 d2 : Int}
    (hne : d1 ≠ d2) (hno : hasCompletion s H u d2 = false) :
    hasCompletion
      { habits := hs, completions := s.completions ++ [{ habitId := H, userId := u, date := d1 }] }
      H u d2 = false := by
  unfold hasCompletion at hno ⊢
  simp only [List.any_append, hno, List.any_cons, List.any_nil, Bool.or_false, Bool.false_or,
    beq_self_eq_true, Bool.true_and]
  simpa using hne

theorem find_inRange_isSome {l : List HabitCompletion} {H u : Nat} {d : Int}
    (hmem : ({ habitId := H, userId := u, date := d } : HabitCompletion) ∈ l) :
    ∃ r, l.find? (inRange H u d (d + msPerDay)) = some r := by
  cases hfind : l.find? (inRange H u d (d + msPerDay)) with
  | some r => exact ⟨r, rfl⟩
  | none =>
    exfalso
    have := (List.find?_eq_none.mp hfind) _ hmem
    apply this
    have hlt : d < d + msPerDay := by unfold msPerDay; omega
    simp [inRange, hlt]

/-- C20 (streak is cumulative). For a schema-valid habit with a streak of at least 0 and
two distinct days `d1` and `d2` without a completion, however far apart: completing on
`d1` and then on `d2` raises the stored streak by exactly 2, and a following
`uncompleteHabit` for either of the two days lowers it by exactly 1. -/
theorem streak_is_cumulative (tz : TimeZone) (s : Store) (u H : Nat) (h : Habit)
    (d1 d2 d3 now1 now2 now3 : Int) (date1 date2 date3 : DateArg)
    (hf : findHabit s H u = some h) (hv : validName h.name = true) (hk : 0 ≤ h.streak)
    (hne : d1 ≠ d2)
    (hno1 : hasCompletion s H u d1 = false) (hno2 : hasCompletion s H u d2 = false)
    (hd1 : completionDate tz now1 date1 = some d1)
    (hd2 : completionDate tz now2 date2 = some d2)
    (hd3 : completionDate tz now3 date3 = some d3) (h3 : d3 = d1 ∨ d3 = d2)
    (hend : d3 + msPerDay ≤ maxTimeValue) :
    ∃ h2 hafter,
      findHabit (run tz s [Call.complete now1 u (IdParam.oid H) date1,
        Call.complete now2 u (IdParam.oid H) date2]).2 H u = some h2 ∧
      h2.streak = h.streak + 2 ∧
      findHabit (uncompleteHabit tz now3
        (run tz s [Call.complete now1 u (IdParam.oid H) date1,
          Call.complete now2 u (IdParam.oid H) date2]).2 u (IdParam.oid H) date3).2 H u
        = some hafter ∧
      hafter.streak = h.streak + 1 := by
  obtain ⟨_, hid, hu⟩ := findHabit_some hf
  have e1 := completeHabit_first hf hv hno1 hd1
  have hf1 := findHabit_after_save
    { h with completionCount := h.completionCount + 1, streak := h.streak + 1 } hf hid hu
    (s.completions ++ [{ habitId := H, userId := u, date := d1 }])
  have e2 := completeHabit_first hf1 hv (hasCompletion_append_other hne hno2) hd2
  have hf2 := findHabit_after_save
    { h with completionCount := h.completionCount + 1 + 1, streak := h.streak + 1 + 1 }
    hf1 hid hu
    (s.completions ++ [{ habitId := H, userId := u, date := d1 }] ++
      [{ habitId := H, userId := u, date := d2 }])
  have hmem : ({ habitId := H, userId := u, date := d3 } : HabitCompletion) ∈
      s.completions ++ [{ habitId := H, userId := u, date := d1 }] ++
        [{ habitId := H, userId := u, date := d2 }] := by
    rcases h3 with rfl | rfl <;> simp
  obtain ⟨r, hr⟩ := find_inRange_isSome hmem
  have e3 := uncompleteHabit_eval hf2 hv hd3 hend
  simp only [hr] at e3
  have hf3 := findHabit_after_save
    { h with completionCount := decrement (h.completionCount + 1 + 1),
             streak := decrement (h.streak + 1 + 1) }
    hf2 hid hu
    (List.eraseP (inRange H u d3 (d3 + msPerDay))
      (s.completions ++ [{ habitId := H, userId := u, date := d1 }] ++
        [{ habitId := H, userId := u, date := d2 }]))
  simp only [run, step, e1, e2, e3]
  refine ⟨_, _, hf2, ?_, hf3, ?_⟩
  · show h.streak + 1 + 1 = h.streak + 2; omega
  · show decrement (h.streak + 1 + 1) = h.streak + 1
    rw [decrement_pos (by omega)]; omega

/-- Completions of `sampleHabit` on 2024-01-01 and 2024-03-01 (UTC), then the first undone. -/
theorem streak_is_cumulative_witness :
    ∃ h2 hafter,
      findHabit (run (fixedZone 0) sampleStore
        [Call.complete 0 7 (IdParam.oid 1) (DateArg.instant 1704096000000),
         Call.complete 0 7 (IdParam.oid 1) (DateArg.instant 1709280000000)]).2 1 7 = some h2 ∧
      h2.streak = sampleHabit.streak + 2 ∧
      findHabit (uncompleteHabit (fixedZone 0) 0
        (run (fixedZone 0) sampleStore
          [Call.complete 0 7 (IdParam.oid 1) (DateArg.instant 1704096000000),
           Call.complete 0 7 (IdParam.oid 1) (DateArg.instant 1709280000000)]).2 7 (IdParam.oid 1)
        (DateArg.instant 1704096000000)).2 1 7 = some hafter ∧
      hafter.streak = sampleHabit.streak + 1 :=
  streak_is_cumulative (fixedZone 0) sampleStore 7 1 sampleHabit
    1704067200000 1709251200000 1704067200000 0 0 0
    (DateArg.instant 1704096000000) (DateArg.instant 1709280000000) (DateArg.instant 1704096000000)
    (by decide) (by decide) (by decide) (by decide) (by decide) (by decide) (by decide)
    (by decide) (by decide) (Or.inl rfl) (by decide)

/-! ## Undoing a day that has no completion (C13) -/

/-- C13 fails on the code in a zone with a 23-hour day. In `springStore` the habit has
one completion, for 2024-04-01, whose day starts at 2024-03-31T23:00Z. An
`uncompleteHabit` for 2024-03-31 (`date` 2024-03-31T12:00Z), a day without a record,
queries the 24 hours from 2024-03-31T00:00Z, finds the record of 1 April, deletes it and
lowers both counters from 1 to 0. -/
theorem uncomplete_removes_next_day :
    springStore =
      { habits := [{ sampleHabit with completionCount := 1, streak := 1 }],
        completions := [{ habitId := 1, userId := 7, date := 1711926000000 }] } ∧
    completionDate springZone 0 (DateArg.instant 1711886400000) = some 1711843200000 ∧
    hasCompletion springStore 1 7 1711843200000 = false ∧
    uncompleteHabit springZone 0 springStore 7 (IdParam.oid 1) (DateArg.instant 1711886400000) =
      (Response.success 200 (Payload.counters 0 false 0),
       { habits := [sampleHabit], completions := [] }) := by
  decide

/-! ## Creating a habit (C12) -/

/-- C12 (creation initialises the counters). The habit that `createHabit` stores and
returns has the caller as `userId` and both counters 0, whatever the body carries; and
for a body with a valid name and a fresh id the creation succeeds, also when the body
names `completionCount`, `streak` or `userId`. -/
theorem createHabit_initialises (s : Store) (u newId : Nat) (body : Body) :
    (∀ h, (createHabit s u newId body).1 = Response.success 201 (Payload.habit h) →
      h.userId = u ∧ h.completionCount = 0 ∧ h.streak = 0 ∧
      findHabit (createHabit s u newId body).2 newId u = some h) ∧
    (∀ n, body.get "name" = some (JVal.str n) → validName (jsTrim n) = true →
      (∀ xs, body.get "color" ≠ some (JVal.strs xs)) →
      s.habits.any (fun x => x._id == newId) = false →
      ∃ h, (createHabit s u newId body).1 = Response.success 201 (Payload.habit h)) := by
  constructor
  · intro h hr
    obtain ⟨hn, hany, hs1⟩ := createHabit_created hr
    obtain ⟨_, hid, hu⟩ := newHabit_spec hn
    obtain ⟨hc, hk⟩ := newHabit_counters hn
    refine ⟨hu, hc, hk, ?_⟩
    rw [hs1]
    have := @findHabit_append_new s h s.completions (by rw [hid]; exact hany)
    rw [hid, hu] at this
    exact this
  · intro n hname hvalid hcolor hfresh
    have hnew : ∃ h, newHabit newId u body = some h := by
      unfold newHabit
      simp only [hname]
      cases htags : body.get "tags" with
      | none =>
        cases hcol : body.get "color" with
        | none => simp [assignPath, castString, hvalid]
        | some c =>
          cases c with
          | num k => simp [assignPath, castString, hvalid]
          | str t => simp [assignPath, castString, hvalid]
          | strs xs => exact absurd hcol (hcolor xs)
      | some tg =>
        cases hcol : body.get "color" with
        | none => cases tg <;> simp [assignPath, castString, castTags, hvalid]
        | some c =>
          cases c with
          | num k => cases tg <;> simp [assignPath, castString, castTags, hvalid]
          | str t => cases tg <;> simp [assignPath, castString, castTags, hvalid]
          | strs xs => exact absurd hcol (hcolor xs)
    obtain ⟨h, hn⟩ := hnew
    exact ⟨h, by simp only [createHabit, hn, hfresh, Bool.false_eq_true, if_false]⟩

/-- A body that names the three protected fields creates a habit of user 7 with
counters 0. -/
theorem createHabit_initialises_witness :
    (createHabit emptyStore 7 1
      [("name", JVal.str "run"), ("completionCount", JVal.num ⟨9, by decide⟩), ("streak", JVal.num ⟨4, by decide⟩),
       ("userId", JVal.num ⟨3, by decide⟩)]).1 = Response.success 201 (Payload.habit sampleHabit) ∧
    sampleHabit.userId = 7 ∧ sampleHabit.completionCount = 0 ∧ sampleHabit.streak = 0 ∧
    ∃ h, (createHabit emptyStore 7 1
      [("name", JVal.str "run"), ("completionCount", JVal.num ⟨9, by decide⟩), ("streak", JVal.num ⟨4, by decide⟩),
       ("userId", JVal.num ⟨3, by decide⟩)]).1 = Response.success 201 (Payload.habit h) :=
  ⟨by decide,
   ((createHabit_initialises emptyStore 7 1
      [("name", JVal.str "run"), ("completionCount", JVal.num ⟨9, by decide⟩), ("streak", JVal.num ⟨4, by decide⟩),
       ("userId", JVal.num ⟨3, by decide⟩)]).1 sampleHabit (by decide)).1,
   ((createHabit_initialises emptyStore 7 1
      [("name", JVal.str "run"), ("completionCount", JVal.num ⟨9, by decide⟩), ("streak", JVal.num ⟨4, by decide⟩),
       ("userId", JVal.num ⟨3, by decide⟩)]).1 sampleHabit (by decide)).2.1,
   ((createHabit_initialises emptyStore 7 1
      [("name", JVal.str "run"), ("completionCount", JVal.num ⟨9, by decide⟩), ("streak", JVal.num ⟨4, by decide⟩),
       ("userId", JVal.num ⟨3, by decide⟩)]).1 sampleHabit (by decide)).2.2.1,
   (createHabit_initialises emptyStore 7 1
      [("name", JVal.str "run"), ("completionCount", JVal.num ⟨9, by decide⟩), ("streak", JVal.num ⟨4, by decide⟩),
       ("userId", JVal.num ⟨3, by decide⟩)]).2 "run" (by decide) (by decide)
      (fun xs hx => by
        have hnone : Body.get
            [("name", JVal.str "run"), ("completionCount", JVal.num ⟨9, by decide⟩), ("streak", JVal.num ⟨4, by decide⟩),
             ("userId", JVal.num ⟨3, by decide⟩)] "color" = none := by decide
        rw [hnone] at hx
        cases hx)
      (by decide)⟩

/-! ## Listing habits (C15) -/

theorem completedToday_eval {tz : TimeZone} {now lo hi : Int} (s : Store) (H u : Nat)
    (hlo : todayStart tz now = some lo) (hhi : tomorrowStart tz now = some hi) :
    completedToday tz now s H u = some (existsInRange s H u lo hi) := by
  simp only [completedToday, hlo, hhi]

theorem filterMap_some_map {α β : Type} (g : α → β) (l : List α) :
    (l.map (fun h => some (g h))).filterMap id = l.map g := by
  induction l with
  | nil => rfl
  | cons a t ih => simp only [List.map_cons, List.filterMap_cons, id_eq, ih]

theorem all_isSome_map {α β : Type} (g : α → β) (l : List α) :
    (l.map (fun h => some (g h))).all Option.isSome = true := by
  induction l with
  | nil => rfl
  | cons a t ih => simp only [List.map_cons, List.all_cons, Option.isSome_some, ih, Bool.and_self]

theorem getHabits_eval {tz : TimeZone} {now lo hi : Int} (s : Store) (u : Nat)
    (tag : Option String)
    (hlo : todayStart tz now = some lo) (hhi : tomorrowStart tz now = some hi) :
    getHabits tz now s u tag =
      (Response.success 200 (Payload.views
        ((s.habits.filter (fun h => h.userId == u &&
            (match tag with
             | none => true
             | some t => if t = "" then true else h.tags.contains (jsTrim t)))).map
          (fun h => { habit := h, completedToday := existsInRange s h._id u lo hi }))), s) := by
  unfold getHabits
  simp only [completedToday_eval s _ u hlo hhi, Option.map_some', successResponse]
  rw [if_pos (all_isSome_map _ _), filterMap_some_map]

theorem map_habit_views (f : Habit → Bool) (l : List Habit) :
    (l.map (fun h => ({ habit := h, completedToday := f h } : HabitView))).map (fun v => v.habit)
      = l := by
  induction l with
  | nil => rfl
  | cons a t ih => simp only [List.map_cons, ih]

theorem getHabits_store (tz : TimeZone) (now : Int) (s : Store) (u : Nat) (tag : Option String) :
    (getHabits tz now s u tag).2 = s := by
  unfold getHabits
  dsimp only
  split <;> rfl

/-- C15, as stated, fails: the tag of the query is cast with the schema of `tags`,
which trims it. Asked for the tag " health ", `getHabits` lists the habit of user 7
tagged "health", whose tags do not contain " health ". -/
theorem tag_filter_is_trimmed :
    (getHabits (fixedZone 0) 1704096000000 listStore 7 (some " health ")).1 =
      Response.success 200 (Payload.views
        [{ habit := { sampleHabit with tags := ["health"], completionCount := 1, streak := 1 },
           completedToday := true }]) ∧
    ({ sampleHabit with tags := ["health"], completionCount := 1, streak := 1 } : Habit).tags.contains
      " health " = false := by
  decide

/-- C15 (listing), amended. With the clock in the range of `Date`, `getHabits` answers
200 with one view per listed habit, in stored order: the habits whose `userId` is the
caller when no tag (or an empty tag) is given, and those of the caller whose tags
contain `t` without its surrounding white space when the tag `t` is given. Every listed
habit belongs to the caller, and the store is unchanged whatever the answer. -/
theorem getHabits_owner_and_tag (tz : TimeZone) (now lo hi : Int) (s : Store) (u : Nat)
    (tag : Option String)
    (hlo : todayStart tz now = some lo) (hhi : tomorrowStart tz now = some hi) :
    (∃ vs, (getHabits tz now s u tag).1 = Response.success 200 (Payload.views vs) ∧
      (tag = none ∨ tag = some "" →
        vs.map (fun v => v.habit) = s.habits.filter (fun h => h.userId == u)) ∧
      (∀ t, tag = some t → t ≠ "" →
        vs.map (fun v => v.habit) =
          s.habits.filter (fun h => h.userId == u && h.tags.contains (jsTrim t))) ∧
      (∀ v ∈ vs, v.habit.userId = u)) ∧
    (getHabits tz now s u tag).2 = s := by
  refine ⟨?_, getHabits_store tz now s u tag⟩
  rw [getHabits_eval s u tag hlo hhi]
  refine ⟨_, rfl, ?_, ?_, ?_⟩
  · intro ht
    rw [map_habit_views]
    rcases ht with rfl | rfl
    · simp
    · simp
  · intro t ht hne
    subst ht
    rw [map_habit_views]
    simp [hne]
  · intro v hv
    obtain ⟨h, hh, rfl⟩ := List.mem_map.mp hv
    have := (List.mem_filter.mp hh).2
    simp only [Bool.and_eq_true, beq_iff_eq] at this
    exact this.1

/-- User 7 lists the habits tagged `health` at 2024-01-01T08:00Z (UTC). -/
theorem getHabits_owner_and_tag_witness :
    (getHabits (fixedZone 0) 1704096000000 listStore 7 (some "health")).1 =
      Response.success 200 (Payload.views
        [{ habit := { sampleHabit with tags := ["health"], completionCount := 1, streak := 1 },
           completedToday := true }]) ∧
    (getHabits (fixedZone 0) 1704096000000 listStore 7 (some "health")).2 = listStore :=
  ⟨by decide,
   (getHabits_owner_and_tag (fixedZone 0) 1704096000000 1704067200000 1704153600000 listStore 7
      (some "health") (by decide) (by decide)).2⟩

/-! ## The `completedToday` property (C14) -/

theorem todayStart_some {tz : TimeZone} {now lo : Int} (hlo : todayStart tz now = some lo) :
    lo = localDay tz now * msPerDay - tz.offsetAtLocal (localDay tz now * msPerDay) := by
  unfold todayStart at hlo
  cases hc : timeClip now with
  | none => rw [hc] at hlo; cases hlo
  | some t =>
    rw [hc] at hlo
    have := (timeClip_some hc).1
    subst this
    exact setHoursZero_some hlo

theorem tomorrowStart_some {tz : TimeZone} {now lo hi : Int} (hlo : todayStart tz now = some lo)
    (hhi : tomorrowStart tz now = some hi) :
    hi = localTime tz lo + msPerDay - tz.offsetAtLocal (localTime tz lo + msPerDay) := by
  unfold tomorrowStart at hhi
  rw [hlo] at hhi
  have := (timeClip_some hhi).1
  unfold toUTC at this
  exact this.symm

theorem today_window {tz : TimeZone} {now lo hi d : Int}
    (hreg : ∀ x y, tz.offsetAtLocal x - tz.offsetAtLocal y < msPerDay)
    (hlo : todayStart tz now = some lo) (hhi : tomorrowStart tz now = some hi)
    (hmid : localTime tz lo = localDay tz now * msPerDay)
    (hd : setHoursZero tz d = some d) :
    (lo ≤ d ∧ d < hi) ↔ d = lo := by
  have elo := todayStart_some hlo
  have ehi := tomorrowStart_some hlo hhi
  have ed := setHoursZero_some hd
  rw [hmid] at ehi
  generalize localDay tz now = k at elo ehi
  generalize localDay tz d = j at ed
  have hk1 : k * msPerDay + msPerDay = (k + 1) * msPerDay := by ring
  rw [hk1] at ehi
  have r1 := hreg ((k + 1) * msPerDay) (k * msPerDay)
  rcases lt_trichotomy j k with hjk | hjk | hjk
  · have r2 := hreg (k * msPerDay) (j * msPerDay)
    unfold msPerDay at *
    constructor
    · intro h; omega
    · intro h; omega
  · subst hjk
    unfold msPerDay at *
    constructor
    · intro _; omega
    · intro _; omega
  · rcases eq_or_lt_of_le (show k + 1 ≤ j by omega) with hj | hj
    · subst hj
      unfold msPerDay at *
      constructor
      · intro h; omega
      · intro h; omega
    · have r2 := hreg (j * msPerDay) ((k + 1) * msPerDay)
      unfold msPerDay at *
      constructor
      · intro h; omega
      · intro h; omega

theorem any_congr_mem {α : Type} (l : List α) (p q : α → Bool) (h : ∀ x ∈ l, p x = q x) :
    l.any p = l.any q := by
  induction l with
  | nil => rfl
  | cons a t ih =>
    simp only [List.any_cons, h a (List.mem_cons_self _ _),
      ih (fun x hx => h x (List.mem_cons_of_mem _ hx))]

theorem existsInRange_today {tz : TimeZone} {now lo hi : Int} (s : Store) (H u : Nat)
    (hreg : ∀ x y, tz.offsetAtLocal x - tz.offsetAtLocal y < msPerDay)
    (hlo : todayStart tz now = some lo) (hhi : tomorrowStart tz now = some hi)
    (hmid : localTime tz lo = localDay tz now * msPerDay)
    (hnorm : s.ledgerNormalised tz = true) :
    existsInRange s H u lo hi = hasCompletion s H u lo := by
  unfold existsInRange hasCompletion
  apply any_congr_mem
  intro c hc
  have hd : setHoursZero tz c.date = some c.date := by
    unfold Store.ledgerNormalised at hnorm
    have := (List.all_eq_true.mp hnorm) c hc
    simpa using this
  have hw := today_window hreg hlo hhi hmid hd
  unfold inRange
  by_cases hdl : c.date = lo
  · have := hw.mpr hdl
    have h1 : decide (lo ≤ c.date) = true := by simpa using this.1
    have h2 : decide (c.date < hi) = true := by simpa using this.2
    have h3 : (c.date == lo) = true := by simpa using hdl
    rw [h1, h2, h3]
    simp
  · have hn : ¬ (lo ≤ c.date ∧ c.date < hi) := fun h => hdl (hw.mp h)
    have hb : (c.date == lo) = false := by simpa using hdl
    rw [hb, Bool.and_false]
    by_cases h1 : lo ≤ c.date
    · have h2 : ¬ c.date < hi := fun h => hn ⟨h1, h⟩
      simp [h1, h2]
    · simp [h1]

/-- C14 (today status). Let the zone's local offsets differ by less than a day, let
today's local midnight `lo` and tomorrow's be valid dates with `lo` at local time 00:00,
and let every ledger date be a day start. Then `getHabit` for an owned habit answers
the stored habit with `completedToday` true exactly when the ledger holds a record for
`(H, u, lo)`, and every view of `getHabits` is a stored habit with its
`completedToday` decided the same way. -/
theorem completedToday_iff_record (tz : TimeZone) (now lo hi : Int) (s : Store) (u : Nat)
    (hreg : ∀ x y, tz.offsetAtLocal x - tz.offsetAtLocal y < msPerDay)
    (hlo : todayStart tz now = some lo) (hhi : tomorrowStart tz now = some hi)
    (hmid : localTime tz lo = localDay tz now * msPerDay)
    (hnorm : s.ledgerNormalised tz = true) :
    (∀ H h, findHabit s H u = some h →
      getHabit tz now s u (IdParam.oid H) =
        (Response.success 200
          (Payload.view { habit := h, completedToday := hasCompletion s H u lo }), s)) ∧
    (∀ tag, ∃ vs, getHabits tz now s u tag = (Response.success 200 (Payload.views vs), s) ∧
      ∀ v ∈ vs, v.habit ∈ s.habits ∧ v.completedToday = hasCompletion s v.habit._id u lo) := by
  constructor
  · intro H h hf
    simp only [getHabit, hf, completedToday_eval s H u hlo hhi, successResponse,
      existsInRange_today s H u hreg hlo hhi hmid hnorm]
  · intro tag
    refine ⟨_, getHabits_eval s u tag hlo hhi, ?_⟩
    intro v hv
    obtain ⟨h, hh, rfl⟩ := List.mem_map.mp hv
    exact ⟨(List.mem_filter.mp hh).1, existsInRange_today s h._id u hreg hlo hhi hmid hnorm⟩

/-- User 7 reads habit 1 of `listStore` at 2024-01-01T08:00Z (UTC), the day of its
completion. -/
theorem completedToday_iff_record_witness :
    hasCompletion listStore 1 7 1704067200000 = true ∧
    getHabit (fixedZone 0) 1704096000000 listStore 7 (IdParam.oid 1) =
      (Response.success 200
        (Payload.view
          { habit := { sampleHabit with tags := ["health"], completionCount := 1, streak := 1 },
            completedToday := hasCompletion listStore 1 7 1704067200000 }), listStore) :=
  ⟨by decide,
   (completedToday_iff_record (fixedZone 0) 1704096000000 1704067200000 1704153600000 listStore 7
      (fun _ _ => (by decide : (0 : Int) - 0 < msPerDay)) (by decide) (by decide) (by decide)
      (by decide)).1 1 { sampleHabit with tags := ["health"], completionCount := 1, streak := 1 }
      (by decide)⟩

/-! ## What an update stores (C11) -/

theorem fold_none (updates : Body) :
    updates.foldl
      (fun acc kv =>
        if kv.1 ≠ "userId" ∧ kv.1 ≠ "completionCount" ∧ kv.1 ≠ "streak" then
          acc.bind (fun h => assignPath h kv.1 kv.2)
        else acc) (none : Option Habit) = none := by
  induction updates with
  | nil => rfl
  | cons kv rest ih =>
    rw [List.foldl_cons]
    split
    · simpa using ih
    · exact ih

theorem fold_preserves {α : Type} (g : Habit → α) (k : String)
    (hpres : ∀ h key v h1, key ≠ k → assignPath h key v = some h1 → g h1 = g h)
    (updates : Body) (hk : ∀ kv ∈ updates, kv.1 ≠ k) (h0 h1 : Habit)
    (hfold : updates.foldl
      (fun acc kv =>
        if kv.1 ≠ "userId" ∧ kv.1 ≠ "completionCount" ∧ kv.1 ≠ "streak" then
          acc.bind (fun h => assignPath h kv.1 kv.2)
        else acc) (some h0) = some h1) : g h1 = g h0 := by
  induction updates generalizing h0 with
  | nil => cases hfold; rfl
  | cons kv rest ih =>
    rw [List.foldl_cons] at hfold
    have hkv := hk kv (List.mem_cons_self _ _)
    have hrest : ∀ x ∈ rest, x.1 ≠ k := fun x hx => hk x (List.mem_cons_of_mem _ hx)
    split at hfold
    · cases ha : assignPath h0 kv.1 kv.2 with
      | none =>
        rw [Option.some_bind, ha, fold_none] at hfold
        cases hfold
      | some h2 =>
        rw [Option.some_bind, ha] at hfold
        exact (ih hrest h2 hfold).trans (hpres h0 kv.1 kv.2 h2 hkv ha)
    · exact ih hrest h0 hfold

theorem fold_assigns {α : Type} (g : Habit → α) (k : String)
    (hguard : k ≠ "userId" ∧ k ≠ "completionCount" ∧ k ≠ "streak")
    (hpres : ∀ h key v h1, key ≠ k → assignPath h key v = some h1 → g h1 = g h)
    (updates : Body) (hnd : (updates.map Prod.fst).Nodup) (v : JVal)
    (hget : updates.get k = some v) (h0 h1 : Habit)
    (hfold : updates.foldl
      (fun acc kv =>
        if kv.1 ≠ "userId" ∧ kv.1 ≠ "completionCount" ∧ kv.1 ≠ "streak" then
          acc.bind (fun h => assignPath h kv.1 kv.2)
        else acc) (some h0) = some h1) :
    ∃ hm hm1, assignPath hm k v = some hm1 ∧ g h1 = g hm1 := by
  induction updates generalizing h0 with
  | nil => simp [Body.get] at hget
  | cons kv rest ih =>
    rw [List.foldl_cons] at hfold
    rw [List.map_cons, List.nodup_cons] at hnd
    by_cases hkv : kv.1 = k
    · have hv : kv.2 = v := by
        have hb : (kv.1 == k) = true := by simpa using hkv
        simp only [Body.get, List.find?_cons, hb, Option.map_some'] at hget
        exact Option.some.inj hget
      have hrest : ∀ x ∈ rest, x.1 ≠ k := by
        intro x hx hxk
        apply hnd.1
        rw [hkv, ← hxk]
        exact List.mem_map_of_mem _ hx
      rw [hkv, hv, if_pos hguard, Option.some_bind] at hfold
      cases ha : assignPath h0 k v with
      | none => rw [ha, fold_none] at hfold; cases hfold
      | some h2 =>
        rw [ha] at hfold
        exact ⟨h0, h2, ha, fold_preserves g k hpres rest hrest h2 h1 hfold⟩
    · have hget1 : Body.get rest k = some v := by
        have hb : (kv.1 == k) = false := by simpa using hkv
        simpa only [Body.get, List.find?_cons, hb] using hget
      split at hfold
      · cases ha : assignPath h0 kv.1 kv.2 with
        | none => rw [Option.some_bind, ha, fold_none] at hfold; cases hfold
        | some h2 =>
          rw [Option.some_bind, ha] at hfold
          exact ih hnd.2 hget1 h2 hfold
      · exact ih hnd.2 hget1 h0 hfold

theorem get_none_keys {updates : Body} {k : String} (hget : updates.get k = none) :
    ∀ kv ∈ updates, kv.1 ≠ k := by
  intro kv hkv hk
  unfold Body.get at hget
  rw [Option.map_eq_none', List.find?_eq_none] at hget
  exact hget kv hkv (by simpa using hk)

theorem assignPath_keeps_name {h h1 : Habit} {key : String} {v : JVal} (hk : key ≠ "name")
    (ha : assignPath h key v = some h1) : h1.name = h.name := by
  unfold assignPath at ha
  simp only [hk, if_false] at ha
  repeat' split at ha
  all_goals
    first
    | (cases ha; rfl)
    | (obtain ⟨x, _, hx⟩ := Option.map_eq_some'.mp ha
       rw [← hx])

theorem assignPath_keeps_icon {h h1 : Habit} {key : String} {v : JVal} (hk : key ≠ "icon")
    (ha : assignPath h key v = some h1) : h1.icon = h.icon := by
  unfold assignPath at ha
  simp only [hk, if_false] at ha
  repeat' split at ha
  all_goals
    first
    | (cases ha; rfl)
    | (obtain ⟨x, _, hx⟩ := Option.map_eq_some'.mp ha
       rw [← hx])

theorem assignPath_keeps_color {h h1 : Habit} {key : String} {v : JVal} (hk : key ≠ "color")
    (ha : assignPath h key v = some h1) : h1.color = h.color := by
  unfold assignPath at ha
  simp only [hk, if_false] at ha
  repeat' split at ha
  all_goals
    first
    | (cases ha; rfl)
    | (obtain ⟨x, _, hx⟩ := Option.map_eq_some'.mp ha
       rw [← hx])

theorem assignPath_keeps_tags {h h1 : Habit} {key : String} {v : JVal} (hk : key ≠ "tags")
    (ha : assignPath h key v = some h1) : h1.tags = h.tags := by
  unfold assignPath at ha
  simp only [hk, if_false] at ha
  repeat' split at ha
  all_goals
    first
    | (cases ha; rfl)
    | (obtain ⟨x, _, hx⟩ := Option.map_eq_some'.mp ha
       rw [← hx])

theorem setModified_self (h d : Habit) (hid : d._id = h._id) (hu : d.userId = h.userId)
    (hc : d.completionCount = h.completionCount) (hk : d.streak = h.streak) :
    setModified h d h = d := by
  cases h
  cases d
  simp only at hid hu hc hk
  subst hid hu hc hk
  simp only [setModified, Habit.mk.injEq, true_and, ite_eq_right_iff, and_true]
  exact ⟨fun e => e.symm, fun e => e.symm, fun e => e.symm, fun e => e.symm⟩

theorem applyFields_frame {h f : Habit} {updates : Body} (ha : applyFields h updates = some f) :
    f._id = h._id ∧ f.userId = h.userId ∧ f.completionCount = h.completionCount ∧
      f.streak = h.streak :=
  applyUpdates_frame updates (some h) h f
    (fun y hy => by cases hy; exact ⟨rfl, rfl, rfl, rfl⟩) ha

/-- With no key assigning `_id`, the document read by `save()` is the loaded habit with
the assigned fields. -/
theorem habit_of_fields {m : DocumentClass} {h d : Habit} {updates : Body}
    (hk : keepsId m updates = true) (hd : (applyUpdates m h updates).habit = some d) :
    applyFields h updates = some d := by
  obtain ⟨f, k, hfld, hid, rfl⟩ := habit_some hd
  rw [applyUpdates_fields] at hfld
  rw [applyUpdates_id m h updates hk] at hid
  have hfr := applyFields_frame hfld
  rw [hfld, ← Option.some.inj hid, ← hfr.1]

theorem updateHabit_success {m : DocumentClass} {tz : TimeZone} {now : Int} {s s1 : Store}
    {u H : Nat} {h : Habit} {updates : Body} {v : HabitView}
    (hf : findHabit s H u = some h) (hk : keepsId m updates = true)
    (hr : updateHabit m tz now s u (IdParam.oid H) updates =
      (Response.success 200 (Payload.view v), s1)) :
    applyFields h updates = some v.habit ∧ findHabit s1 H u = some v.habit := by
  rcases updateHabit_cases m tz now s u H h updates hf with e | ⟨s2, d, hs, hd, e | ⟨c, _, _, e⟩⟩
  · rw [e] at hr; cases hr
  · rw [e] at hr; cases hr
  · rw [e] at hr
    cases hr
    have ha := habit_of_fields hk hd
    have hfr := applyFields_frame ha
    refine ⟨ha, ?_⟩
    rcases saveDoc_find hs hf with e1 | ⟨d1, hd1, _, _, e1⟩
    · obtain ⟨hmem, _, _⟩ := findHabit_some hf
      obtain ⟨_, d2, hd2, _, ⟨_, hany, _⟩ | ⟨_, _, e2⟩⟩ := saveDoc_some hs
      · rw [hd] at hd2
        cases hd2
        have := (List.any_eq_false.mp hany) h hmem
        rw [hfr.1] at this
        simp at this
      · rw [hd] at hd2
        cases hd2
        rw [e2]
        have hmap := findHabit_map s.habits s.completions
          (fun x => if x._id == d._id then setModified h d x else x)
          (fun x => by by_cases hx : x._id = d._id <;> simp [hx, setModified]) H u
        have hf0 : s.habits.find? (fun h => h._id == H && h.userId == u) = some h := hf
        rw [hf0] at hmap
        rw [hmap]
        simp [hfr.1, setModified_self h d hfr.1 hfr.2.1 hfr.2.2.1 hfr.2.2.2]
    · rw [hd] at hd1
      cases hd1
      rw [e1, setModified_self h d hfr.1 hfr.2.1 hfr.2.2.1 hfr.2.2.2]

theorem mem_of_get {updates : Body} {k : String} {x : JVal} (hget : updates.get k = some x) :
    (k, x) ∈ updates := by
  unfold Body.get at hget
  obtain ⟨kv, hfind, hx⟩ := Option.map_eq_some'.mp hget
  have h1 := List.find?_some hfind
  have h2 := List.mem_of_find?_eq_some hfind
  have hk : kv.1 = k := by simpa using h1
  rw [← hk, ← hx]
  exact h2

theorem fold_cast_error (updates : Body) (k : String) (x : JVal)
    (hguard : k ≠ "userId" ∧ k ≠ "completionCount" ∧ k ≠ "streak")
    (hbad : ∀ h, assignPath h k x = none) (hmem : (k, x) ∈ updates) (acc : Option Habit) :
    updates.foldl
      (fun acc kv =>
        if kv.1 ≠ "userId" ∧ kv.1 ≠ "completionCount" ∧ kv.1 ≠ "streak" then
          acc.bind (fun h => assignPath h kv.1 kv.2)
        else acc) acc = none := by
  induction updates generalizing acc with
  | nil => cases hmem
  | cons kv rest ih =>
    rw [List.foldl_cons]
    rcases List.mem_cons.mp hmem with e | hrest
    · rw [← e]
      dsimp only
      rw [if_pos hguard]
      have : acc.bind (fun h => assignPath h k x) = none := by
        cases acc with
        | none => rfl
        | some a => exact hbad a
      rw [this]
      exact fold_none rest
    · exact ih hrest _

theorem applyFields_cast_error (h : Habit) (updates : Body) (k : String) (x : JVal)
    (hk : k = "name" ∨ k = "icon" ∨ k = "color") (hget : updates.get k = some x)
    (hc : castString x = none) : applyFields h updates = none := by
  apply fold_cast_error updates k x _ _ (mem_of_get hget)
  · rcases hk with rfl | rfl | rfl <;> decide
  · intro a
    rcases hk with rfl | rfl | rfl <;> simp [assignPath, hc]

/-- A pending cast error or an invalid name makes `updateHabit` answer 500 and store
nothing. -/
theorem updateHabit_rejects (m : DocumentClass) (tz : TimeZone) (now : Int) (s : Store) (u H : Nat)
    (h : Habit) (updates : Body) (hf : findHabit s H u = some h)
    (hbad : applyFields h updates = none ∨
      ∃ h1, applyFields h updates = some h1 ∧ validName h1.name = false) :
    updateHabit m tz now s u (IdParam.oid H) updates = (Response.error 500, s) := by
  rcases updateHabit_cases m tz now s u H h updates hf with e | ⟨s1, d, hs, hd, _⟩
  · exact e
  · exfalso
    obtain ⟨_, d2, hd2, hv, _⟩ := saveDoc_some hs
    rw [hd] at hd2
    cases hd2
    obtain ⟨f, k, hfld, _, rfl⟩ := habit_some hd
    rw [applyUpdates_fields] at hfld
    rcases hbad with hn | ⟨h1, h1e, h1v⟩
    · rw [hn] at hfld
      cases hfld
    · have e : h1 = f := Option.some.inj (h1e.symm.trans hfld)
      rw [e] at h1v
      rw [show ({ f with _id := k } : Habit).name = f.name from rfl, h1v] at hv
      cases hv

/-- The body `{ save: "x" }` hides the method `save` of the document: the call
`habit.save()` throws and the update answers 500, with nothing stored. -/
theorem update_hides_save :
    updateHabit plainDocument (fixedZone 0) 0 sampleStore 7 (IdParam.oid 1)
        [("save", JVal.str "x")] = (Response.error 500, sampleStore) := by
  decide

/-- C11, as stated, fails: a supplied name and tag are stored and returned without
their surrounding white space, not as supplied, and an empty name makes the update
answer 500 and store nothing. -/
theorem update_stores_trimmed_values :
    updateHabit plainDocument (fixedZone 0) 0 sampleStore 7 (IdParam.oid 1)
        [("name", JVal.str " walk "), ("tags", JVal.strs [" health "])] =
      (Response.success 200
        (Payload.view
          { habit := { sampleHabit with name := "walk", tags := ["health"] },
            completedToday := false }),
       { habits := [{ sampleHabit with name := "walk", tags := ["health"] }], completions := [] }) ∧
    updateHabit plainDocument (fixedZone 0) 0 sampleStore 7 (IdParam.oid 1)
        [("name", JVal.str "")] =
      (Response.error 500, sampleStore) := by
  decide

/-- C11 (partial update), amended. For a habit owned by the caller and a body with
distinct keys, whatever the further keys of the body do to the document. When the body
has no key assigning `_id` and `updateHabit` answers 200, the stored habit is the
returned one; `name`, `icon`, `color` and `tags` have the value the schema casts the
supplied value to when the body names them (a name and every tag without surrounding
white space) and their old value when it does not; `_id`, `userId` and the counters are
unchanged. When the value of `name`, `icon` or `color` cannot be cast to a string, or
the name that results is empty or longer than 100, the update answers 500 and stores
nothing. The update answers 200 whenever every value can be cast, the resulting name is
valid, the clock is in the range of `Date` and no key assigns `_id` or `isNew` or makes
`save()` or `toObject()` throw. -/
theorem updateHabit_applies (m : DocumentClass) (tz : TimeZone) (now : Int) (s : Store)
    (u H : Nat) (h : Habit) (updates : Body) (hf : findHabit s H u = some h)
    (hnd : (updates.map Prod.fst).Nodup) :
    (keepsId m updates = true → ∀ v s1,
      updateHabit m tz now s u (IdParam.oid H) updates =
        (Response.success 200 (Payload.view v), s1) →
      findHabit s1 H u = some v.habit ∧
      (∀ x, updates.get "name" = some x → ∃ t, castString x = some t ∧ v.habit.name = jsTrim t) ∧
      (updates.get "name" = none → v.habit.name = h.name) ∧
      (∀ x, updates.get "icon" = some x → castString x = some v.habit.icon) ∧
      (updates.get "icon" = none → v.habit.icon = h.icon) ∧
      (∀ x, updates.get "color" = some x → castString x = some v.habit.color) ∧
      (updates.get "color" = none → v.habit.color = h.color) ∧
      (∀ x, updates.get "tags" = some x → castTags x = some v.habit.tags) ∧
      (updates.get "tags" = none → v.habit.tags = h.tags) ∧
      v.habit._id = h._id ∧ v.habit.userId = h.userId ∧
      v.habit.completionCount = h.completionCount ∧ v.habit.streak = h.streak) ∧
    (∀ k x, k = "name" ∨ k = "icon" ∨ k = "color" → updates.get k = some x →
      castString x = none →
      updateHabit m tz now s u (IdParam.oid H) updates = (Response.error 500, s)) ∧
    (∀ x t, updates.get "name" = some x → castString x = some t →
      validName (jsTrim t) = false →
      updateHabit m tz now s u (IdParam.oid H) updates = (Response.error 500, s)) ∧
    (∀ h1 lo hi, applyFields h updates = some h1 → validName h1.name = true →
      todayStart tz now = some lo → tomorrowStart tz now = some hi →
      keepsId m updates = true → keepsOld m updates = true → keepsMethods m updates = true →
      ∃ c s1, updateHabit m tz now s u (IdParam.oid H) updates =
        (Response.success 200 (Payload.view { habit := h1, completedToday := c }), s1)) := by
  refine ⟨?_, ?_, ?_, ?_⟩
  · intro hk v s1 hr
    obtain ⟨ha, hfind⟩ := updateHabit_success hf hk hr
    have hfr := applyFields_frame ha
    refine ⟨hfind, ?_, ?_, ?_, ?_, ?_, ?_, ?_, ?_, hfr.1, hfr.2.1, hfr.2.2.1, hfr.2.2.2⟩
    · intro x hx
      obtain ⟨hm, hm1, hassign, hg⟩ := fold_assigns (fun y => y.name) "name" (by decide)
        (fun _ _ _ _ hk hh => assignPath_keeps_name hk hh) updates hnd x hx h v.habit ha
      simp only [assignPath, if_true] at hassign
      obtain ⟨t, ht, hmt⟩ := Option.map_eq_some'.mp hassign
      exact ⟨t, ht, by rw [hg, ← hmt]⟩
    · intro hx
      exact fold_preserves (fun y => y.name) "name"
        (fun _ _ _ _ hk hh => assignPath_keeps_name hk hh) updates (get_none_keys hx) h v.habit ha
    · intro x hx
      obtain ⟨hm, hm1, hassign, hg⟩ := fold_assigns (fun y => y.icon) "icon" (by decide)
        (fun _ _ _ _ hk hh => assignPath_keeps_icon hk hh) updates hnd x hx h v.habit ha
      have hassign1 : (castString x).map (fun t => { hm with icon := t }) = some hm1 := by
        simpa [assignPath] using hassign
      obtain ⟨t, ht, hmt⟩ := Option.map_eq_some'.mp hassign1
      rw [ht]
      exact congrArg some (by rw [hg, ← hmt])
    · intro hx
      exact fold_preserves (fun y => y.icon) "icon"
        (fun _ _ _ _ hk hh => assignPath_keeps_icon hk hh) updates (get_none_keys hx) h v.habit ha
    · intro x hx
      obtain ⟨hm, hm1, hassign, hg⟩ := fold_assigns (fun y => y.color) "color" (by decide)
        (fun _ _ _ _ hk hh => assignPath_keeps_color hk hh) updates hnd x hx h v.habit ha
      have hassign1 : (castString x).map (fun t => { hm with color := t }) = some hm1 := by
        simpa [assignPath] using hassign
      obtain ⟨t, ht, hmt⟩ := Option.map_eq_some'.mp hassign1
      rw [ht]
      exact congrArg some (by rw [hg, ← hmt])
    · intro hx
      exact fold_preserves (fun y => y.color) "color"
        (fun _ _ _ _ hk hh => assignPath_keeps_color hk hh) updates (get_none_keys hx) h v.habit ha
    · intro x hx
      obtain ⟨hm, hm1, hassign, hg⟩ := fold_assigns (fun y => y.tags) "tags" (by decide)
        (fun _ _ _ _ hk hh => assignPath_keeps_tags hk hh) updates hnd x hx h v.habit ha
      have hassign1 : (castTags x).map (fun t => { hm with tags := t }) = some hm1 := by
        simpa [assignPath] using hassign
      obtain ⟨t, ht, hmt⟩ := Option.map_eq_some'.mp hassign1
      rw [ht]
      exact congrArg some (by rw [hg, ← hmt])
    · intro hx
      exact fold_preserves (fun y => y.tags) "tags"
        (fun _ _ _ _ hk hh => assignPath_keeps_tags hk hh) updates (get_none_keys hx) h v.habit ha
  · intro k x hk hx hc
    exact updateHabit_rejects m tz now s u H h updates hf
      (Or.inl (applyFields_cast_error h updates k x hk hx hc))
  · intro x t hx ht hv
    apply updateHabit_rejects m tz now s u H h updates hf
    cases ha : applyFields h updates with
    | none => exact Or.inl rfl
    | some h1 =>
      refine Or.inr ⟨h1, rfl, ?_⟩
      obtain ⟨hm, hm1, hassign, hg⟩ := fold_assigns (fun y => y.name) "name" (by decide)
        (fun _ _ _ _ hk hh => assignPath_keeps_name hk hh) updates hnd x hx h h1 ha
      simp only [assignPath, if_true, ht, Option.map_some'] at hassign
      cases hassign
      rw [show h1.name = jsTrim t from hg]
      exact hv
  · intro h1 lo hi ha hv hlo hhi hk hold hmeth
    obtain ⟨hmem, _, _⟩ := findHabit_some hf
    have hfr := applyFields_frame ha
    have hid := applyUpdates_id m h updates hk
    have hnew := applyUpdates_isNew m h updates hold
    obtain ⟨hsave, hview⟩ := applyUpdates_methods m h updates hmeth
    have hfld : (applyUpdates m h updates).fields = some h1 := by
      rw [applyUpdates_fields, ha]
    have hd : (applyUpdates m h updates).habit = some h1 := by
      unfold Doc.habit
      rw [hfld, hid, ← hfr.1]
    have hany : s.habits.any (fun x => x._id == h1._id) = true := by
      rw [List.any_eq_true]
      exact ⟨h, hmem, by simp [hfr.1]⟩
    have hs : saveDoc s h (applyUpdates m h updates) =
        some { s with habits := s.habits.map (fun x =>
          if x._id == h1._id then setModified h h1 x else x) } := by
      unfold saveDoc
      rw [hsave, hd]
      simp only [Bool.false_eq_true, if_false, hv, if_true, hnew, hany]
    have e : updateHabit m tz now s u (IdParam.oid H) updates =
        (Response.success 200 (Payload.view
          { habit := h1,
            completedToday := existsInRange
              { s with habits := s.habits.map (fun x =>
                  if x._id == h1._id then setModified h h1 x else x) }
              H u lo hi }),
         { s with habits := s.habits.map (fun x =>
            if x._id == h1._id then setModified h h1 x else x) }) := by
      simp only [updateHabit, hf, hs, hd, completedToday_eval _ H u hlo hhi, hview,
        Bool.false_eq_true, if_false, successResponse]
    exact ⟨_, _, e⟩

/-- The name and the colour of `sampleHabit` are updated; icon and tags are not named. -/
theorem updateHabit_applies_witness :
    findHabit
        { habits := [{ sampleHabit with name := "walk", color := "#fc5c65" }], completions := [] }
        1 7 = some { sampleHabit with name := "walk", color := "#fc5c65" } ∧
    ∃ c s1, updateHabit plainDocument (fixedZone 0) 0 sampleStore 7 (IdParam.oid 1)
      [("name", JVal.str "walk"), ("color", JVal.str "#fc5c65")] =
      (Response.success 200
        (Payload.view
          { habit := { sampleHabit with name := "walk", color := "#fc5c65" },
            completedToday := c }), s1) :=
  ⟨((updateHabit_applies plainDocument (fixedZone 0) 0 sampleStore 7 1 sampleHabit
      [("name", JVal.str "walk"), ("color", JVal.str "#fc5c65")] (by decide) (by decide)).1
      (by decide)
      { habit := { sampleHabit with name := "walk", color := "#fc5c65" }, completedToday := false }
      { habits := [{ sampleHabit with name := "walk", color := "#fc5c65" }], completions := [] }
      (by decide)).1,
   (updateHabit_applies plainDocument (fixedZone 0) 0 sampleStore 7 1 sampleHabit
      [("name", JVal.str "walk"), ("color", JVal.str "#fc5c65")] (by decide) (by decide)).2.2.2
      { sampleHabit with name := "walk", color := "#fc5c65" } 0 86400000
      (by decide) (by decide) (by decide) (by decide) (by decide) (by decide) (by decide)⟩

/-! ## The answer of a delete (C23) -/

/-- C23 fails on the code: deleting a habit the caller owns answers 204 without a
body, so the status is not 200 and there is no `success` property. -/
theorem delete_answers_204 :
    findHabit sampleStore 1 7 = some sampleHabit ∧
    (deleteHabit sampleStore 7 (IdParam.oid 1)).1 = Response.empty 204 ∧
    (deleteHabit sampleStore 7 (IdParam.oid 1)).1.status ≠ 200 ∧
    (deleteHabit sampleStore 7 (IdParam.oid 1)).1.successField = none := by
  decide

/-! ## The window of an uncompletion (C28) -/

/-- C28 fails on the code in a zone with a 23-hour day. Every ledger date of
`springStore` is a day start, and the only record is the completion of 2024-04-01. An
`uncompleteHabit` for an instant of 2024-03-31 normalises to 2024-03-31T00:00Z and
queries up to 2024-04-01T00:00Z; the record it finds and deletes is the one of
1 April, whose day key differs from the normalised instant. -/
theorem uncomplete_window_reaches_next_day :
    springStore.ledgerNormalised springZone = true ∧
    completionDate springZone 0 (DateArg.instant 1711886400000) = some 1711843200000 ∧
    findOneAndDelete springStore 1 7 1711843200000 (1711843200000 + 24 * 60 * 60 * 1000) =
      (some { habitId := 1, userId := 7, date := 1711926000000 },
       { habits := [{ sampleHabit with completionCount := 1, streak := 1 }], completions := [] }) ∧
    completionDate springZone 0 (DateArg.instant 1711965600000) = some 1711926000000 ∧
    (uncompleteHabit springZone 0 springStore 7 (IdParam.oid 1)
      (DateArg.instant 1711886400000)).2.completions = [] := by
  decide

/-! ## Completing and undoing (C27) -/

/-- C27 (round trip). For a schema-valid habit `H` of `u` with counters of at least 0
and no ledger record of `(H, u)` within the day starting at `d`, `completeHabit` for day
`d` followed by `uncompleteHabit` for day `d` leaves the ledger and the habit's
`completionCount` and `streak` exactly as they were before. -/
theorem complete_then_uncomplete_restores (tz : TimeZone) (s : Store) (u H : Nat) (h : Habit)
    (d now1 now2 : Int) (date1 date2 : DateArg)
    (hf : findHabit s H u = some h) (hv : validName h.name = true)
    (hc0 : 0 ≤ h.completionCount) (hk0 : 0 ≤ h.streak)
    (hno : existsInRange s H u d (d + msPerDay) = false)
    (hd1 : completionDate tz now1 date1 = some d)
    (hd2 : completionDate tz now2 date2 = some d)
    (hend : d + msPerDay ≤ maxTimeValue) :
    (uncompleteHabit tz now2 (completeHabit tz now1 s u (IdParam.oid H) date1).2 u
      (IdParam.oid H) date2).2.completions = s.completions ∧
    ∃ h2, findHabit (uncompleteHabit tz now2 (completeHabit tz now1 s u (IdParam.oid H) date1).2 u
        (IdParam.oid H) date2).2 H u = some h2 ∧
      h2.completionCount = h.completionCount ∧ h2.streak = h.streak := by
  have hlo : -maxTimeValue ≤ d + msPerDay := by
    have := (completionDate_range hd1).1
    unfold msPerDay; omega
  obtain ⟨_, hid, hu⟩ := findHabit_some hf
  have hno0 := hasCompletion_false_of_range hno
  have hf1 := findHabit_after_save
    { h with completionCount := h.completionCount + 1, streak := h.streak + 1 } hf hid hu
    (s.completions ++ [{ habitId := H, userId := u, date := d }])
  have hno1 : s.completions.any (inRange H u d (d + msPerDay)) = false := hno
  have hstep := uncompleteHabit_hit s.completions hf1 hv
    (by show 0 < h.completionCount + 1; omega) (by show 0 < h.streak + 1; omega) hd2 hend hlo rfl hno1
  have hf2 := findHabit_after_save
    { h with completionCount := h.completionCount + 1 - 1, streak := h.streak + 1 - 1 }
    hf1 hid hu s.completions
  simp only [completeHabit_first hf hv hno0 hd1, hstep]
  refine ⟨trivial, _, hf2, ?_, ?_⟩
  · show h.completionCount + 1 - 1 = h.completionCount; omega
  · show h.streak + 1 - 1 = h.streak; omega

/-- A completion of `sampleHabit` on 2024-01-01 (UTC) and its undoing leave the ledger
empty again. -/
theorem complete_then_uncomplete_restores_witness :
    (uncompleteHabit (fixedZone 0) 0
      (completeHabit (fixedZone 0) 0 sampleStore 7 (IdParam.oid 1)
        (DateArg.instant 1704096000000)).2 7 (IdParam.oid 1)
      (DateArg.instant 1704139200000)).2.completions = sampleStore.completions :=
  (complete_then_uncomplete_restores (fixedZone 0) sampleStore 7 1 sampleHabit 1704067200000 0 0
    (DateArg.instant 1704096000000) (DateArg.instant 1704139200000)
    (by decide) (by decide) (by decide) (by decide) (by decide) (by decide) (by decide)
    (by decide)).1

/-! ## Quadrants (C29) -/

theorem four_filters_length (tasks : List Task) :
    (tasks.filter (fun task => task.isImportant && task.isUrgent)).length +
    (tasks.filter (fun task => task.isImportant && !task.isUrgent)).length +
    (tasks.filter (fun task => !task.isImportant && task.isUrgent)).length +
    (tasks.filter (fun task => !task.isImportant && !task.isUrgent)).length = tasks.length := by
  induction tasks with
  | nil => rfl
  | cons t ts ih =>
    simp only [List.filter_cons]
    cases hi : t.isImportant <;> cases hu : t.isUrgent <;>
      simp only [Bool.and_self, Bool.and_true, Bool.and_false, Bool.not_true, Bool.not_false,
        Bool.false_eq_true, if_true, if_false, List.length_cons] <;> omega

/-- C29 (quadrants partition the tasks). `getTasksByQuadrant` puts a task in `q1`
exactly when it is important and urgent, in `q2` when important and not urgent, in
`q3` when urgent and not important, in `q4` when neither: every task of the input is
in exactly one list, no task is in two, the four lengths add up to the number of
tasks, and each list keeps the order of the input. -/
theorem quadrants_partition (tasks : List Task) :
    (∀ t, t ∈ (getTasksByQuadrant tasks).2.q1 ↔ t ∈ tasks ∧ t.isImportant = true ∧ t.isUrgent = true) ∧
    (∀ t, t ∈ (getTasksByQuadrant tasks).2.q2 ↔ t ∈ tasks ∧ t.isImportant = true ∧ t.isUrgent = false) ∧
    (∀ t, t ∈ (getTasksByQuadrant tasks).2.q3 ↔ t ∈ tasks ∧ t.isImportant = false ∧ t.isUrgent = true) ∧
    (∀ t, t ∈ (getTasksByQuadrant tasks).2.q4 ↔ t ∈ tasks ∧ t.isImportant = false ∧ t.isUrgent = false) ∧
    (getTasksByQuadrant tasks).2.q1.length + (getTasksByQuadrant tasks).2.q2.length +
      (getTasksByQuadrant tasks).2.q3.length + (getTasksByQuadrant tasks).2.q4.length
      = tasks.length ∧
    (getTasksByQuadrant tasks).2.q1.Disjoint (getTasksByQuadrant tasks).2.q2 ∧
    (getTasksByQuadrant tasks).2.q1.Disjoint (getTasksByQuadrant tasks).2.q3 ∧
    (getTasksByQuadrant tasks).2.q1.Disjoint (getTasksByQuadrant tasks).2.q4 ∧
    (getTasksByQuadrant tasks).2.q2.Disjoint (getTasksByQuadrant tasks).2.q3 ∧
    (getTasksByQuadrant tasks).2.q2.Disjoint (getTasksByQuadrant tasks).2.q4 ∧
    (getTasksByQuadrant tasks).2.q3.Disjoint (getTasksByQuadrant tasks).2.q4 ∧
    (getTasksByQuadrant tasks).2.q1.Sublist tasks ∧ (getTasksByQuadrant tasks).2.q2.Sublist tasks ∧
    (getTasksByQuadrant tasks).2.q3.Sublist tasks ∧ (getTasksByQuadrant tasks).2.q4.Sublist tasks := by
  have hdis : ∀ (p q : Task → Bool), (∀ t, p t = true → q t = true → False) →
      (tasks.filter p).Disjoint (tasks.filter q) := by
    intro p q hpq t hp hq
    exact hpq t (List.mem_filter.mp hp).2 (List.mem_filter.mp hq).2
  refine ⟨?_, ?_, ?_, ?_, four_filters_length tasks, ?_, ?_, ?_, ?_, ?_, ?_, List.filter_sublist _,
    List.filter_sublist _, List.filter_sublist _, List.filter_sublist _⟩
  · intro t
    simp [getTasksByQuadrant, List.mem_filter]
  · intro t
    simp [getTasksByQuadrant, List.mem_filter]
  · intro t
    simp [getTasksByQuadrant, List.mem_filter]
  · intro t
    simp [getTasksByQuadrant, List.mem_filter]
  all_goals
    apply hdis
    intro t hp hq
    revert hp hq
    cases t.isImportant <;> cases t.isUrgent <;> simp

/-! ## Validation of a feedback request (C24) -/

/-- C24 (feedback input validation). If one of `userInput`, `encourageStyle` and
`criticizeStyle` is missing from the body or is the empty string, `generateFeedback`
answers 400 with `success = false`, makes no call to the feedback service and stores
no `FeedbackMessage`. -/
theorem generateFeedback_rejects_missing (service : FeedbackService) (newId : Nat)
    (startTime endTime : Int) (stored : List FeedbackMessage) (body : Body) (key : String)
    (hkey : key = "userInput" ∨ key = "encourageStyle" ∨ key = "criticizeStyle")
    (hmiss : body.get key = none ∨ body.get key = some (JVal.str "")) :
    (generateFeedback service newId startTime endTime stored body).response.status = 400 ∧
    (generateFeedback service newId startTime endTime stored body).response.success = false ∧
    (generateFeedback service newId startTime endTime stored body).serviceCalls = [] ∧
    (generateFeedback service newId startTime endTime stored body).stored = stored := by
  have hfalsy : truthy (body.get key) = false := by
    rcases hmiss with h | h <;> rw [h] <;> rfl
  have hres : generateFeedback service newId startTime endTime stored body =
      { response := FeedbackResponse.invalid, stored := stored, serviceCalls := [] } := by
    unfold generateFeedback
    dsimp only
    rw [if_pos]
    rcases hkey with rfl | rfl | rfl <;> simp [hfalsy]
  rw [hres]
  exact ⟨rfl, rfl, rfl, rfl⟩

/-- A body with only `userInput`, as the API test sends it. -/
theorem generateFeedback_rejects_missing_witness :
    (generateFeedback sampleService 1 0 5 [] [("userInput", JVal.str "test")]).response.status
      = 400 ∧
    (generateFeedback sampleService 1 0 5 [] [("userInput", JVal.str "test")]).serviceCalls = [] :=
  ⟨(generateFeedback_rejects_missing sampleService 1 0 5 [] [("userInput", JVal.str "test")]
      "encourageStyle" (Or.inr (Or.inl rfl)) (Or.inl (by decide))).1,
   (generateFeedback_rejects_missing sampleService 1 0 5 [] [("userInput", JVal.str "test")]
      "encourageStyle" (Or.inr (Or.inl rfl)) (Or.inl (by decide))).2.2.1⟩

/-! ## The authentication gate (C25) -/

/-- C25 (authentication gate). When the `Authorization` header is absent or does not
start with `Bearer `, `protect` answers 401 with `success = false` and the code
`UNAUTHORIZED`, sets no `req.user` and does not call `next`. Whenever `protect` calls
`next`, it sent no response and `req.user.id` is the `id` claim of the payload that
`jwt.verify` returned for the token of the header. -/
theorem protect_gate (verify : TokenVerifier) (authHeader : Option String) :
    ((authHeader = none ∨
        ∃ header, authHeader = some header ∧ "Bearer ".data.isPrefixOf header.data = false) →
      (protect verify authHeader).response = some (Response.error 401) ∧
      (Response.error 401).status = 401 ∧
      (Response.error 401).successField = some false ∧
      (Response.error 401).errorCode = some "UNAUTHORIZED" ∧
      (protect verify authHeader).user = none ∧
      (protect verify authHeader).nextCalled = false) ∧
    ((protect verify authHeader).nextCalled = true →
      ∃ header payload, authHeader = some header ∧
        verify (((splitOnSpace header.data).get? 1).map String.mk) = some payload ∧
        (protect verify authHeader).user = some { id := payload.id } ∧
        (protect verify authHeader).response = none) := by
  constructor
  · intro h
    have hres : protect verify authHeader =
        { response := some (Response.error 401), user := none, nextCalled := false } := by
      rcases h with rfl | ⟨header, rfl, hp⟩
      · rfl
      · simp [protect, hp]
    rw [hres]
    exact ⟨rfl, rfl, rfl, by decide, rfl, rfl⟩
  · intro hnext
    cases authHeader with
    | none => simp [protect] at hnext
    | some header =>
      unfold protect at hnext ⊢
      dsimp only at hnext ⊢
      split at hnext
      · simp at hnext
      · next hcond =>
        rw [if_neg hcond]
        cases hv : verify (((splitOnSpace header.data).get? 1).map String.mk) with
        | none => rw [hv] at hnext; simp at hnext
        | some payload => exact ⟨header, payload, rfl, hv, rfl, rfl⟩

/-- A request without header is refused, and one with `Bearer good` passes. -/
theorem protect_gate_witness :
    (protect sampleVerifier none).response = some (Response.error 401) ∧
    (protect sampleVerifier none).nextCalled = false ∧
    ∃ header payload, some "Bearer good" = some header ∧
      sampleVerifier (((splitOnSpace header.data).get? 1).map String.mk) = some payload ∧
      (protect sampleVerifier (some "Bearer good")).user = some { id := payload.id } ∧
      (protect sampleVerifier (some "Bearer good")).response = none :=
  ⟨((protect_gate sampleVerifier none).1 (Or.inl rfl)).1,
   ((protect_gate sampleVerifier none).1 (Or.inl rfl)).2.2.2.2.2,
   (protect_gate sampleVerifier (some "Bearer good")).2 (by decide)⟩

/-! ## Stripping a code fence (C30) -/

theorem dropWhile_spaces_append (a y : List Char) (ha : a.all jsIsSpace = true) :
    (a ++ y).dropWhile jsIsSpace = y.dropWhile jsIsSpace := by
  induction a with
  | nil => rfl
  | cons c cs ih =>
    simp only [List.all_cons, Bool.and_eq_true] at ha
    simp only [List.cons_append, List.dropWhile_cons, ha.1, if_true]
    exact ih ha.2

theorem dropWhile_append_spaces (y b : List Char) (hb : b.all jsIsSpace = true) :
    (y ++ b).dropWhile jsIsSpace = y.dropWhile jsIsSpace ++ (if y.dropWhile jsIsSpace = [] then [] else b) := by
  induction y with
  | nil =>
    simp only [List.nil_append, List.dropWhile_nil, if_true, List.append_nil]
    have := dropWhile_spaces_append b [] hb
    simpa using this
  | cons c cs ih =>
    by_cases hc : jsIsSpace c = true
    · simp only [List.cons_append, List.dropWhile_cons, hc, if_true]
      exact ih
    · simp only [List.cons_append, List.dropWhile_cons, hc, if_false]
      simp

theorem trim_spaces_around (a y b : List Char) (ha : a.all jsIsSpace = true)
    (hb : b.all jsIsSpace = true) :
    (((a ++ y ++ b).dropWhile jsIsSpace).reverse.dropWhile jsIsSpace).reverse =
      ((y.dropWhile jsIsSpace).reverse.dropWhile jsIsSpace).reverse := by
  rw [List.append_assoc, dropWhile_spaces_append a (y ++ b) ha, dropWhile_append_spaces y b hb]
  by_cases hy : y.dropWhile jsIsSpace = []
  · simp [hy]
  · simp only [hy, if_false, List.reverse_append]
    rw [dropWhile_spaces_append b.reverse _ (by simpa using hb)]

theorem jsTrim_spaces_around (a y b : String) (ha : a.data.all jsIsSpace = true)
    (hb : b.data.all jsIsSpace = true) : jsTrim (a ++ y ++ b) = jsTrim y := by
  unfold jsTrim
  simp only [String.data_append]
  rw [trim_spaces_around a.data y.data b.data ha hb]

theorem trim_fenced (c e : Char) (m : List Char) (hc : jsIsSpace c = false)
    (he : jsIsSpace e = false) :
    (((c :: (m ++ [e])).dropWhile jsIsSpace).reverse.dropWhile jsIsSpace).reverse
      = c :: (m ++ [e]) := by
  simp only [List.dropWhile_cons, hc, Bool.false_eq_true, if_false, List.reverse_cons,
    List.reverse_append, List.reverse_nil, List.nil_append, List.cons_append, he,
    List.reverse_reverse, List.append_assoc]

theorem jsTrim_eq_trimChars (s : String) : jsTrim s = String.mk (trimChars s.data) := rfl

theorem cleanJsonResponse_eq_cleanChars (r : String) :
    cleanJsonResponse r = String.mk (cleanChars r.data) := by
  unfold cleanJsonResponse cleanChars
  simp only [jsTrim_eq_trimChars, apply_ite String.data]

theorem isPrefixOf_of_append {p q l : List Char} (h : (p ++ q).isPrefixOf l = true) :
    p.isPrefixOf l = true := by
  rw [List.isPrefixOf_iff_prefix] at h ⊢
  exact (List.prefix_append p q).trans h

theorem trimChars_spaces_around (a y b : List Char) (ha : a.all jsIsSpace = true)
    (hb : b.all jsIsSpace = true) : trimChars (a ++ y ++ b) = trimChars y :=
  trim_spaces_around a y b ha hb

theorem trimChars_fenced (c e : Char) (m : List Char) (hc : jsIsSpace c = false)
    (he : jsIsSpace e = false) : trimChars (c :: (m ++ [e])) = c :: (m ++ [e]) :=
  trim_fenced c e m hc he

theorem take_before_fence (x : List Char) :
    (x ++ ['\n', '`', '`', '`']).take ((x ++ ['\n', '`', '`', '`']).length - 3) = x ++ ['\n'] := by
  have hlen : (x ++ ['\n', '`', '`', '`']).length - 3 = x.length + 1 := by
    simp only [List.length_append, List.length_cons, List.length_nil]
    omega
  rw [hlen, List.take_append_eq_append_take]
  simp

theorem isSuffixOf_fence (x : List Char) :
    ['`', '`', '`'].isSuffixOf (x ++ ['\n', '`', '`', '`']) = true := by
  rw [List.isSuffixOf_iff_suffix]
  exact ⟨x ++ ['\n'], by simp⟩

theorem cleanChars_after_open (x : List Char) (hx : trimChars x = x) :
    trimChars
      (if ['`', '`', '`'].isSuffixOf ('\n' :: (x ++ ['\n', '`', '`', '`'])) = true then
        ('\n' :: (x ++ ['\n', '`', '`', '`'])).take
          (('\n' :: (x ++ ['\n', '`', '`', '`'])).length - 3)
      else '\n' :: (x ++ ['\n', '`', '`', '`'])) = x := by
  have h1 := isSuffixOf_fence ('\n' :: x)
  have h2 := take_before_fence ('\n' :: x)
  simp only [List.cons_append] at h1 h2
  rw [if_pos h1, h2]
  have h3 := trimChars_spaces_around ['\n'] x ['\n'] (by decide) (by decide)
  simp only [List.cons_append, List.nil_append] at h3
  rw [h3, hx]

theorem cleanChars_fenced_json (x a b : List Char) (hx : trimChars x = x)
    (ha : a.all jsIsSpace = true) (hb : b.all jsIsSpace = true) :
    cleanChars (a ++ (['`', '`', '`', 'j', 's', 'o', 'n', '\n'] ++ x ++ ['\n', '`', '`', '`']) ++ b)
      = x := by
  have hF : trimChars (['`', '`', '`', 'j', 's', 'o', 'n', '\n'] ++ x ++ ['\n', '`', '`', '`'])
      = '`' :: '`' :: '`' :: 'j' :: 's' :: 'o' :: 'n' :: '\n' :: (x ++ ['\n', '`', '`', '`']) := by
    have := trimChars_fenced '`' '`' (['`', '`', 'j', 's', 'o', 'n', '\n'] ++ x ++ ['\n', '`', '`'])
      (by decide) (by decide)
    simpa using this
  unfold cleanChars
  simp only [trimChars_spaces_around _ _ _ ha hb, hF]
  have hp : ['`', '`', '`', 'j', 's', 'o', 'n'].isPrefixOf
      ('`' :: '`' :: '`' :: 'j' :: 's' :: 'o' :: 'n' :: '\n' :: (x ++ ['\n', '`', '`', '`'])) = true := by
    simp [List.isPrefixOf]
  have hdata : "```json".data = ['`', '`', '`', 'j', 's', 'o', 'n'] := rfl
  have hdata3 : "```".data = ['`', '`', '`'] := rfl
  simp only [hdata, hdata3, hp, if_true, List.drop_succ_cons, List.drop_zero]
  exact cleanChars_after_open x hx

theorem cleanChars_fenced_plain (x a b : List Char) (hx : trimChars x = x)
    (ha : a.all jsIsSpace = true) (hb : b.all jsIsSpace = true) :
    cleanChars (a ++ (['`', '`', '`', '\n'] ++ x ++ ['\n', '`', '`', '`']) ++ b) = x := by
  have hF : trimChars (['`', '`', '`', '\n'] ++ x ++ ['\n', '`', '`', '`'])
      = '`' :: '`' :: '`' :: '\n' :: (x ++ ['\n', '`', '`', '`']) := by
    have := trimChars_fenced '`' '`' (['`', '`', '\n'] ++ x ++ ['\n', '`', '`'])
      (by decide) (by decide)
    simpa using this
  unfold cleanChars
  simp only [trimChars_spaces_around _ _ _ ha hb, hF]
  have hp7 : ['`', '`', '`', 'j', 's', 'o', 'n'].isPrefixOf
      ('`' :: '`' :: '`' :: '\n' :: (x ++ ['\n', '`', '`', '`'])) = false := by
    simp [List.isPrefixOf]
  have hp3 : ['`', '`', '`'].isPrefixOf
      ('`' :: '`' :: '`' :: '\n' :: (x ++ ['\n', '`', '`', '`'])) = true := by
    simp [List.isPrefixOf]
  have hdata : "```json".data = ['`', '`', '`', 'j', 's', 'o', 'n'] := rfl
  have hdata3 : "```".data = ['`', '`', '`'] := rfl
  simp only [hdata, hdata3, hp7, hp3, Bool.false_eq_true, if_false, if_true, List.drop_succ_cons,
    List.drop_zero]
  exact cleanChars_after_open x hx

theorem cleanChars_unfenced (x : List Char) (hx : trimChars x = x)
    (hpre : "```".data.isPrefixOf x = false) (hsuf : "```".data.isSuffixOf x = false) :
    cleanChars x = x := by
  have hjson : "```json".data.isPrefixOf x = false := by
    rw [Bool.eq_false_iff]
    intro h
    have h3 : ("```".data ++ "json".data).isPrefixOf x = true := h
    rw [isPrefixOf_of_append h3] at hpre
    cases hpre
  unfold cleanChars
  simp only [hx, hjson, hpre, hsuf, Bool.false_eq_true, if_false]

/-- C30 (fence stripping). For a string `s` without leading or trailing white space,
`cleanJsonResponse` returns exactly `s` when it is given `s` between a line
"```json" (or "```") and a line "```", with any white space around the whole; and it
returns `s` when given `s` itself, if `s` neither starts nor ends with "```". -/
theorem cleanJsonResponse_strips_fence (s ws1 ws2 : String) (hs : jsTrim s = s)
    (hw1 : ws1.data.all jsIsSpace = true) (hw2 : ws2.data.all jsIsSpace = true) :
    cleanJsonResponse (ws1 ++ ("```json\n" ++ s ++ "\n```") ++ ws2) = s ∧
    cleanJsonResponse (ws1 ++ ("```\n" ++ s ++ "\n```") ++ ws2) = s ∧
    ("```".data.isPrefixOf s.data = false → "```".data.isSuffixOf s.data = false →
      cleanJsonResponse s = s) := by
  have hx : trimChars s.data = s.data := by
    have := congrArg String.data hs
    rw [jsTrim_eq_trimChars] at this
    exact this
  have e1 : "```json\n".data = ['`', '`', '`', 'j', 's', 'o', 'n', '\n'] := rfl
  have e2 : "```\n".data = ['`', '`', '`', '\n'] := rfl
  have e3 : "\n```".data = ['\n', '`', '`', '`'] := rfl
  refine ⟨?_, ?_, ?_⟩
  · rw [cleanJsonResponse_eq_cleanChars]
    simp only [String.data_append, e1, e3]
    rw [cleanChars_fenced_json s.data ws1.data ws2.data hx hw1 hw2]
  · rw [cleanJsonResponse_eq_cleanChars]
    simp only [String.data_append, e2, e3]
    rw [cleanChars_fenced_plain s.data ws1.data ws2.data hx hw1 hw2]
  · intro hpre hsuf
    rw [cleanJsonResponse_eq_cleanChars, cleanChars_unfenced s.data hx hpre hsuf]

/-- A fenced answer with a blank before and a line break after. -/
theorem cleanJsonResponse_strips_fence_witness :
    cleanJsonResponse (" " ++ ("```json\n" ++ "[1, 2]" ++ "\n```") ++ "\n") = "[1, 2]" ∧
    cleanJsonResponse "[1, 2]" = "[1, 2]" :=
  ⟨(cleanJsonResponse_strips_fence "[1, 2]" " " "\n" (by decide) (by decide) (by decide)).1,
   (cleanJsonResponse_strips_fence "[1, 2]" " " "\n" (by decide) (by decide) (by decide)).2.2
     (by decide) (by decide)⟩

/-! ## Counters and ledger agree (C26) -/

theorem agrees_replace (s : Store) (hs : Agrees s) (H : Nat) (h1 : Habit)
    (comps : List HabitCompletion)
    (hid : h1._id = H) (hv : validName h1.name = true) (hck : h1.completionCount = h1.streak)
    (hcount : h1.completionCount = ((comps.filter (fun c => c.habitId == H)).length : Int))
    (hex : ∃ x ∈ s.habits, x._id = H)
    (hother : ∀ K, K ≠ H → (comps.filter (fun c => c.habitId == K)).length = recordCount s K)
    (hcomps : ∀ c ∈ comps, c ∈ s.completions ∨ c.habitId = H) :
    Agrees { habits := s.habits.map (fun x => if x._id == h1._id then h1 else x),
             completions := comps } := by
  constructor
  · intro x hx
    obtain ⟨y, hy, rfl⟩ := List.mem_map.mp hx
    by_cases hyid : y._id = h1._id
    · have hb : (y._id == h1._id) = true := by simpa using hyid
      simp only [hb, if_true]
      refine ⟨hv, hck, ?_⟩
      unfold recordCount
      rw [hid]
      exact hcount
    · have hb : (y._id == h1._id) = false := by simpa using hyid
      simp only [hb, Bool.false_eq_true, if_false]
      obtain ⟨h1v, h2v, h3v⟩ := hs.1 y hy
      refine ⟨h1v, h2v, ?_⟩
      rw [h3v]
      unfold recordCount
      simp only
      rw [hother y._id (by rw [← hid]; exact hyid)]
      rfl
  · intro c hc
    have key : ∀ y ∈ s.habits, y._id = c.habitId →
        ∃ h ∈ s.habits.map (fun x => if x._id == h1._id then h1 else x), h._id = c.habitId := by
      intro y hy hyc
      refine ⟨_, List.mem_map_of_mem _ hy, ?_⟩
      by_cases hyid : y._id = h1._id
      · have hb : (y._id == h1._id) = true := by simpa using hyid
        simp only [hb, if_true]
        rw [← hyid]; exact hyc
      · have hb : (y._id == h1._id) = false := by simpa using hyid
        simp only [hb, Bool.false_eq_true, if_false]
        exact hyc
    rcases hcomps c hc with hin | hH
    · obtain ⟨y, hy, hyc⟩ := hs.2 c hin
      exact key y hy hyc
    · obtain ⟨x, hx, hxid⟩ := hex
      exact key x hx (by rw [hxid, hH])

theorem agrees_empty : Agrees emptyStore :=
  ⟨fun _ h => (by cases h), fun _ h => (by cases h)⟩

theorem createHabit_agrees (s : Store) (u newId : Nat) (body : Body) (hs : Agrees s) :
    Agrees (createHabit s u newId body).2 := by
  unfold createHabit
  split
  · exact hs
  · next h hn =>
    split
    · exact hs
    · next hany =>
      obtain ⟨hv, hid, _⟩ := newHabit_spec hn
      obtain ⟨hc, hk⟩ := newHabit_counters hn
      have hfresh : ∀ x ∈ s.habits, x._id ≠ newId := by
        intro x hx hxid
        apply hany
        rw [List.any_eq_true]
        exact ⟨x, hx, by simpa using hxid⟩
      have hzero : recordCount s newId = 0 := by
        unfold recordCount
        rw [List.length_eq_zero, List.filter_eq_nil_iff]
        intro c hc hcid
        obtain ⟨y, hy, hyc⟩ := hs.2 c hc
        exact hfresh y hy (by rw [hyc]; simpa using hcid)
      constructor
      · intro x hx
        rcases List.mem_append.mp hx with hx | hx
        · exact hs.1 x hx
        · rw [List.mem_singleton] at hx
          subst hx
          refine ⟨hv, by rw [hc, hk], ?_⟩
          have : recordCount { s with habits := s.habits ++ [x] } x._id = recordCount s newId := by
            rw [hid]; rfl
          rw [this, hzero, hc]; rfl
      · intro c hc
        obtain ⟨y, hy, hyc⟩ := hs.2 c hc
        exact ⟨y, List.mem_append_left _ hy, hyc⟩

theorem deleteHabit_agrees (s : Store) (u : Nat) (hid : IdParam) (hs : Agrees s) :
    Agrees (deleteHabit s u hid).2 := by
  unfold deleteHabit
  split
  · exact hs
  · next H =>
    split
    · exact hs
    · next habit hf =>
      obtain ⟨_, hhid, _⟩ := findHabit_some hf
      simp only [deleteManyCompletions, deleteOneHabit, hhid]
      constructor
      · intro x hx
        obtain ⟨hxm, hxp⟩ := List.mem_filter.mp hx
        have hxid : x._id ≠ H := by simpa using hxp
        obtain ⟨h1v, h2v, h3v⟩ := hs.1 x hxm
        refine ⟨h1v, h2v, ?_⟩
        rw [h3v]
        unfold recordCount
        simp only [List.filter_filter]
        congr 2
        apply List.filter_congr
        intro c _
        by_cases hc : c.habitId = x._id
        · have : c.habitId ≠ H := by rw [hc]; exact hxid
          simp [hc, hxid]
        · simp [hc]
      · intro c hc
        obtain ⟨hcm, hcp⟩ := List.mem_filter.mp hc
        have hcid : c.habitId ≠ H := by simpa using hcp
        obtain ⟨y, hy, hyc⟩ := hs.2 c hcm
        refine ⟨y, List.mem_filter.mpr ⟨hy, ?_⟩, hyc⟩
        have : y._id ≠ H := by rw [hyc]; exact hcid
        simpa using this

theorem saveHabit_some {s s1 : Store} {h : Habit} (hs : saveHabit s h = some s1) :
    validName h.name = true ∧
    s1 = { s with habits := s.habits.map (fun x => if x._id == h._id then h else x) } := by
  unfold saveHabit at hs
  split at hs
  · next hv => cases hs; exact ⟨hv, rfl⟩
  · cases hs

theorem agrees_map (s : Store) (hs : Agrees s) (g : Habit → Habit)
    (hg : ∀ x ∈ s.habits, (g x)._id = x._id ∧ (g x).completionCount = x.completionCount ∧
      (g x).streak = x.streak ∧ validName (g x).name = true) :
    Agrees { habits := s.habits.map g, completions := s.completions } := by
  constructor
  · intro x hx
    obtain ⟨y, hy, rfl⟩ := List.mem_map.mp hx
    obtain ⟨h1, h2, h3, h4⟩ := hg y hy
    obtain ⟨_, h2v, h3v⟩ := hs.1 y hy
    refine ⟨h4, by rw [h2, h3, h2v], ?_⟩
    rw [h2, h3v, h1]
    rfl
  · intro c hc
    obtain ⟨y, hy, hyc⟩ := hs.2 c hc
    exact ⟨g y, List.mem_map_of_mem g hy, by rw [(hg y hy).1, hyc]⟩

theorem updateHabit_agrees (m : DocumentClass) (tz : TimeZone) (now : Int) (s : Store) (u : Nat)
    (hid : IdParam) (updates : Body) (hold : keepsOld m updates = true) (hs : Agrees s) :
    Agrees (updateHabit m tz now s u hid updates).2 := by
  cases hid with
  | malformed => exact hs
  | oid H =>
    cases hf : findHabit s H u with
    | none =>
      simp only [updateHabit, hf]
      exact hs
    | some h =>
      have key : ∀ s1, saveDoc s h (applyUpdates m h updates) = some s1 → Agrees s1 := by
        intro s1 hsave
        obtain ⟨_, d, _, hv, ⟨hnew, _, _⟩ | ⟨_, _, e⟩⟩ := saveDoc_some hsave
        · rw [applyUpdates_isNew m h updates hold] at hnew
          cases hnew
        · rw [e]
          apply agrees_map s hs
          intro x hx
          by_cases hxd : x._id = d._id
          · have hg : (if x._id == d._id then setModified h d x else x) = setModified h d x := by
              simp [hxd]
            rw [hg]
            refine ⟨rfl, rfl, rfl, ?_⟩
            show validName (if d.name = h.name then x.name else d.name) = true
            split
            · exact (hs.1 x hx).1
            · exact hv
          · have hg : (if x._id == d._id then setModified h d x else x) = x := by
              simp [hxd]
            rw [hg]
            exact ⟨rfl, rfl, rfl, (hs.1 x hx).1⟩
      rcases updateHabit_cases m tz now s u H h updates hf with e | ⟨s1, d, hsave, _, e | ⟨c, _, _, e⟩⟩
      · rw [e]
        exact hs
      · rw [e]
        exact key s1 hsave
      · rw [e]
        exact key s1 hsave

theorem filter_append_one (l : List HabitCompletion) (r : HabitCompletion) (K : Nat) :
    ((l ++ [r]).filter (fun c => c.habitId == K)).length =
      (l.filter (fun c => c.habitId == K)).length + (if r.habitId = K then 1 else 0) := by
  rw [List.filter_append, List.length_append]
  by_cases hr : r.habitId = K
  · simp [List.filter_cons, hr]
  · simp [List.filter_cons, hr]

theorem completeHabit_agrees (tz : TimeZone) (now : Int) (s : Store) (u : Nat) (hid : IdParam)
    (date : DateArg) (hs : Agrees s) : Agrees (completeHabit tz now s u hid date).2 := by
  unfold completeHabit
  split
  · exact hs
  · next H =>
    split
    · exact hs
    · next habit hf =>
      obtain ⟨hmem, hhid, _⟩ := findHabit_some hf
      obtain ⟨h1v, h2v, h3v⟩ := hs.1 habit hmem
      split
      · next s1 hcr =>
        have hs1 : ∃ d, s1 = { s with completions :=
            s.completions ++ [{ habitId := H, userId := u, date := d }] } := by
          unfold createCompletion at hcr
          split at hcr
          · cases hcr
          · next d _ =>
            split at hcr
            · cases hcr
            · cases hcr; exact ⟨d, rfl⟩
        obtain ⟨d, rfl⟩ := hs1
        dsimp only
        split
        · next hsave =>
          unfold saveHabit at hsave
          rw [if_pos h1v] at hsave
          cases hsave
        · next s2 hsave =>
          obtain ⟨hv, hs2⟩ := saveHabit_some hsave
          rw [hs2]
          refine agrees_replace s hs H _ _ hhid hv ?_ ?_ ⟨habit, hmem, hhid⟩ ?_ ?_
          · show increment habit.completionCount = increment habit.streak
            rw [h2v]
          · show increment habit.completionCount = _
            rw [increment_eq, filter_append_one, h3v, hhid]
            simp [recordCount]
          · intro K hK
            rw [filter_append_one]
            have : ¬ H = K := fun h => hK h.symm
            simp [this, recordCount]
          · intro c hc
            rcases List.mem_append.mp hc with hc | hc
            · exact Or.inl hc
            · rw [List.mem_singleton] at hc
              exact Or.inr (by rw [hc])
      · exact hs
      · exact hs

theorem filter_eraseP_length (l : List HabitCompletion) (p q : HabitCompletion → Bool)
    (r : HabitCompletion) (hfind : l.find? p = some r) (hpq : ∀ c, p c = true → q c = true) :
    ((l.eraseP p).filter q).length + 1 = (l.filter q).length := by
  induction l with
  | nil => cases hfind
  | cons a t ih =>
    by_cases hp : p a = true
    · rw [List.eraseP_cons_of_pos hp, List.filter_cons, hpq a hp]
      simp
    · have hfind1 : t.find? p = some r := by
        rw [List.find?_cons] at hfind
        simp only [hp] at hfind
        exact hfind
      rw [List.eraseP_cons_of_neg hp, List.filter_cons, List.filter_cons]
      split
      · simp only [List.length_cons]
        have := ih hfind1
        omega
      · exact ih hfind1

theorem uncompleteHabit_agrees (tz : TimeZone) (now : Int) (s : Store) (u : Nat) (hid : IdParam)
    (date : DateArg) (hs : Agrees s) : Agrees (uncompleteHabit tz now s u hid date).2 := by
  unfold uncompleteHabit
  split
  · exact hs
  · next H =>
    split
    · exact hs
    · next habit hf =>
      obtain ⟨hmem, hhid, _⟩ := findHabit_some hf
      obtain ⟨h1v, h2v, h3v⟩ := hs.1 habit hmem
      split
      · exact hs
      · split
        · exact hs
        · next _ lo _ _ hi _ =>
          have hpq : ∀ c, inRange H u lo hi c = true → (c.habitId == H) = true := by
            intro c hc
            simp only [inRange, Bool.and_eq_true, beq_iff_eq] at hc
            simpa using hc.1.1.1
          split
          · next r s1 hfd =>
            unfold findOneAndDelete at hfd
            have hfind : s.completions.find? (inRange H u lo hi) = some r := (Prod.mk.inj hfd).1
            have hs1 : s1 = { s with completions := s.completions.eraseP (inRange H u lo hi) } :=
              ((Prod.mk.inj hfd).2).symm
            have hlen := filter_eraseP_length s.completions (inRange H u lo hi)
              (fun c => c.habitId == H) r hfind hpq
            subst hs1
            dsimp only
            split
            · next hsave =>
              unfold saveHabit at hsave
              rw [if_pos h1v] at hsave
              cases hsave
            · next s2 hsave =>
              obtain ⟨hv, hs2⟩ := saveHabit_some hsave
              rw [hs2]
              have hpos : 0 < habit.completionCount := by
                rw [h3v, hhid]; unfold recordCount; omega
              refine agrees_replace s hs H _ _ hhid hv ?_ ?_ ⟨habit, hmem, hhid⟩ ?_ ?_
              · show decrement habit.completionCount = decrement habit.streak
                rw [h2v]
              · show decrement habit.completionCount = _
                rw [decrement_pos hpos, h3v, hhid]
                unfold recordCount
                dsimp only
                omega
              · intro K hK
                unfold recordCount
                rw [filter_eraseP_other]
                intro c hc
                have := hpq c hc
                have hcH : c.habitId = H := by simpa using this
                have : ¬ H = K := fun h => hK h.symm
                simp [hcH, this]
              · intro c hc
                exact Or.inl (List.mem_of_mem_eraseP hc)
          · next s1 hfd =>
            unfold findOneAndDelete at hfd
            have hfind : s.completions.find? (inRange H u lo hi) = none := (Prod.mk.inj hfd).1
            have hs1 : s1 = s := by
              rw [← (Prod.mk.inj hfd).2,
                List.eraseP_of_forall_not (List.find?_eq_none.mp hfind)]
            rw [hs1]
            exact hs

theorem run_agrees (tz : TimeZone) (calls : List Call) (s : Store)
    (hcalls : ∀ c ∈ calls, c.updatesOld = true) (hs : Agrees s) :
    Agrees (run tz s calls).2 := by
  induction calls generalizing s with
  | nil => exact hs
  | cons c cs ih =>
    apply ih _ (fun x hx => hcalls x (List.mem_cons_of_mem _ hx))
    have hc := hcalls c (List.mem_cons_self _ _)
    cases c with
    | create u i b => exact createHabit_agrees s u i b hs
    | update m now u hid b => exact updateHabit_agrees m tz now s u hid b hc hs
    | delete u hid => exact deleteHabit_agrees s u hid hs
    | complete now u hid d => exact completeHabit_agrees tz now s u hid d hs
    | uncomplete now u hid d => exact uncompleteHabit_agrees tz now s u hid d hs

/-- C26, as stated, fails. A habit is created and completed once; an update whose body
carries `isNew` and a fresh `_id` then makes `save()` insert the document as a new one.
The copy has `completionCount` and `streak` 1 and no ledger record carries its id. -/
theorem update_inserts_a_copy :
    (run (fixedZone 0) emptyStore
      [Call.create 7 1 [("name", JVal.str "run")],
       Call.complete 0 7 (IdParam.oid 1) (DateArg.instant 1704096000000),
       Call.update plainDocument 0 7 (IdParam.oid 1)
         [("isNew", JVal.num ⟨1, by decide⟩), ("_id", JVal.str "000000000000000000000002")]]).2 =
      { habits := [{ sampleHabit with completionCount := 1, streak := 1 },
                   { sampleHabit with _id := 2, completionCount := 1, streak := 1 }],
        completions := [{ habitId := 1, userId := 7, date := 1704067200000 }] } ∧
    recordCount
      { habits := [{ sampleHabit with completionCount := 1, streak := 1 },
                   { sampleHabit with _id := 2, completionCount := 1, streak := 1 }],
        completions := [{ habitId := 1, userId := 7, date := 1704067200000 }] } 2 = 0 := by
  decide

/-- C26 (counters and ledger agree), amended. In every store reached from the empty
store by a sequential run of `createHabit`, `updateHabit`, `completeHabit`,
`uncompleteHabit` and `deleteHabit` calls in which no update body has a key that
assigns `isNew`, every stored habit has `completionCount` equal to `streak` and equal
to the number of ledger records whose `habitId` is the habit's id. -/
theorem counters_match_ledger (tz : TimeZone) (calls : List Call) (h : Habit)
    (hcalls : ∀ c ∈ calls, c.updatesOld = true)
    (hmem : h ∈ (run tz emptyStore calls).2.habits) :
    h.completionCount = h.streak ∧
    h.completionCount = (recordCount (run tz emptyStore calls).2 h._id : Int) :=
  ((run_agrees tz calls emptyStore hcalls agrees_empty).1 h hmem).2

/-- A store reached in `springZone` by a creation, a completion and an update that
renames the habit and carries `_id`. -/
theorem counters_match_ledger_witness :
    ({ sampleHabit with name := "walk", completionCount := 1, streak := 1 } : Habit).completionCount =
      ({ sampleHabit with name := "walk", completionCount := 1, streak := 1 } : Habit).streak ∧
    ({ sampleHabit with name := "walk", completionCount := 1, streak := 1 } : Habit).completionCount =
      (recordCount (run springZone emptyStore
        [Call.create 7 1 [("name", JVal.str "run")],
         Call.complete 0 7 (IdParam.oid 1) (DateArg.instant 1711965600000),
         Call.update plainDocument 0 7 (IdParam.oid 1)
           [("name", JVal.str "walk"), ("_id", JVal.str "000000000000000000000001")]]).2
        ({ sampleHabit with name := "walk", completionCount := 1, streak := 1 } : Habit)._id : Int) :=
  counters_match_ledger springZone
    [Call.create 7 1 [("name", JVal.str "run")],
     Call.complete 0 7 (IdParam.oid 1) (DateArg.instant 1711965600000),
     Call.update plainDocument 0 7 (IdParam.oid 1)
       [("name", JVal.str "walk"), ("_id", JVal.str "000000000000000000000001")]]
    { sampleHabit with name := "walk", completionCount := 1, streak := 1 }
    (by decide) (by decide)

/-! ## Two calls for the same day (C21) -/

section SameDay

variable {tz : TimeZone} {s : Store} {H u : Nat} {d : Int} {h : Habit} {req : CompleteReq}

theorem step_start {store : Store} {x : Habit} (hid : req.habitId = IdParam.oid H)
    (hu : req.userId = u) (hf : findHabit store H u = some x) :
    stepComplete tz req store CallState.start = (CallState.loaded x, store) := by
  simp only [stepComplete, hid, hu, hf]

theorem step_insert {x : Habit} (hid : req.habitId = IdParam.oid H) (hu : req.userId = u)
    (hd : completionDate tz req.now req.date = some d) (hno : hasCompletion s H u d = false) :
    stepComplete tz req s (CallState.loaded x) = (CallState.inserted x, withRecord s H u d) := by
  simp only [stepComplete, hid, hu, hd, createCompletion, hno, Bool.false_eq_true, if_false,
    withRecord]

theorem step_repeat {store : Store} {x : Habit} (hid : req.habitId = IdParam.oid H)
    (hu : req.userId = u) (hd : completionDate tz req.now req.date = some d)
    (hyes : hasCompletion store H u d = true) :
    stepComplete tz req store (CallState.loaded x) = (CallState.done (repeatAnswer x), store) := by
  simp only [stepComplete, hid, hu, hd, createCompletion, hyes, if_true, repeatAnswer]

theorem step_save (hv : validName h.name = true) :
    stepComplete tz req (withRecord s H u d) (CallState.inserted h) =
      (CallState.done (freshAnswer h), withSave s H u d h) := by
  have hv1 : validName (bumped h).name = true := hv
  simp only [stepComplete, saveHabit]
  rw [if_pos hv]
  rfl

theorem step_done (store : Store) (r : Response) :
    stepComplete tz req store (CallState.done r) = (CallState.done r, store) := rfl

theorem has_withRecord (s : Store) (H u : Nat) (d : Int) :
    hasCompletion (withRecord s H u d) H u d = true := by
  simp [hasCompletion, withRecord]

theorem has_withSave (s : Store) (H u : Nat) (d : Int) (h : Habit) :
    hasCompletion (withSave s H u d h) H u d = true := by
  simp [hasCompletion, withSave]

theorem find_withSave (hf : findHabit s H u = some h) :
    findHabit (withSave s H u d h) H u = some (bumped h) := by
  obtain ⟨_, hi, hu⟩ := findHabit_some hf
  exact findHabit_after_save (bumped h) hf hi hu _

theorem keyCount_withSave (hno : hasCompletion s H u d = false) :
    keyCount (withSave s H u d h) H u d = 1 := by
  have h0 := keyCount_zero_of_not_has hno
  unfold keyCount at h0 ⊢
  simp only [withSave, List.filter_append, List.length_append, h0]
  simp

/-- A turn of the call that won the insert keeps the configuration reachable. -/
theorem won_step_winner (hv : validName h.name = true) {store : Store} {w l : CallState}
    (hw : Won s H u d h store w l) :
    Won s H u d h (stepComplete tz req store w).2 (stepComplete tz req store w).1 l := by
  rcases hw with ⟨hs, hw, hl⟩ | ⟨hs, hw, hl⟩
  · subst hs hw
    rw [step_save hv]
    refine Or.inr ⟨rfl, rfl, ?_⟩
    rcases hl with hl | hl | hl
    · exact Or.inl hl
    · exact Or.inr (Or.inl hl)
    · exact Or.inr (Or.inr (Or.inr (Or.inl hl)))
  · subst hs hw
    rw [step_done]
    exact Or.inr ⟨rfl, rfl, hl⟩

/-- A turn of the call that lost the insert keeps the configuration reachable. -/
theorem won_step_loser (hid : req.habitId = IdParam.oid H) (hu : req.userId = u)
    (hd : completionDate tz req.now req.date = some d) (hf : findHabit s H u = some h)
    {store : Store} {w l : CallState} (hw : Won s H u d h store w l) :
    Won s H u d h (stepComplete tz req store l).2 w (stepComplete tz req store l).1 := by
  rcases hw with ⟨hs, hw, hl⟩ | ⟨hs, hw, hl⟩
  · subst hs hw
    have hf1 : findHabit (withRecord s H u d) H u = some h := hf
    rcases hl with hl | hl | hl
    · subst hl
      rw [step_start hid hu hf1]
      exact Or.inl ⟨rfl, rfl, Or.inr (Or.inl rfl)⟩
    · subst hl
      rw [step_repeat hid hu hd (has_withRecord s H u d)]
      exact Or.inl ⟨rfl, rfl, Or.inr (Or.inr rfl)⟩
    · subst hl
      rw [step_done]
      exact Or.inl ⟨rfl, rfl, Or.inr (Or.inr rfl)⟩
  · subst hs hw
    rcases hl with hl | hl | hl | hl | hl
    · subst hl
      rw [step_start hid hu (find_withSave hf)]
      exact Or.inr ⟨rfl, rfl, Or.inr (Or.inr (Or.inl rfl))⟩
    · subst hl
      rw [step_repeat hid hu hd (has_withSave s H u d h)]
      exact Or.inr ⟨rfl, rfl, Or.inr (Or.inr (Or.inr (Or.inl rfl)))⟩
    · subst hl
      rw [step_repeat hid hu hd (has_withSave s H u d h)]
      exact Or.inr ⟨rfl, rfl, Or.inr (Or.inr (Or.inr (Or.inr rfl)))⟩
    · subst hl
      rw [step_done]
      exact Or.inr ⟨rfl, rfl, Or.inr (Or.inr (Or.inr (Or.inl rfl)))⟩
    · subst hl
      rw [step_done]
      exact Or.inr ⟨rfl, rfl, Or.inr (Or.inr (Or.inr (Or.inr rfl)))⟩

/-- A turn of a call before any insert: it loads the habit, or it wins the insert. -/
theorem early_step (hid : req.habitId = IdParam.oid H) (hu : req.userId = u)
    (hd : completionDate tz req.now req.date = some d) (hf : findHabit s H u = some h)
    (hno : hasCompletion s H u d = false) {p q : CallState}
    (hp : p = CallState.start ∨ p = CallState.loaded h)
    (hq : q = CallState.start ∨ q = CallState.loaded h) :
    ((stepComplete tz req s p).2 = s ∧
      ((stepComplete tz req s p).1 = CallState.start ∨
        (stepComplete tz req s p).1 = CallState.loaded h)) ∨
    Won s H u d h (stepComplete tz req s p).2 (stepComplete tz req s p).1 q := by
  rcases hp with hp | hp
  · subst hp
    rw [step_start hid hu hf]
    exact Or.inl ⟨rfl, Or.inr rfl⟩
  · subst hp
    rw [step_insert hid hu hd hno]
    refine Or.inr (Or.inl ⟨rfl, rfl, ?_⟩)
    rcases hq with hq | hq
    · exact Or.inl hq
    · exact Or.inr (Or.inl hq)

end SameDay

theorem reach_step {tz : TimeZone} {s : Store} {H u : Nat} {d : Int} {h : Habit}
    {reqA reqB : CompleteReq}
    (hidA : reqA.habitId = IdParam.oid H) (huA : reqA.userId = u)
    (hdA : completionDate tz reqA.now reqA.date = some d)
    (hidB : reqB.habitId = IdParam.oid H) (huB : reqB.userId = u)
    (hdB : completionDate tz reqB.now reqB.date = some d)
    (hf : findHabit s H u = some h) (hv : validName h.name = true)
    (hno : hasCompletion s H u d = false) (c : Duo) (first : Bool)
    (hc : Reach s H u d h c) : Reach s H u d h (stepDuo tz reqA reqB c first) := by
  cases first
  · -- a turn of the second call
    simp only [stepDuo, Bool.false_eq_true, if_false]
    rcases hc with ⟨hs, ha, hb⟩ | hw | hw
    · rw [hs]
      rcases early_step hidB huB hdB hf hno hb ha with ⟨h1, h2⟩ | h1
      · exact Or.inl ⟨h1, ha, h2⟩
      · exact Or.inr (Or.inr h1)
    · exact Or.inr (Or.inl (won_step_loser hidB huB hdB hf hw))
    · exact Or.inr (Or.inr (won_step_winner hv hw))
  · -- a turn of the first call
    simp only [stepDuo, if_true]
    rcases hc with ⟨hs, ha, hb⟩ | hw | hw
    · rw [hs]
      rcases early_step hidA huA hdA hf hno ha hb with ⟨h1, h2⟩ | h1
      · exact Or.inl ⟨h1, h2, hb⟩
      · exact Or.inr (Or.inl h1)
    · exact Or.inr (Or.inl (won_step_winner hv hw))
    · exact Or.inr (Or.inr (won_step_loser hidA huA hdA hf hw))

theorem reach_fold {tz : TimeZone} {s : Store} {H u : Nat} {d : Int} {h : Habit}
    {reqA reqB : CompleteReq}
    (hidA : reqA.habitId = IdParam.oid H) (huA : reqA.userId = u)
    (hdA : completionDate tz reqA.now reqA.date = some d)
    (hidB : reqB.habitId = IdParam.oid H) (huB : reqB.userId = u)
    (hdB : completionDate tz reqB.now reqB.date = some d)
    (hf : findHabit s H u = some h) (hv : validName h.name = true)
    (hno : hasCompletion s H u d = false) (schedule : List Bool) (c : Duo)
    (hc : Reach s H u d h c) :
    Reach s H u d h (schedule.foldl (stepDuo tz reqA reqB) c) := by
  induction schedule generalizing c with
  | nil => exact hc
  | cons t ts ih =>
    rw [List.foldl_cons]
    exact ih _ (reach_step hidA huA hdA hidB huB hdB hf hv hno c t hc)

theorem rank_step (tz : TimeZone) (req : CompleteReq) (store : Store) (p : CallState) :
    min 3 (p.rank + 1) ≤ (stepComplete tz req store p).1.rank := by
  cases p with
  | start =>
    simp only [stepComplete]
    split
    · simp [CallState.rank]
    · split <;> simp [CallState.rank]
  | loaded x =>
    simp only [stepComplete]
    split
    · simp [CallState.rank]
    · split <;> simp [CallState.rank]
  | inserted x =>
    simp only [stepComplete]
    split <;> simp [CallState.rank]
  | done r => simp [stepComplete, CallState.rank]

theorem rank_fold (tz : TimeZone) (reqA reqB : CompleteReq) (schedule : List Bool) (c : Duo) :
    min 3 (c.a.rank + schedule.count true) ≤
        (schedule.foldl (stepDuo tz reqA reqB) c).a.rank ∧
      min 3 (c.b.rank + schedule.count false) ≤
        (schedule.foldl (stepDuo tz reqA reqB) c).b.rank := by
  induction schedule generalizing c with
  | nil => simp
  | cons t ts ih =>
    rw [List.foldl_cons]
    have ih1 := ih (stepDuo tz reqA reqB c t)
    cases t
    · have hb := rank_step tz reqB c.store c.b
      simp only [stepDuo, Bool.false_eq_true, if_false] at ih1 ⊢
      simp only [List.count_cons, beq_self_eq_true, if_true] at ih1 ⊢
      simp only [show (false == true) = false from rfl, Bool.false_eq_true, if_false,
        Nat.add_zero] at ih1 ⊢
      omega
    · have ha := rank_step tz reqA c.store c.a
      simp only [stepDuo, if_true] at ih1 ⊢
      simp only [List.count_cons, beq_self_eq_true, if_true] at ih1 ⊢
      simp only [show (true == false) = false from rfl, Bool.false_eq_true, if_false,
        Nat.add_zero] at ih1 ⊢
      omega

theorem rank_three {p : CallState} (hp : 3 ≤ p.rank) : ∃ r, p = CallState.done r := by
  cases p with
  | start => simp [CallState.rank] at hp
  | loaded x => simp [CallState.rank] at hp
  | inserted x => simp [CallState.rank] at hp
  | done r => exact ⟨r, rfl⟩

/-- The end of a race: the store holds one record and the saved habit, the winner gave
the fresh answer and the other call a repeat answer. -/
theorem won_done {s : Store} {H u : Nat} {d : Int} {h : Habit} {store : Store}
    {w l : CallState} (hw : Won s H u d h store w l) (hl : ∃ r, l = CallState.done r)
    (hwd : ∃ r, w = CallState.done r) :
    store = withSave s H u d h ∧ w = CallState.done (freshAnswer h) ∧
      (l = CallState.done (repeatAnswer h) ∨ l = CallState.done (repeatAnswer (bumped h))) := by
  obtain ⟨r, hr⟩ := hl
  obtain ⟨rw, hrw⟩ := hwd
  rcases hw with ⟨_, hw, _⟩ | ⟨hs, hw, hl⟩
  · rw [hrw] at hw
    cases hw
  · refine ⟨hs, hw, ?_⟩
    subst hr
    rcases hl with hl | hl | hl | hl | hl
    · cases hl
    · cases hl
    · cases hl
    · exact Or.inl hl
    · exact Or.inr hl

/-- C21. Two `completeHabit` calls for the same habit and the same day, the habit stored
with a valid name and no record for that day, take their turns (load, insert, save) in
any order in which each call gets its three turns. Then exactly one record is added to
the ledger and it is the only one for the day, one call answers with the incremented
counters and the other with `completedToday` true as well, both with status 200, and the
stored `completionCount` and `streak` are one above the loaded ones. -/
theorem concurrent_same_day_counts_once (tz : TimeZone) (s : Store) (H u : Nat) (h : Habit)
    (d : Int) (nowA nowB : Int) (dateA dateB : DateArg) (schedule : List Bool)
    (hf : findHabit s H u = some h) (hv : validName h.name = true)
    (hno : hasCompletion s H u d = false)
    (hdA : completionDate tz nowA dateA = some d)
    (hdB : completionDate tz nowB dateB = some d)
    (hta : 3 ≤ schedule.count true) (htb : 3 ≤ schedule.count false) :
    let c := runDuo tz
      { now := nowA, userId := u, habitId := IdParam.oid H, date := dateA }
      { now := nowB, userId := u, habitId := IdParam.oid H, date := dateB } s schedule
    c.store.completions = s.completions ++ [{ habitId := H, userId := u, date := d }] ∧
    keyCount c.store H u d = 1 ∧
    (∃ ca ka, c.a = CallState.done (Response.success 200 (Payload.counters ca true ka))) ∧
    (∃ cb kb, c.b = CallState.done (Response.success 200 (Payload.counters cb true kb))) ∧
    (c.a = CallState.done
        (Response.success 200 (Payload.counters (h.completionCount + 1) true (h.streak + 1))) ∨
      c.b = CallState.done
        (Response.success 200 (Payload.counters (h.completionCount + 1) true (h.streak + 1)))) ∧
    findHabit c.store H u =
      some { h with completionCount := h.completionCount + 1, streak := h.streak + 1 } := by
  intro c
  have hreach : Reach s H u d h c :=
    @reach_fold tz s H u d h
      { now := nowA, userId := u, habitId := IdParam.oid H, date := dateA }
      { now := nowB, userId := u, habitId := IdParam.oid H, date := dateB }
      rfl rfl hdA rfl rfl hdB hf hv hno schedule
      { store := s, a := CallState.start, b := CallState.start }
      (Or.inl ⟨rfl, Or.inl rfl, Or.inl rfl⟩)
  have hrank := rank_fold tz
      { now := nowA, userId := u, habitId := IdParam.oid H, date := dateA }
      { now := nowB, userId := u, habitId := IdParam.oid H, date := dateB } schedule
      { store := s, a := CallState.start, b := CallState.start }
  have hda : ∃ r, c.a = CallState.done r := by
    apply rank_three
    have := hrank.1
    simp only [CallState.rank] at this
    exact le_trans (by omega) this
  have hdb : ∃ r, c.b = CallState.done r := by
    apply rank_three
    have := hrank.2
    simp only [CallState.rank] at this
    exact le_trans (by omega) this
  have hb1 : bumped h =
      { h with completionCount := h.completionCount + 1, streak := h.streak + 1 } := by
    simp only [bumped, increment_eq]
  have hfresh : freshAnswer h =
      Response.success 200 (Payload.counters (h.completionCount + 1) true (h.streak + 1)) := by
    simp only [freshAnswer, successResponse, bumped, increment_eq]
  rcases hreach with ⟨_, ha, _⟩ | hw | hw
  · obtain ⟨r, hr⟩ := hda
    rw [hr] at ha
    rcases ha with ha | ha <;> cases ha
  · obtain ⟨hs, hwa, hlb⟩ := won_done hw hdb hda
    refine ⟨by rw [hs]; rfl, by rw [hs]; exact keyCount_withSave hno,
      ⟨_, _, by rw [hwa, hfresh]⟩, ?_, Or.inl (by rw [hwa, hfresh]),
      by rw [hs, find_withSave hf, hb1]⟩
    rcases hlb with hlb | hlb
    · exact ⟨_, _, by rw [hlb]; rfl⟩
    · exact ⟨_, _, by rw [hlb]; rfl⟩
  · obtain ⟨hs, hwb, hla⟩ := won_done hw hda hdb
    refine ⟨by rw [hs]; rfl, by rw [hs]; exact keyCount_withSave hno, ?_,
      ⟨_, _, by rw [hwb, hfresh]⟩, Or.inr (by rw [hwb, hfresh]),
      by rw [hs, find_withSave hf, hb1]⟩
    rcases hla with hla | hla
    · exact ⟨_, _, by rw [hla]; rfl⟩
    · exact ⟨_, _, by rw [hla]; rfl⟩


/-- Two calls for `sampleHabit` on 2024-01-01 (UTC), the second inserting between the
load and the insert of the first: the second call wins, the ledger gets one record and
the stored counters are 1. -/
theorem concurrent_same_day_counts_once_witness :
    (runDuo (fixedZone 0)
        { now := 0, userId := 7, habitId := IdParam.oid 1, date := DateArg.instant 1704096000000 }
        { now := 0, userId := 7, habitId := IdParam.oid 1, date := DateArg.instant 1704139200000 }
        sampleStore [true, false, false, true, true, false]).store.completions =
      sampleStore.completions ++ [{ habitId := 1, userId := 7, date := 1704067200000 }] ∧
    findHabit (runDuo (fixedZone 0)
        { now := 0, userId := 7, habitId := IdParam.oid 1, date := DateArg.instant 1704096000000 }
        { now := 0, userId := 7, habitId := IdParam.oid 1, date := DateArg.instant 1704139200000 }
        sampleStore [true, false, false, true, true, false]).store 1 7 =
      some { sampleHabit with
        completionCount := sampleHabit.completionCount + 1, streak := sampleHabit.streak + 1 } :=
  have w := concurrent_same_day_counts_once (fixedZone 0) sampleStore 1 7 sampleHabit
    1704067200000 0 0 (DateArg.instant 1704096000000) (DateArg.instant 1704139200000)
    [true, false, false, true, true, false]
    (by decide) (by decide) (by decide) (by decide) (by decide) (by decide) (by decide)
  ⟨w.1, w.2.2.2.2.2⟩

/-- One call taking its three turns alone is the handler `completeHabit`. -/
theorem three_turns_alone (tz : TimeZone) (req : CompleteReq) (s : Store) :
    stepComplete tz req
        (stepComplete tz req (stepComplete tz req s CallState.start).2
          (stepComplete tz req s CallState.start).1).2
        (stepComplete tz req (stepComplete tz req s CallState.start).2
          (stepComplete tz req s CallState.start).1).1 =
      (CallState.done (completeHabit tz req.now s req.userId req.habitId req.date).1,
        (completeHabit tz req.now s req.userId req.habitId req.date).2) := by
  cases hid : req.habitId with
  | malformed => simp only [stepComplete, completeHabit, hid]
  | oid hid0 =>
    cases hfh : findHabit s hid0 req.userId with
    | none => simp only [stepComplete, completeHabit, hid, hfh]
    | some habit =>
      cases hc : createCompletion s hid0 req.userId (completionDate tz req.now req.date) with
      | duplicateKey => simp only [stepComplete, completeHabit, hid, hfh, hc]
      | validationError => simp only [stepComplete, completeHabit, hid, hfh, hc]
      | created s1 =>
        cases hsv : saveHabit s1
          { habit with
            completionCount := increment habit.completionCount
            streak := increment habit.streak } with
        | none => simp only [stepComplete, completeHabit, hid, hfh, hc, hsv]
        | some s2 => simp only [stepComplete, completeHabit, hid, hfh, hc, hsv]

/-! ## Two calls for different days (C22) -/

/-- C22, as stated, fails. Two `completeHabit` calls for `sampleHabit` (counters 0), for
2024-01-01 and 2024-03-01, take their turns alternately: both load the habit with
counters 0, both inserts succeed, and each save writes counters 1. The ledger holds
two records and the stored `completionCount` and `streak` are 1, not 2. Run one after
the other, the same calls leave counters 2. -/
theorem concurrent_completions_lose_an_update :
    runDuo (fixedZone 0)
        { now := 0, userId := 7, habitId := IdParam.oid 1, date := DateArg.instant 1704096000000 }
        { now := 0, userId := 7, habitId := IdParam.oid 1, date := DateArg.instant 1709280000000 }
        sampleStore [true, false, true, false, true, false] =
      { store :=
          { habits := [{ sampleHabit with completionCount := 1, streak := 1 }],
            completions := [{ habitId := 1, userId := 7, date := 1704067200000 },
                            { habitId := 1, userId := 7, date := 1709251200000 }] },
        a := CallState.done (Response.success 200 (Payload.counters 1 true 1)),
        b := CallState.done (Response.success 200 (Payload.counters 1 true 1)) } ∧
    (runDuo (fixedZone 0)
        { now := 0, userId := 7, habitId := IdParam.oid 1, date := DateArg.instant 1704096000000 }
        { now := 0, userId := 7, habitId := IdParam.oid 1, date := DateArg.instant 1709280000000 }
        sampleStore [true, true, true, false, false, false]).store =
      { habits := [{ sampleHabit with completionCount := 2, streak := 2 }],
        completions := [{ habitId := 1, userId := 7, date := 1704067200000 },
                        { habitId := 1, userId := 7, date := 1709251200000 }] } := by
  decide

/-! ## Two calls for different days: what every schedule gives (C22) -/

section OtherDay

variable {tz : TimeZone} {s : Store} {H u : Nat} {h : Habit} {req : CompleteReq}

theorem step_save_any {store : Store} {x : Habit} (hv : validName x.name = true) :
    stepComplete tz req store (CallState.inserted x) =
      (CallState.done (freshAnswer x),
       { habits := store.habits.map (fun y => if y._id == (bumped x)._id then bumped x else y),
         completions := store.completions }) := by
  have hv1 : validName (bumped x).name = true := hv
  simp only [stepComplete, saveHabit]
  rw [if_pos hv]
  rfl

theorem recordsOf_swap {dA dB : Int} {a b : CallState} {recs : List HabitCompletion}
    (hr : RecordsOf H u dA dB a b recs) : RecordsOf H u dB dA b a recs := by
  rcases hr with ⟨h1, h2, h3⟩ | ⟨h1, h2, h3⟩ | ⟨h1, h2, h3⟩ | ⟨h1, h2, h3 | h3⟩
  · exact Or.inl ⟨h2, h1, h3⟩
  · exact Or.inr (Or.inr (Or.inl ⟨h2, h1, h3⟩))
  · exact Or.inr (Or.inl ⟨h2, h1, h3⟩)
  · exact Or.inr (Or.inr (Or.inr ⟨h2, h1, Or.inr h3⟩))
  · exact Or.inr (Or.inr (Or.inr ⟨h2, h1, Or.inl h3⟩))

theorem countersOf_swap {cur : Option Habit} {a b : CallState}
    (hc : CountersOf h cur a b) : CountersOf h cur b a := by
  rcases hc with ⟨h1, h2, h3⟩ | ⟨h1, h2, h3⟩ | ⟨h1, h2, h3⟩ | ⟨h1, h2, h3⟩ | ⟨h1, h2, h3⟩ |
    ⟨h1, h2, h3⟩
  · exact Or.inl ⟨h1, h3, h2⟩
  · exact Or.inr (Or.inr (Or.inl ⟨h1, h2, h3⟩))
  · exact Or.inr (Or.inl ⟨h1, h2, h3⟩)
  · exact Or.inr (Or.inr (Or.inr (Or.inl ⟨h1, h3, h2⟩)))
  · exact Or.inr (Or.inr (Or.inr (Or.inr (Or.inr ⟨h1, h3, h2⟩))))
  · exact Or.inr (Or.inr (Or.inr (Or.inr (Or.inl ⟨h1, h3, h2⟩))))

/-- A call that has not inserted finds no record of its day. -/
theorem has_of_records {store : Store} {dX dY : Int} {x y : CallState}
    {recs : List HabitCompletion} (hne : dX ≠ dY)
    (hno : hasCompletion s H u dX = false)
    (hcomp : store.completions = s.completions ++ recs)
    (hrecs : RecordsOf H u dX dY x y recs) (hx : x.hasInserted = false) :
    hasCompletion store H u dX = false := by
  unfold hasCompletion at hno ⊢
  rw [hcomp, List.any_append, hno, Bool.false_or]
  rcases hrecs with ⟨_, _, e⟩ | ⟨h1, _, _⟩ | ⟨_, _, e⟩ | ⟨h1, _, _⟩
  · rw [e]; rfl
  · rw [hx] at h1; cases h1
  · rw [e]
    have : (dY == dX) = false := by simpa using hne.symm
    simp [this]
  · rw [hx] at h1; cases h1

/-- The call that moves is in a state before its save, loaded from `cur` or earlier. -/
theorem before_cases {cur : Option Habit} {x y : CallState} (hc : CountersOf h cur x y)
    (hxd : ∀ r, x ≠ CallState.done r) :
    (cur = some h ∧ Before h x ∧ Before h y) ∨
    (cur = some (bumped h) ∧ y = CallState.done (freshAnswer h) ∧
      (Before h x ∨ Before (bumped h) x)) := by
  rcases hc with ⟨h1, h2, h3⟩ | ⟨_, h2, _⟩ | ⟨h1, h2, h3⟩ | ⟨_, h2, _⟩ | ⟨_, h2, _⟩ | ⟨_, h2, _⟩
  · exact Or.inl ⟨h1, h2, h3⟩
  · exact absurd h2 (hxd _)
  · exact Or.inr ⟨h1, h2, h3⟩
  · exact absurd h2 (hxd _)
  · exact absurd h2 (hxd _)
  · exact absurd h2 (hxd _)

/-- One turn of the first call keeps the description of ledger and counters. -/
theorem other_day_step (hid : req.habitId = IdParam.oid H) (hu : req.userId = u)
    {dX dY : Int} (hd : completionDate tz req.now req.date = some dX) (hne : dX ≠ dY)
    (hf : findHabit s H u = some h) (hv : validName h.name = true)
    (hno : hasCompletion s H u dX = false)
    {store : Store} {x y : CallState} {recs : List HabitCompletion}
    (hcomp : store.completions = s.completions ++ recs)
    (hrecs : RecordsOf H u dX dY x y recs)
    (hc : CountersOf h (findHabit store H u) x y) :
    (∃ recs1, (stepComplete tz req store x).2.completions = s.completions ++ recs1 ∧
      RecordsOf H u dX dY (stepComplete tz req store x).1 y recs1) ∧
    CountersOf h (findHabit (stepComplete tz req store x).2 H u) (stepComplete tz req store x).1 y := by
  obtain ⟨_, hhid, hhu⟩ := findHabit_some hf
  cases x with
  | done r =>
    rw [step_done]
    exact ⟨⟨recs, hcomp, hrecs⟩, hc⟩
  | start =>
    rcases before_cases hc (fun r e => by cases e) with ⟨hcur, _, hy⟩ | ⟨hcur, hy, _⟩
    · rw [step_start hid hu hcur]
      refine ⟨⟨recs, hcomp, hrecs⟩, Or.inl ⟨hcur, Or.inr (Or.inl rfl), hy⟩⟩
    · rw [step_start hid hu hcur]
      refine ⟨⟨recs, hcomp, hrecs⟩,
        Or.inr (Or.inr (Or.inl ⟨hcur, hy, Or.inr (Or.inr (Or.inl rfl))⟩))⟩
  | loaded v =>
    have hhas := has_of_records hne hno hcomp hrecs rfl
    rw [step_insert hid hu hd hhas]
    constructor
    · refine ⟨recs ++ [{ habitId := H, userId := u, date := dX }], ?_, ?_⟩
      · simp only [withRecord, hcomp, List.append_assoc]
      · rcases hrecs with ⟨_, h2, e⟩ | ⟨h1, _, _⟩ | ⟨_, h2, e⟩ | ⟨h1, _, _⟩
        · exact Or.inr (Or.inl ⟨rfl, h2, by rw [e]; rfl⟩)
        · cases h1
        · exact Or.inr (Or.inr (Or.inr ⟨rfl, h2, Or.inr (by rw [e]; rfl)⟩))
        · cases h1
    · have hsame : findHabit (withRecord store H u dX) H u = findHabit store H u := rfl
      rw [hsame]
      rcases before_cases hc (fun r e => by cases e) with ⟨hcur, hx, hy⟩ | ⟨hcur, hy, hx⟩
      · rcases hx with e | e | e
        · cases e
        · cases e
          exact Or.inl ⟨hcur, Or.inr (Or.inr rfl), hy⟩
        · cases e
      · refine Or.inr (Or.inr (Or.inl ⟨hcur, hy, ?_⟩))
        rcases hx with hx | hx
        · rcases hx with e | e | e
          · cases e
          · cases e
            exact Or.inl (Or.inr (Or.inr rfl))
          · cases e
        · rcases hx with e | e | e
          · cases e
          · cases e
            exact Or.inr (Or.inr (Or.inr rfl))
          · cases e
  | inserted v =>
    have hsaved : ∀ w : Habit, w._id = H → w.userId = u → validName w.name = true →
        (∃ c0, findHabit store H u = some c0) →
        v = w →
        (stepComplete tz req store (CallState.inserted v)).1 = CallState.done (freshAnswer w) ∧
        (stepComplete tz req store (CallState.inserted v)).2.completions = store.completions ∧
        findHabit (stepComplete tz req store (CallState.inserted v)).2 H u = some (bumped w) := by
      intro w hwid hwu hwv hcur e
      subst e
      obtain ⟨c0, hc0⟩ := hcur
      rw [step_save_any hwv]
      exact ⟨rfl, rfl, findHabit_after_save (bumped v) hc0 hwid hwu _⟩
    have hb : (bumped h)._id = H ∧ (bumped h).userId = u ∧ validName (bumped h).name = true :=
      ⟨hhid, hhu, hv⟩
    have hrec1 : ∀ p, p.hasInserted = true →
        RecordsOf H u dX dY (CallState.inserted v) y recs → RecordsOf H u dX dY p y recs := by
      intro p hp hr
      rcases hr with ⟨h1, _, _⟩ | ⟨_, h2, e⟩ | ⟨h1, _, _⟩ | ⟨_, h2, e⟩
      · cases h1
      · exact Or.inr (Or.inl ⟨hp, h2, e⟩)
      · cases h1
      · exact Or.inr (Or.inr (Or.inr ⟨hp, h2, e⟩))
    rcases before_cases hc (fun r e => by cases e) with ⟨hcur, hx, hy⟩ | ⟨hcur, hy, hx⟩
    · have hvh : v = h := by
        rcases hx with e | e | e
        · cases e
        · cases e
        · cases e; rfl
      obtain ⟨e1, e2, e3⟩ := hsaved h hhid hhu hv ⟨_, hcur⟩ hvh
      rw [e1, e2, e3]
      exact ⟨⟨recs, hcomp, hrec1 _ rfl hrecs⟩, Or.inr (Or.inl ⟨rfl, rfl, Or.inl hy⟩)⟩
    · rcases hx with hx | hx
      · have hvh : v = h := by
          rcases hx with e | e | e
          · cases e
          · cases e
          · cases e; rfl
        obtain ⟨e1, e2, e3⟩ := hsaved h hhid hhu hv ⟨_, hcur⟩ hvh
        rw [e1, e2, e3]
        exact ⟨⟨recs, hcomp, hrec1 _ rfl hrecs⟩,
          Or.inr (Or.inr (Or.inr (Or.inl ⟨rfl, rfl, hy⟩)))⟩
      · have hvh : v = bumped h := by
          rcases hx with e | e | e
          · cases e
          · cases e
          · cases e; rfl
        obtain ⟨e1, e2, e3⟩ := hsaved (bumped h) hb.1 hb.2.1 hb.2.2 ⟨_, hcur⟩ hvh
        rw [e1, e2, e3]
        exact ⟨⟨recs, hcomp, hrec1 _ rfl hrecs⟩,
          Or.inr (Or.inr (Or.inr (Or.inr (Or.inr ⟨rfl, rfl, hy⟩))))⟩

end OtherDay

/-- The description of ledger and counters holds after every schedule. -/
theorem other_day_fold {tz : TimeZone} {s : Store} {H u : Nat} {h : Habit} {dA dB : Int}
    {reqA reqB : CompleteReq}
    (hidA : reqA.habitId = IdParam.oid H) (huA : reqA.userId = u)
    (hdA : completionDate tz reqA.now reqA.date = some dA)
    (hidB : reqB.habitId = IdParam.oid H) (huB : reqB.userId = u)
    (hdB : completionDate tz reqB.now reqB.date = some dB)
    (hne : dA ≠ dB) (hf : findHabit s H u = some h) (hv : validName h.name = true)
    (hnoA : hasCompletion s H u dA = false) (hnoB : hasCompletion s H u dB = false)
    (schedule : List Bool) (c : Duo)
    (hc : (∃ recs, c.store.completions = s.completions ++ recs ∧
        RecordsOf H u dA dB c.a c.b recs) ∧
      CountersOf h (findHabit c.store H u) c.a c.b) :
    (∃ recs, (schedule.foldl (stepDuo tz reqA reqB) c).store.completions =
        s.completions ++ recs ∧
      RecordsOf H u dA dB (schedule.foldl (stepDuo tz reqA reqB) c).a
        (schedule.foldl (stepDuo tz reqA reqB) c).b recs) ∧
    CountersOf h (findHabit (schedule.foldl (stepDuo tz reqA reqB) c).store H u)
      (schedule.foldl (stepDuo tz reqA reqB) c).a (schedule.foldl (stepDuo tz reqA reqB) c).b := by
  induction schedule generalizing c with
  | nil => exact hc
  | cons t ts ih =>
    rw [List.foldl_cons]
    apply ih
    obtain ⟨⟨recs, hcomp, hrecs⟩, hcnt⟩ := hc
    cases t
    · simp only [stepDuo, Bool.false_eq_true, if_false]
      obtain ⟨⟨recs1, h1, h2⟩, h3⟩ := other_day_step hidB huB hdB (Ne.symm hne) hf hv hnoB hcomp
        (recordsOf_swap hrecs) (countersOf_swap hcnt)
      exact ⟨⟨recs1, h1, recordsOf_swap h2⟩, countersOf_swap h3⟩
    · simp only [stepDuo, if_true]
      exact other_day_step hidA huA hdA hne hf hv hnoA hcomp hrecs hcnt

theorem bumped_twice (h : Habit) :
    bumped (bumped h) =
      { h with completionCount := h.completionCount + 2, streak := h.streak + 2 } := by
  simp only [bumped, increment_eq, add_assoc]
  rfl

theorem bumped_once (h : Habit) :
    bumped h = { h with completionCount := h.completionCount + 1, streak := h.streak + 1 } := by
  simp only [bumped, increment_eq]

/-- C22, amended. Two `completeHabit` calls for the same habit and two different days,
the habit stored with a valid name and no record for either day, take their turns
(load, insert, save) in any order in which each call gets its three turns. Then both
records are added to the ledger, both calls answer 200 with `completedToday` true, and
the stored `completionCount` and `streak` end one or two above the loaded ones: each
save writes what its call loaded plus one. When one call takes its three turns before
the other starts, they end two above. -/
theorem concurrent_other_day_counts (tz : TimeZone) (s : Store) (H u : Nat) (h : Habit)
    (dA dB : Int) (nowA nowB : Int) (dateA dateB : DateArg) (schedule : List Bool)
    (hf : findHabit s H u = some h) (hv : validName h.name = true)
    (hnoA : hasCompletion s H u dA = false) (hnoB : hasCompletion s H u dB = false)
    (hdA : completionDate tz nowA dateA = some dA)
    (hdB : completionDate tz nowB dateB = some dB) (hne : dA ≠ dB)
    (hta : 3 ≤ schedule.count true) (htb : 3 ≤ schedule.count false) :
    let c := runDuo tz
      { now := nowA, userId := u, habitId := IdParam.oid H, date := dateA }
      { now := nowB, userId := u, habitId := IdParam.oid H, date := dateB } s schedule
    (c.store.completions = s.completions ++
        [{ habitId := H, userId := u, date := dA }, { habitId := H, userId := u, date := dB }] ∨
      c.store.completions = s.completions ++
        [{ habitId := H, userId := u, date := dB }, { habitId := H, userId := u, date := dA }]) ∧
    (∃ ca ka, c.a = CallState.done (Response.success 200 (Payload.counters ca true ka))) ∧
    (∃ cb kb, c.b = CallState.done (Response.success 200 (Payload.counters cb true kb))) ∧
    (findHabit c.store H u =
        some { h with completionCount := h.completionCount + 1, streak := h.streak + 1 } ∨
      findHabit c.store H u =
        some { h with completionCount := h.completionCount + 2, streak := h.streak + 2 }) ∧
    findHabit (runDuo tz
        { now := nowA, userId := u, habitId := IdParam.oid H, date := dateA }
        { now := nowB, userId := u, habitId := IdParam.oid H, date := dateB } s
        [true, true, true, false, false, false]).store H u =
      some { h with completionCount := h.completionCount + 2, streak := h.streak + 2 } := by
  intro c
  obtain ⟨_, hhid, hhu⟩ := findHabit_some hf
  have hinv := @other_day_fold tz s H u h dA dB
      { now := nowA, userId := u, habitId := IdParam.oid H, date := dateA }
      { now := nowB, userId := u, habitId := IdParam.oid H, date := dateB }
      rfl rfl hdA rfl rfl hdB hne hf hv hnoA hnoB schedule
      { store := s, a := CallState.start, b := CallState.start }
      ⟨⟨[], by simp, Or.inl ⟨rfl, rfl, rfl⟩⟩, Or.inl ⟨hf, Or.inl rfl, Or.inl rfl⟩⟩
  have hrank := rank_fold tz
      { now := nowA, userId := u, habitId := IdParam.oid H, date := dateA }
      { now := nowB, userId := u, habitId := IdParam.oid H, date := dateB } schedule
      { store := s, a := CallState.start, b := CallState.start }
  have hda : ∃ r, c.a = CallState.done r := by
    apply rank_three
    have := hrank.1
    simp only [CallState.rank] at this
    exact le_trans (by omega) this
  have hdb : ∃ r, c.b = CallState.done r := by
    apply rank_three
    have := hrank.2
    simp only [CallState.rank] at this
    exact le_trans (by omega) this
  obtain ⟨⟨recs, hcomp, hrecs⟩, hcnt⟩ : (∃ recs, c.store.completions = s.completions ++ recs ∧
      RecordsOf H u dA dB c.a c.b recs) ∧ CountersOf h (findHabit c.store H u) c.a c.b := hinv
  obtain ⟨ra, hra⟩ := hda
  obtain ⟨rb, hrb⟩ := hdb
  have hf1 : freshAnswer h =
      Response.success 200 (Payload.counters (h.completionCount + 1) true (h.streak + 1)) := by
    simp only [freshAnswer, successResponse, bumped, increment_eq]
  have hf2 : freshAnswer (bumped h) = Response.success 200
      (Payload.counters (h.completionCount + 1 + 1) true (h.streak + 1 + 1)) := by
    simp only [freshAnswer, successResponse, bumped, increment_eq]
  refine ⟨?_, ?_, ?_, ?_, ?_⟩
  · rw [hra, hrb] at hrecs
    rcases hrecs with ⟨h1, _, _⟩ | ⟨_, h2, _⟩ | ⟨h1, _, _⟩ | ⟨_, _, e | e⟩
    · cases h1
    · cases h2
    · cases h1
    · exact Or.inl (by rw [hcomp, e])
    · exact Or.inr (by rw [hcomp, e])
  · rcases hcnt with ⟨_, h2, _⟩ | ⟨_, h2, _⟩ | ⟨_, _, h2⟩ | ⟨_, h2, _⟩ | ⟨_, h2, _⟩ | ⟨_, h2, _⟩
    · rw [hra] at h2
      rcases h2 with e | e | e <;> cases e
    · exact ⟨_, _, by rw [h2, hf1]⟩
    · rw [hra] at h2
      rcases h2 with h2 | h2 <;> rcases h2 with e | e | e <;> cases e
    · exact ⟨_, _, by rw [h2, hf1]⟩
    · exact ⟨_, _, by rw [h2, hf1]⟩
    · exact ⟨_, _, by rw [h2, hf2]⟩
  · rcases hcnt with ⟨_, _, h2⟩ | ⟨_, _, h2⟩ | ⟨_, h2, _⟩ | ⟨_, _, h2⟩ | ⟨_, _, h2⟩ | ⟨_, _, h2⟩
    · rw [hrb] at h2
      rcases h2 with e | e | e <;> cases e
    · rw [hrb] at h2
      rcases h2 with h2 | h2 <;> rcases h2 with e | e | e <;> cases e
    · exact ⟨_, _, by rw [h2, hf1]⟩
    · exact ⟨_, _, by rw [h2, hf1]⟩
    · exact ⟨_, _, by rw [h2, hf2]⟩
    · exact ⟨_, _, by rw [h2, hf1]⟩
  · rcases hcnt with ⟨_, h2, _⟩ | ⟨_, _, h2⟩ | ⟨_, _, h2⟩ | ⟨h1, _, _⟩ | ⟨h1, _, _⟩ | ⟨h1, _, _⟩
    · rw [hra] at h2
      rcases h2 with e | e | e <;> cases e
    · rw [hrb] at h2
      rcases h2 with h2 | h2 <;> rcases h2 with e | e | e <;> cases e
    · rw [hra] at h2
      rcases h2 with h2 | h2 <;> rcases h2 with e | e | e <;> cases e
    · exact Or.inl (by rw [h1, bumped_once])
    · exact Or.inr (by rw [h1, bumped_twice])
    · exact Or.inr (by rw [h1, bumped_twice])
  · have hrA : ∀ (store : Store) (x : CallState),
        stepDuo tz { now := nowA, userId := u, habitId := IdParam.oid H, date := dateA }
          { now := nowB, userId := u, habitId := IdParam.oid H, date := dateB }
          { store := store, a := x, b := CallState.start } true =
        { store := (stepComplete tz
            { now := nowA, userId := u, habitId := IdParam.oid H, date := dateA } store x).2,
          a := (stepComplete tz
            { now := nowA, userId := u, habitId := IdParam.oid H, date := dateA } store x).1,
          b := CallState.start } := fun _ _ => rfl
    have hrB : ∀ (store : Store) (x y : CallState),
        stepDuo tz { now := nowA, userId := u, habitId := IdParam.oid H, date := dateA }
          { now := nowB, userId := u, habitId := IdParam.oid H, date := dateB }
          { store := store, a := x, b := y } false =
        { store := (stepComplete tz
            { now := nowB, userId := u, habitId := IdParam.oid H, date := dateB } store y).2,
          a := x,
          b := (stepComplete tz
            { now := nowB, userId := u, habitId := IdParam.oid H, date := dateB } store y).1 } :=
      fun _ _ _ => rfl
    have hnoB1 : hasCompletion
        { habits := (withRecord s H u dA).habits.map
            (fun y => if y._id == (bumped h)._id then bumped h else y),
          completions := (withRecord s H u dA).completions } H u dB = false := by
      have : (dA == dB) = false := by simpa using hne
      unfold hasCompletion at hnoB ⊢
      simp [withRecord, List.any_append, hnoB, this]
    have hcur1 : findHabit
        { habits := (withRecord s H u dA).habits.map
            (fun y => if y._id == (bumped h)._id then bumped h else y),
          completions := (withRecord s H u dA).completions } H u = some (bumped h) :=
      findHabit_after_save (bumped h) hf hhid hhu _
    have e1 : stepComplete tz
        { now := nowA, userId := u, habitId := IdParam.oid H, date := dateA } s CallState.start =
        (CallState.loaded h, s) := step_start rfl rfl hf
    have e2 : stepComplete tz
        { now := nowA, userId := u, habitId := IdParam.oid H, date := dateA } s
        (CallState.loaded h) = (CallState.inserted h, withRecord s H u dA) :=
      step_insert rfl rfl hdA hnoA
    have e3 : stepComplete tz
        { now := nowA, userId := u, habitId := IdParam.oid H, date := dateA }
        (withRecord s H u dA) (CallState.inserted h) =
        (CallState.done (freshAnswer h),
         { habits := (withRecord s H u dA).habits.map
             (fun y => if y._id == (bumped h)._id then bumped h else y),
           completions := (withRecord s H u dA).completions }) := step_save_any hv
    have e4 : stepComplete tz
        { now := nowB, userId := u, habitId := IdParam.oid H, date := dateB }
        { habits := (withRecord s H u dA).habits.map
            (fun y => if y._id == (bumped h)._id then bumped h else y),
          completions := (withRecord s H u dA).completions } CallState.start =
        (CallState.loaded (bumped h), _) := step_start rfl rfl hcur1
    have e5 : stepComplete tz
        { now := nowB, userId := u, habitId := IdParam.oid H, date := dateB }
        { habits := (withRecord s H u dA).habits.map
            (fun y => if y._id == (bumped h)._id then bumped h else y),
          completions := (withRecord s H u dA).completions } (CallState.loaded (bumped h)) =
        (CallState.inserted (bumped h), _) := step_insert rfl rfl hdB hnoB1
    simp only [runDuo, List.foldl_cons, List.foldl_nil, hrA, hrB, e1, e2, e3, e4, e5,
      step_save_any (show validName (bumped h).name = true from hv)]
    rw [← bumped_twice]
    exact findHabit_after_save (bumped (bumped h)) hcur1 hhid hhu _

/-- Two calls for `sampleHabit`, for 2024-01-01 and 2024-03-01 (UTC), the second call
loading after the first has saved: the stored counters end at 2. -/
theorem concurrent_other_day_counts_witness :
    findHabit (runDuo (fixedZone 0)
        { now := 0, userId := 7, habitId := IdParam.oid 1, date := DateArg.instant 1704096000000 }
        { now := 0, userId := 7, habitId := IdParam.oid 1, date := DateArg.instant 1709280000000 }
        sampleStore [true, true, true, false, false, false]).store 1 7 =
      some { sampleHabit with
        completionCount := sampleHabit.completionCount + 2, streak := sampleHabit.streak + 2 } :=
  (concurrent_other_day_counts (fixedZone 0) sampleStore 1 7 sampleHabit
    1704067200000 1709251200000 0 0 (DateArg.instant 1704096000000)
    (DateArg.instant 1709280000000) [true, false, true, false, true, false]
    (by decide) (by decide) (by decide) (by decide) (by decide) (by decide) (by decide)
    (by decide) (by decide)).2.2.2.2

end Habits
